import Mathlib

/-! # Agent / tool execution and generation subsystem

A shallow embedding of the JavaScript sources of the agent executor, the agent
processes, the plugin manager, the generator service, the rate limiter, the
retry wrappers, the logger's masking and the workshop service, together with
theorems about them.

Conventions of the embedding:

* a JavaScript string is a Lean `String`; substring predicates are computed on
  the list of characters;
* a function that can `throw` returns `Except String α`, the string being the
  message of the thrown `Error`, or `Except Thrown α` where the kind of the error
  is looked at as well;
* calls to the outside world (the `fs` module, `child_process.spawn`, plugin
  handlers) are recorded in an explicit trace, so that "is never called" is a
  statement about that trace;
* `Date.now()` is an explicit argument, a natural number of milliseconds.
-/

namespace AgentSystem

/-! ## Thrown errors -/

/-- The call threw (the promise was rejected). -/
def throws {α : Type} (r : Except String α) : Bool :=
  match r with
  | .error _ => true
  | .ok _ => false

/-! ## JavaScript strings and `path` -/

/-- JavaScript `s.startsWith(t)`. -/
def startsWith (s t : String) : Bool :=
  t.data.isPrefixOf s.data

/-- JavaScript `s.endsWith(t)`. -/
def endsWith (s t : String) : Bool :=
  t.data.reverse.isPrefixOf s.data.reverse

/-- JavaScript `s.includes(t)`, as a decidable proposition. -/
def includes (s t : String) : Prop :=
  t.data <:+: s.data

instance (s t : String) : Decidable (includes s t) := by
  unfold includes; infer_instance

/-- The characters `String.prototype.trim` removes: the white space and the line
terminators of ECMAScript. -/
def isWhiteSpace (c : Char) : Bool :=
  c ∈ ['\t', '\n', '\x0b', '\x0c', '\r', ' ', '\u00a0', '\u1680', '\u2028', '\u2029',
    '\u202f', '\u205f', '\u3000', '\ufeff'] || (0x2000 ≤ c.toNat && c.toNat ≤ 0x200a)

/-- JavaScript `s.trim()`. -/
def trim (s : String) : String :=
  String.mk (((s.data.dropWhile isWhiteSpace).reverse.dropWhile isWhiteSpace).reverse)

/-- JavaScript `s.split(sep)` for a separator of one character. -/
def split (s : String) (sep : Char) : List String :=
  (s.data.splitOn sep).map String.mk

/-- JavaScript `parts.join(sep)` on an array of strings. -/
def join (parts : List String) (sep : String) : String :=
  String.mk (sep.data.intercalate (parts.map String.data))

/-- JavaScript `s.toLowerCase()`, on the letters `A` to `Z`; the other characters
are left as they are. -/
def toLowerCase (s : String) : String :=
  String.mk (s.data.map Char.toLower)

/-- The segment stack kept by POSIX `path.resolve` while it normalises a path:
empty segments and `.` are dropped, `..` removes the last kept segment. -/
def normalizeSegments (segs : List (List Char)) : List (List Char) :=
  segs.foldl
    (fun stack seg =>
      if seg = [] ∨ seg = ['.'] then stack
      else if seg = ['.', '.'] then stack.dropLast
      else stack ++ [seg])
    []

/-- POSIX `path.resolve(p)` for a process whose working directory is `cwd`
(an absolute path): a relative `p` is taken under `cwd`, then the path is
normalised and any trailing separator is removed. -/
def resolve (cwd p : String) : String :=
  let full := if p.data.head? = some '/' then p.data else cwd.data ++ '/' :: p.data
  String.mk ('/' :: List.intercalate ['/'] (normalizeSegments (full.splitOn '/')))

/-- POSIX `path.join(dir, name)` for an already normalised `dir` and a plain
entry name. -/
def pathJoin (dir name : String) : String :=
  resolve "/" (dir ++ "/" ++ name)

/-! ## The `fs` module seen by the agents -/

/-- One entry of `fs.readdir(dir, { withFileTypes: true })`. -/
structure Dirent where
  name : String
  isDirectory : Bool
  deriving DecidableEq, Repr

/-- The `fs.promises` calls the filesystem agent makes. -/
inductive FsCall where
  | readdir (path : String)
  | readFile (path : String)
  | writeFile (path : String) (content : String)
  | mkdir (path : String)
  | rm (path : String)
  deriving DecidableEq, Repr

/-- The behaviour of the `fs.promises` module over a filesystem state `σ`. -/
structure NodeFs (σ : Type) where
  readdir : σ → String → Except String (List Dirent)
  readFile : σ → String → Except String String
  writeFile : σ → String → String → Except String σ
  mkdir : σ → String → Except String σ
  rm : σ → String → Except String σ

/-- What an agent operation leaves behind: its result (or the error it threw),
the filesystem afterwards and the `fs` calls it made, in order. -/
structure FsOutcome (σ α : Type) where
  result : Except String α
  fs : σ
  calls : List FsCall

/-- A file or a directory of the map filesystem. -/
inductive FsNode where
  | file (content : String)
  | dir
  deriving DecidableEq, Repr

/-- A filesystem kept as an association list from absolute path to node. -/
abbrev MapFs := List (String × FsNode)

/-- Replaces (or adds) the node stored at `path`. -/
def MapFs.set (fs : MapFs) (path : String) (node : FsNode) : MapFs :=
  (path, node) :: fs.filter (fun e => e.1 ≠ path)

/-- The `fs.promises` module over the map filesystem. Reading a missing file or
a directory fails, writing over a directory fails, `rm` with `force` never
fails on a missing path. -/
def mapFs : NodeFs MapFs where
  readdir fs path :=
    match fs.lookup path with
    | some .dir =>
        .ok ((fs.filter (fun e => startsWith e.1 (path ++ "/") ∧
                '/' ∉ (e.1.data.drop (path.length + 1)))).map
              (fun e => ⟨String.mk (e.1.data.drop (path.length + 1)), e.2 = .dir⟩))
    | some (.file _) => .error ("ENOTDIR: not a directory, scandir '" ++ path ++ "'")
    | none => .error ("ENOENT: no such file or directory, scandir '" ++ path ++ "'")
  readFile fs path :=
    match fs.lookup path with
    | some (.file content) => .ok content
    | some .dir => .error "EISDIR: illegal operation on a directory, read"
    | none => .error ("ENOENT: no such file or directory, open '" ++ path ++ "'")
  writeFile fs path content :=
    match fs.lookup path with
    | some .dir => .error ("EISDIR: illegal operation on a directory, open '" ++ path ++ "'")
    | _ => .ok (fs.set path (.file content))
  mkdir fs path :=
    match fs.lookup path with
    | some (.file _) => .error ("EEXIST: file already exists, mkdir '" ++ path ++ "'")
    | _ => .ok (fs.set path .dir)
  rm fs path :=
    .ok (fs.filter (fun e => e.1 ≠ path ∧ ¬ startsWith e.1 (path ++ "/")))

/-! ## `agents/filesystem-agent.js` -/

namespace FilesystemAgent

/-- The `allowedRoots` set by the constructor. -/
def allowedRoots : List String :=
  ["/Users/garyoleary/MACK_MCP", "/Users/garyoleary/Desktop", "/Users/garyoleary/Documents"]

/-- `isPathAllowed(targetPath)`: some allowed root is a string prefix of the path. -/
def isPathAllowed (targetPath : String) : Bool :=
  allowedRoots.any (fun root => startsWith targetPath root)

/-- The message of the error thrown for a path outside the allow-list. -/
def accessDenied (resolvedPath : String) : String :=
  "Access denied to path: " ++ resolvedPath

/-- `normalizeAndValidatePath(inputPath)`. -/
def normalizeAndValidatePath (cwd inputPath : String) : Except String String :=
  let resolvedPath := resolve cwd inputPath
  if !isPathAllowed resolvedPath then
    .error (accessDenied resolvedPath)
  else
    .ok resolvedPath

/-- One entry of the result of `list`. -/
structure Item where
  name : String
  type : String
  path : String
  deriving DecidableEq, Repr

/-- The results of the five operations. -/
inductive Result where
  | listing (path : String) (items : List Item)
  | content (text : String)
  | success (path : String)
  deriving DecidableEq, Repr

variable {σ : Type}

/-- `list(directory)`. -/
def list (nfs : NodeFs σ) (cwd : String) (fs : σ) (directory : String) : FsOutcome σ Result :=
  match normalizeAndValidatePath cwd directory with
  | .error e => ⟨.error e, fs, []⟩
  | .ok normalizedPath =>
      match nfs.readdir fs normalizedPath with
      | .error e => ⟨.error e, fs, [.readdir normalizedPath]⟩
      | .ok items =>
          ⟨.ok (.listing normalizedPath
              (items.map fun item =>
                ⟨item.name, if item.isDirectory then "directory" else "file",
                  pathJoin normalizedPath item.name⟩)),
            fs, [.readdir normalizedPath]⟩

/-- `read(filePath)`. -/
def read (nfs : NodeFs σ) (cwd : String) (fs : σ) (filePath : String) : FsOutcome σ Result :=
  match normalizeAndValidatePath cwd filePath with
  | .error e => ⟨.error e, fs, []⟩
  | .ok normalizedPath =>
      match nfs.readFile fs normalizedPath with
      | .error e => ⟨.error e, fs, [.readFile normalizedPath]⟩
      | .ok content => ⟨.ok (.content content), fs, [.readFile normalizedPath]⟩

/-- `write(filePath, content)`. -/
def write (nfs : NodeFs σ) (cwd : String) (fs : σ) (filePath content : String) :
    FsOutcome σ Result :=
  match normalizeAndValidatePath cwd filePath with
  | .error e => ⟨.error e, fs, []⟩
  | .ok normalizedPath =>
      match nfs.writeFile fs normalizedPath content with
      | .error e => ⟨.error e, fs, [.writeFile normalizedPath content]⟩
      | .ok fs' => ⟨.ok (.success normalizedPath), fs', [.writeFile normalizedPath content]⟩

/-- `mkdir(dirPath)`. -/
def mkdir (nfs : NodeFs σ) (cwd : String) (fs : σ) (dirPath : String) : FsOutcome σ Result :=
  match normalizeAndValidatePath cwd dirPath with
  | .error e => ⟨.error e, fs, []⟩
  | .ok normalizedPath =>
      match nfs.mkdir fs normalizedPath with
      | .error e => ⟨.error e, fs, [.mkdir normalizedPath]⟩
      | .ok fs' => ⟨.ok (.success normalizedPath), fs', [.mkdir normalizedPath]⟩

/-- `delete(filePath)`. -/
def delete (nfs : NodeFs σ) (cwd : String) (fs : σ) (filePath : String) : FsOutcome σ Result :=
  match normalizeAndValidatePath cwd filePath with
  | .error e => ⟨.error e, fs, []⟩
  | .ok normalizedPath =>
      match nfs.rm fs normalizedPath with
      | .error e => ⟨.error e, fs, [.rm normalizedPath]⟩
      | .ok fs' => ⟨.ok (.success normalizedPath), fs', [.rm normalizedPath]⟩

/-- The path is one of the allowed roots or lies below one: it is the root
itself or starts with the root followed by the path separator. -/
def nestedUnderAllowedRoot (resolvedPath : String) : Bool :=
  allowedRoots.any (fun root => resolvedPath = root ∨ startsWith resolvedPath (root ++ "/"))

end FilesystemAgent

/-! ## JavaScript values, as produced by `JSON.parse` -/

/-- A JavaScript value: what `JSON.parse` can return, and `undefined`, the
value of a property that is not there. A number is kept as an integer; the only
property of a number the code below depends on is whether it is zero. -/
inductive JSValue where
  | undefined
  | null
  | bool (b : Bool)
  | num (n : Int)
  | str (s : String)
  | arr (items : List JSValue)
  | obj (fields : List (String × JSValue))

namespace JSValue

/-- JavaScript truthiness: `undefined`, `null`, `false`, `0` and `''` are falsy,
everything else (every array and object included) is truthy. -/
def truthy : JSValue → Bool
  | undefined => false
  | null => false
  | bool b => b
  | num n => n ≠ 0
  | str s => s ≠ ""
  | arr _ => true
  | obj _ => true

/-- The natural number a canonical array index spells (`'0'`, `'7'`, `'12'`,
not `'007'`), if the key is one. -/
def arrayIndex (key : String) : Option Nat :=
  if key.data ≠ [] ∧ key.data.all Char.isDigit ∧ (key.data.head? ≠ some '0' ∨ key.data.length = 1)
  then some (key.data.foldl (fun n c => 10 * n + (c.toNat - 48)) 0)
  else none

/-- The own property `v[key]` of a value that is neither `null` nor
`undefined`: a field of an object, an element or the length of an array or of a
string; `undefined` when there is none. Inherited members of the prototypes are
not modelled. -/
def ownProp (v : JSValue) (key : String) : JSValue :=
  match v with
  | obj fields => (fields.lookup key).getD undefined
  | arr items =>
      match arrayIndex key with
      | some i => items.getD i undefined
      | none => if key = "length" then num items.length else undefined
  | str s =>
      match arrayIndex key with
      | some i => ((s.data.get? i).map fun c => str (String.mk [c])).getD undefined
      | none => if key = "length" then num s.data.length else undefined
  | _ => undefined

/-- The value is `null` or `undefined`. -/
def isNullish : JSValue → Bool
  | undefined => true
  | null => true
  | _ => false

/-- The value is `undefined`. -/
def isUndefined : JSValue → Bool
  | undefined => true
  | _ => false

/-- The property access `v[key]`, which throws a `TypeError` on `null` and on
`undefined`. -/
def getProp (v : JSValue) (key : String) : Except String JSValue :=
  if v.isNullish then
    .error ("TypeError: Cannot read properties of " ++
      (if v.isUndefined then "undefined" else "null") ++ " (reading '" ++ key ++ "')")
  else
    .ok (v.ownProp key)

/-- The value has no property `key`: reading it gives `undefined` or throws. -/
def lacks (v : JSValue) (key : String) : Bool :=
  v.isNullish || (v.ownProp key).isUndefined

/-- The value is an array with at least one element. -/
def isNonEmptyArray : JSValue → Bool
  | arr (_ :: _) => true
  | _ => false

/-- The value is a string other than `''`. -/
def isNonEmptyString : JSValue → Bool
  | str s => s ≠ ""
  | _ => false

/-- The value is `true` or `false`. -/
def isBoolean : JSValue → Bool
  | bool _ => true
  | _ => false

/-- The value is a non-empty string, a non-empty array or an object with at
least one field. -/
def isPresentNonEmpty : JSValue → Bool
  | str s => s ≠ ""
  | arr (_ :: _) => true
  | obj (_ :: _) => true
  | _ => false

end JSValue

/-! ## `generator-service.js`: the specification validators -/

namespace GeneratorService

open JSValue

/-- The value of `fields.filter(field => !v[field])`: the listed fields whose
value in `v` is falsy. It throws when `v` is `null` or `undefined` and a field
is read. -/
def filterMissing (v : JSValue) : List String → Except String (List String)
  | [] => .ok []
  | field :: rest => do
      let x ← getProp v field
      let others ← filterMissing v rest
      pure (if !x.truthy then field :: others else others)

/-- The `requiredFields` of `_validateToolSpec`. -/
def toolRequiredFields : List String :=
  ["name", "description", "type", "parameters", "sourceCode"]

/-- The `paramRequired` of `_validateToolSpec`. -/
def paramRequired : List String :=
  ["name", "type", "description", "required"]

/-- The `forEach` over `spec.parameters` of `_validateToolSpec`, from the
parameter of index `index` on. -/
def validateParams : List JSValue → Nat → Except String Unit
  | [], _ => .ok ()
  | param :: rest, index => do
      let missingParamFields ← filterMissing param paramRequired
      if missingParamFields.length > 0 then
        throw ("Invalid parameter " ++ toString (index + 1) ++
          ": missing required fields: " ++ ", ".intercalate missingParamFields)
      validateParams rest (index + 1)

/-- `_validateToolSpec(spec)`: returns normally or throws. -/
def _validateToolSpec (spec : JSValue) : Except String Unit := do
  let missingFields ← filterMissing spec toolRequiredFields
  if missingFields.length > 0 then
    throw ("Invalid tool specification: missing required fields: " ++
      ", ".intercalate missingFields)
  match ← getProp spec "parameters" with
  | arr (param :: rest) => validateParams (param :: rest) 0
  | _ => throw "Invalid tool specification: parameters must be a non-empty array"

/-- The `requiredFields` of `_validateWorkflowSpec`. -/
def workflowRequiredFields : List String :=
  ["name", "description", "steps"]

/-- The `stepRequired` of `_validateWorkflowSpec`. -/
def stepRequired : List String :=
  ["tool", "description", "parameters"]

/-- The `forEach` over `spec.steps` of `_validateWorkflowSpec`, from the step of
index `index` on. -/
def validateSteps : List JSValue → Nat → Except String Unit
  | [], _ => .ok ()
  | step :: rest, index => do
      let missingStepFields ← filterMissing step stepRequired
      if missingStepFields.length > 0 then
        throw ("Invalid step " ++ toString (index + 1) ++
          ": missing required fields: " ++ ", ".intercalate missingStepFields)
      validateSteps rest (index + 1)

/-- `_validateWorkflowSpec(spec)`: returns normally or throws. -/
def _validateWorkflowSpec (spec : JSValue) : Except String Unit := do
  let missingFields ← filterMissing spec workflowRequiredFields
  if missingFields.length > 0 then
    throw ("Invalid workflow specification: missing required fields: " ++
      ", ".intercalate missingFields)
  match ← getProp spec "steps" with
  | arr (step :: rest) => validateSteps (step :: rest) 0
  | _ => throw "Invalid workflow specification: steps must be a non-empty array"

/-- A tool parameter as the generation prompt describes it: non-empty `name`,
`type` and `description`, and a boolean `required`. -/
def wellFormedParam (param : JSValue) : Bool :=
  (param.ownProp "name").isNonEmptyString && (param.ownProp "type").isNonEmptyString &&
  (param.ownProp "description").isNonEmptyString && (param.ownProp "required").isBoolean

/-- A tool specification as the generation prompt describes it: non-empty
`name`, `description`, `type` and `sourceCode`, and a non-empty array of
well-formed parameters. -/
def wellFormedToolSpec (spec : JSValue) : Bool :=
  (spec.ownProp "name").isNonEmptyString && (spec.ownProp "description").isNonEmptyString &&
  (spec.ownProp "type").isNonEmptyString && (spec.ownProp "sourceCode").isNonEmptyString &&
  match spec.ownProp "parameters" with
  | arr (param :: rest) => (param :: rest).all wellFormedParam
  | _ => false

/-- A workflow step in which `tool`, `description` and `parameters` are present
and non-empty. -/
def stepFieldsPresent (step : JSValue) : Bool :=
  stepRequired.all fun field => (step.ownProp field).isPresentNonEmpty

/-- A workflow specification in which `name`, `description` and `steps` are
present and non-empty, and so are the three fields of every step. -/
def workflowFieldsPresent (spec : JSValue) : Bool :=
  (workflowRequiredFields.all fun field => (spec.ownProp field).isPresentNonEmpty) &&
  match spec.ownProp "steps" with
  | arr steps => steps.all stepFieldsPresent
  | _ => false

end GeneratorService

/-! ## `utils/rate-limiter.js` -/

/-- The limits of one model: an entry of `modelLimits`. -/
structure Limits where
  requestsPerHour : Nat
  resetIntervalMs : Nat
  retryDelayMs : Nat
  deriving DecidableEq, Repr

/-- The `globalConfig` set by `updateGlobalLimits`. -/
structure GlobalConfig where
  windowMs : Nat
  max : Nat
  deriving DecidableEq, Repr

/-- The state of a `RateLimiter`. The entries of `modelLimits` are read by the
constructor from the configuration manager, which is not part of the sources
at hand, so the table is a field like the others; `globalConfig` is `none`
until `updateGlobalLimits` is called; the three maps are keyed by model id. -/
structure RateLimiter where
  modelLimits : List (String × Limits)
  globalConfig : Option GlobalConfig
  requestCounts : String → Option Nat
  lastResetTime : String → Option Nat
  cooldowns : String → Option Nat

namespace RateLimiter

/-- The limiter the constructor builds: the three maps are empty. -/
def fresh (modelLimits : List (String × Limits)) (globalConfig : Option GlobalConfig) :
    RateLimiter :=
  ⟨modelLimits, globalConfig, fun _ => none, fun _ => none, fun _ => none⟩

/-- `Map.prototype.set`. -/
def mapSet (m : String → Option Nat) (key : String) (value : Nat) : String → Option Nat :=
  fun k => if k = key then some value else m k

/-- JavaScript `a || b` on an optional number: `b` when `a` is `undefined` or `0`. -/
def orElse (a : Option Nat) (b : Nat) : Nat :=
  match a with
  | some n => if n = 0 then b else n
  | none => b

/-- `Math.ceil(ms / 1000)`. -/
def ceilSeconds (ms : Nat) : Nat :=
  (ms + 999) / 1000

/-- The `limits` of `checkRateLimit`: the entry of `modelLimits`, or the defaults
built from `globalConfig`. This is the lookup for a model id that does not name
a member of `Object.prototype`; for such a name `modelLimits[modelId]` is the
inherited member, which carries no limit. -/
def limitsOf (rl : RateLimiter) (modelId : String) : Limits :=
  match rl.modelLimits.lookup modelId with
  | some limits => limits
  | none =>
      { requestsPerHour := orElse (rl.globalConfig.map (·.max)) 100
        resetIntervalMs := orElse (rl.globalConfig.map (·.windowMs)) 60000
        retryDelayMs := 5000 }

/-- The message thrown while the model is in cooldown. -/
def cooldownMessage (modelId : String) (remainingSeconds : Nat) : String :=
  "Model " ++ modelId ++ " in cooldown. Try again in " ++ toString remainingSeconds ++ " seconds."

/-- The message thrown when the request count has reached the limit. -/
def exceededMessage (modelId : String) (cooldownTime : Nat) : String :=
  "Rate limit exceeded for " ++ modelId ++ ". Try again in " ++
    toString (ceilSeconds cooldownTime) ++ " seconds."

/-- `checkRateLimit(modelId)` at time `now`: the limiter afterwards, and `true`
or the thrown error. -/
def checkRateLimit (rl : RateLimiter) (now : Nat) (modelId : String) :
    RateLimiter × Except String Bool :=
  let cooldownUntil := rl.cooldowns modelId
  if orElse cooldownUntil 0 ≠ 0 ∧ now < orElse cooldownUntil 0 then
    (rl, .error (cooldownMessage modelId (ceilSeconds (orElse cooldownUntil 0 - now))))
  else
    let limits := limitsOf rl modelId
    let rl1 : RateLimiter :=
      if (rl.lastResetTime modelId).isNone then
        { rl with lastResetTime := mapSet rl.lastResetTime modelId now
                  requestCounts := mapSet rl.requestCounts modelId 0 }
      else rl
    let timeSinceReset : Int := (now : Int) - ((rl1.lastResetTime modelId).getD 0 : Nat)
    let rl2 : RateLimiter :=
      if timeSinceReset ≥ (limits.resetIntervalMs : Int) then
        { rl1 with lastResetTime := mapSet rl1.lastResetTime modelId now
                   requestCounts := mapSet rl1.requestCounts modelId 0 }
      else rl1
    let currentCount := orElse (rl2.requestCounts modelId) 0
    if currentCount ≥ limits.requestsPerHour then
      let cooldownTime := limits.retryDelayMs
      ({ rl2 with cooldowns := mapSet rl2.cooldowns modelId (now + cooldownTime) },
        .error (exceededMessage modelId cooldownTime))
    else
      ({ rl2 with requestCounts := mapSet rl2.requestCounts modelId (currentCount + 1) },
        .ok true)

/-- The object `getCooldownStatus` returns; `resetTime` is kept as the
millisecond timestamp the `Date` is built from. -/
structure CooldownStatus where
  remainingMs : Int
  resetTime : Nat
  deriving DecidableEq, Repr

/-- `getCooldownStatus(modelId)` at time `now`; `none` is `null`. -/
def getCooldownStatus (rl : RateLimiter) (now : Nat) (modelId : String) :
    Option CooldownStatus :=
  let cooldownUntil := rl.cooldowns modelId
  if orElse cooldownUntil 0 = 0 ∨ now ≥ orElse cooldownUntil 0 then
    none
  else
    some ⟨(orElse cooldownUntil 0 : Nat) - (now : Int), orElse cooldownUntil 0⟩

/-- Successive calls of `checkRateLimit(modelId)` at the given times: the
limiter after the last one, and the outcome of each call. -/
def checkRateLimitAt (rl : RateLimiter) (modelId : String) :
    List Nat → RateLimiter × List (Except String Bool)
  | [] => (rl, [])
  | now :: later =>
      let first := checkRateLimit rl now modelId
      let others := checkRateLimitAt first.1 modelId later
      (others.1, first.2 :: others.2)

end RateLimiter

/-! ## `workshop-service.js`: workflow execution -/

namespace WorkshopService

/-- One step of a stored workflow: the `tool` whose script is run, and the
`name` copied into the step's result (`none` when the step has no `name`). -/
structure Step where
  tool : String
  name : Option String
  deriving DecidableEq, Repr

/-- A call of `child_process.spawn(command, args)`. -/
structure SpawnCall where
  command : String
  args : List String
  deriving DecidableEq, Repr

/-- What a subprocess has done by the time its `close` event fires: everything
it wrote to its two streams, and its exit code (`none` when it was ended by a
signal, in which case the code passed to the listener is `null`). -/
structure ProcOutcome where
  stdout : String
  stderr : String
  code : Option Int
  deriving DecidableEq, Repr

/-- The operating system as `executeStep` sees it: what the subprocess started
by a `spawn` call does, given how many subprocesses were started before it. -/
abbrev Spawner := Nat → SpawnCall → ProcOutcome

/-- The value a successful step resolves with. -/
structure StepResult where
  output : String
  step : Option String
  deriving DecidableEq, Repr

/-- The `toolPath` of `executeStep`. -/
def toolPath (toolsDir : String) (step : Step) : String :=
  pathJoin (pathJoin toolsDir "tools") (step.tool ++ ".js")

/-- The `spawn` call `executeStep` makes for a step; `params` is
`JSON.stringify(params)`. -/
def spawnCallOf (toolsDir : String) (params : String) (step : Step) : SpawnCall :=
  ⟨"node", [toolPath toolsDir step, params]⟩

/-- `executeStep(step, params)`, as the subprocess number `spawned`: the value
the promise settles with. -/
def executeStep (os : Spawner) (toolsDir : String) (spawned : Nat) (step : Step)
    (params : String) : Except String StepResult :=
  let process := os spawned (spawnCallOf toolsDir params step)
  if process.code ≠ some 0 then
    .error ("Step failed: " ++ process.stderr)
  else
    .ok ⟨process.stdout, step.name⟩

/-- The `for` loop of `executeWorkflow` over the remaining steps: the results
(or the error of the step that failed) and the `spawn` calls made, in order. -/
def executeSteps (os : Spawner) (toolsDir params : String) :
    List Step → Nat → Except String (List StepResult) × List SpawnCall
  | [], _ => (.ok [], [])
  | step :: rest, spawned =>
      match executeStep os toolsDir spawned step params with
      | .error e => (.error e, [spawnCallOf toolsDir params step])
      | .ok result =>
          let later := executeSteps os toolsDir params rest (spawned + 1)
          (later.1.map (result :: ·), spawnCallOf toolsDir params step :: later.2)

/-- `executeWorkflow(name, params)`. `readWorkflow` stands for reading and
parsing the workflow file at the given path. -/
def executeWorkflow (os : Spawner) (readWorkflow : String → Except String (List Step))
    (toolsDir name params : String) : Except String (List StepResult) × List SpawnCall :=
  match readWorkflow (pathJoin (pathJoin toolsDir "workflows") (name ++ ".json")) with
  | .error e => (.error e, [])
  | .ok steps => executeSteps os toolsDir params steps 0

end WorkshopService

/-! ## JavaScript `Map` -/

/-- A `Map` with string keys, in insertion order. -/
abbrev JSMap (β : Type) := List (String × β)

namespace JSMap

variable {β : Type}

/-- `Map.prototype.get`; `none` is `undefined`. -/
def get (m : JSMap β) (key : String) : Option β :=
  m.lookup key

/-- `Map.prototype.has`. -/
def has (m : JSMap β) (key : String) : Bool :=
  (m.lookup key).isSome

/-- `Map.prototype.set`: an existing key keeps its place. -/
def set (m : JSMap β) (key : String) (value : β) : JSMap β :=
  if m.has key then m.map (fun e => if e.1 = key then (key, value) else e)
  else m ++ [(key, value)]

/-- `Map.prototype.delete`. -/
def delete (m : JSMap β) (key : String) : JSMap β :=
  m.filter (fun e => e.1 ≠ key)

/-- `Array.from(m.keys())`. -/
def keys (m : JSMap β) : List String :=
  m.map (·.1)

end JSMap

/-! ## `utils/plugin-config.js` -/

namespace PluginConfigManager

open JSValue

/-- The `ConfigManager.get` the plugin configuration asks for environment
variables. The configuration manager is not part of the sources at hand: it is
taken as given, and may return any value or throw. -/
abbrev ConfigGet := JSValue → Except String JSValue

/-- The variable is present in the environment configuration: `ConfigManager.get`
returns a truthy value for it. -/
def envVarPresent (configGet : ConfigGet) (varName : JSValue) : Bool :=
  match configGet varName with
  | .ok value => value.truthy
  | .error _ => false

/-- The `filter` over `requiredEnvVars`: the variables for which
`!ConfigManager.get(varName)` holds. -/
def missingVars (configGet : ConfigGet) : List JSValue → Except String (List JSValue)
  | [] => .ok []
  | varName :: rest => do
      let value ← configGet varName
      let others ← missingVars configGet rest
      pure (if !value.truthy then varName :: others else others)

/-- The `try` block of `validatePluginConfig(pluginName)`, `config` being
`this.config`. -/
def validatePluginConfigBody (configGet : ConfigGet) (config : JSValue) (pluginName : String) :
    Except String Bool := do
  let plugins ← getProp config "plugins"
  let pluginConfig := if plugins.isNullish then undefined else plugins.ownProp pluginName
  if !pluginConfig.truthy then
    return false
  if !(← getProp pluginConfig "enabled").truthy then
    return false
  let requiredEnvVars ← getProp pluginConfig "requiredEnvVars"
  if requiredEnvVars.truthy then
    match requiredEnvVars with
    | arr varNames =>
        if (← missingVars configGet varNames).length > 0 then
          return false
    | _ => throw "TypeError: pluginConfig.requiredEnvVars.filter is not a function"
  return true

/-- `validatePluginConfig(pluginName)`: the `catch` turns every error into
`false`. -/
def validatePluginConfig (configGet : ConfigGet) (config : JSValue) (pluginName : String) :
    Bool :=
  match validatePluginConfigBody configGet config pluginName with
  | .ok result => result
  | .error _ => false

/-- The entry of the configuration for a plugin name, `undefined` when there is
none. -/
def pluginEntry (config : JSValue) (pluginName : String) : JSValue :=
  (config.ownProp "plugins").ownProp pluginName

/-- The variables an entry lists in its `requiredEnvVars`. -/
def listedEnvVars (entry : JSValue) : List JSValue :=
  match entry.ownProp "requiredEnvVars" with
  | arr varNames => varNames
  | _ => []

/-- The `requiredEnvVars` of an entry is a list, or is left out (or falsy). -/
def requiredEnvVarsIsList (entry : JSValue) : Bool :=
  match entry.ownProp "requiredEnvVars" with
  | arr _ => true
  | other => !other.truthy

end PluginConfigManager

/-! ## `utils/plugin-manager.js` -/

/-- What `require(pluginPath)` returns: whether the module has the `search`
capability, and its `hooks` map (`none` when it declares none), whose handlers
are values of type `H`. -/
structure PluginModule (H : Type) where
  hasSearch : Bool
  hooks : Option (List (String × H))

/-- The state of the `PluginManager`: the `plugins` and the `hooks` maps. -/
structure PluginManager (H : Type) where
  plugins : JSMap (PluginModule H)
  hooks : JSMap (List H)

/-- What the plugin manager finds around it when `loadPlugins` runs. -/
structure PluginEnv (H : Type) where
  /-- The plugin directory. -/
  pluginDirectory : String
  /-- The outcome of `fs.mkdir(pluginDirectory, { recursive: true })`. -/
  mkdir : Except String Unit
  /-- The outcome of `fs.readdir(pluginDirectory)`. -/
  readdir : Except String (List String)
  /-- The outcome of `require(path)`. -/
  require : String → Except String (PluginModule H)
  /-- The method `validatePlugin` of the `PluginConfig` object, `none` when the
  object has no such method. -/
  validatePlugin : Option (PluginModule H → Except String Bool)
  /-- The `config` of the `PluginConfig` object once `loadConfig` has run. -/
  config : JSValue
  /-- The configuration manager's `get`. -/
  configGet : PluginConfigManager.ConfigGet

namespace PluginManager

variable {H A R : Type}

/-- The manager the constructor builds. -/
def empty : PluginManager H := ⟨[], []⟩

/-- POSIX `path.basename(p, ext)`. -/
def basename (p ext : String) : String :=
  let segment := String.mk (((p.data.splitOn '/').filter (· ≠ [])).getLastD [])
  if p = ext then ""
  else if endsWith segment ext ∧ ext.length < segment.length then
    String.mk (segment.data.take (segment.length - ext.length))
  else segment

/-- `registerHook(hookName, handler)`. -/
def registerHook (pm : PluginManager H) (hookName : String) (handler : H) : PluginManager H :=
  let hooks := if !pm.hooks.has hookName then pm.hooks.set hookName [] else pm.hooks
  { pm with hooks := hooks.set hookName ((hooks.get hookName).getD [] ++ [handler]) }

/-- The `for` loop of `executeHook`: the results of the handlers (or the error
of the first one that throws) and the handlers invoked, in order. -/
def runHandlers (call : H → A → Except String R) (args : A) :
    List H → Except String (List R) × List H
  | [] => (.ok [], [])
  | handler :: rest =>
      match call handler args with
      | .error e => (.error e, [handler])
      | .ok result =>
          let later := runHandlers call args rest
          (later.1.map (result :: ·), handler :: later.2)

/-- `executeHook(hookName, ...args)`; `call handler args` is the outcome of
`await handler(...args)`. -/
def executeHook (call : H → A → Except String R) (pm : PluginManager H) (hookName : String)
    (args : A) : Except String (List R) × List H :=
  runHandlers call args ((pm.hooks.get hookName).getD [])

/-- The manager after a sequence of `registerHook` calls on a new manager. -/
def registerAll (registrations : List (String × H)) : PluginManager H :=
  registrations.foldl (fun pm r => registerHook pm r.1 r.2) empty

/-- The handlers a sequence of `registerHook` calls registers under a name, in
registration order. -/
def registeredUnder (registrations : List (String × H)) (hookName : String) : List H :=
  (registrations.filter (fun r => r.1 = hookName)).map (·.2)

/-- `loadPlugin(pluginPath)`: the module (or the error thrown) and the manager
afterwards. -/
def loadPlugin (env : PluginEnv H) (pm : PluginManager H) (pluginPath : String) :
    Except String (PluginModule H) × PluginManager H :=
  match env.require pluginPath with
  | .error e => (.error e, pm)
  | .ok pluginModule =>
      let pluginName := basename pluginPath ".js"
      match env.validatePlugin with
      | none => (.error "TypeError: PluginConfig.validatePlugin is not a function", pm)
      | some validatePlugin =>
          match validatePlugin pluginModule with
          | .error e => (.error e, pm)
          | .ok false => (.error ("Invalid plugin structure: " ++ pluginName), pm)
          | .ok true =>
              let pm1 := { pm with plugins := pm.plugins.set pluginName pluginModule }
              let pm2 :=
                match pluginModule.hooks with
                | some hooks => hooks.foldl (fun pm r => registerHook pm r.1 r.2) pm1
                | none => pm1
              (.ok pluginModule, pm2)

/-- The `for` loop of `loadPlugins` over the remaining directory entries. -/
def loadPluginFiles (env : PluginEnv H) :
    List String → PluginManager H → Except String Unit × PluginManager H
  | [], pm => (.ok (), pm)
  | file :: rest, pm =>
      if endsWith file ".js" then
        let pluginName := basename file ".js"
        let isEnabled :=
          PluginConfigManager.validatePluginConfig env.configGet env.config pluginName
        if isEnabled then
          match loadPlugin env pm (pathJoin env.pluginDirectory file) with
          | (.error e, pm') => (.error e, pm')
          | (.ok _, pm') => loadPluginFiles env rest pm'
        else loadPluginFiles env rest pm
      else loadPluginFiles env rest pm

/-- The `try` block of `loadPlugins`. -/
def loadPluginsBody (env : PluginEnv H) (pm : PluginManager H) :
    Except String Unit × PluginManager H :=
  match env.mkdir with
  | .error e => (.error e, pm)
  | .ok _ =>
      match env.readdir with
      | .error e => (.error e, pm)
      | .ok pluginFiles => loadPluginFiles env pluginFiles pm

/-- `loadPlugins()`: the `catch` logs the error and lets the call return. -/
def loadPlugins (env : PluginEnv H) (pm : PluginManager H) :
    Except String Unit × PluginManager H :=
  match loadPluginsBody env pm with
  | (.error _, pm') => (.ok (), pm')
  | (.ok _, pm') => (.ok (), pm')

/-- `listPlugins()`. -/
def listPlugins (pm : PluginManager H) : List String :=
  pm.plugins.keys

/-- A plugin directory `/app/plugins` holding the given files, of which
`good.js` is a plugin with one hook and every other file fails to load; the
configuration enables both `bad` and `good` and asks for no environment
variable. -/
def sampleEnv (validatePlugin : Option (PluginModule Nat → Except String Bool))
    (files : List String) : PluginEnv Nat where
  pluginDirectory := "/app/plugins"
  mkdir := .ok ()
  readdir := .ok files
  require path :=
    if path = "/app/plugins/good.js" then .ok ⟨true, some [("search:preprocess", 1)]⟩
    else .error "SyntaxError: Unexpected end of input"
  validatePlugin := validatePlugin
  config := .obj [("plugins", .obj [("bad", .obj [("enabled", .bool true)]),
    ("good", .obj [("enabled", .bool true)])])]
  configGet := fun _ => .ok .undefined

end PluginManager

/-! ## The line protocol of the agent processes -/

/-- The tokens of a chunk read from the input stream, as the `data` handlers of
the three agent processes compute them: `data.toString().trim().split(' ')`. -/
def tokens (data : String) : List String :=
  split (trim data) ' '

/-- A string that is not empty and contains no white space. -/
def isToken (s : String) : Bool :=
  !s.data.isEmpty && s.data.all (fun c => !isWhiteSpace c)

/-! ## Plain objects used as tables -/

/-- The names an object literal inherits from `Object.prototype`. -/
def objectPrototypeMembers : List String :=
  ["constructor", "__defineGetter__", "__defineSetter__", "hasOwnProperty",
    "__lookupGetter__", "__lookupSetter__", "isPrototypeOf", "propertyIsEnumerable",
    "toString", "valueOf", "__proto__", "toLocaleString"]

/-- What `table[key]` finds in a plain object: an own property, a member
inherited from `Object.prototype` (a function, or the prototype itself for
`__proto__`: truthy in any case), or nothing (`undefined`). -/
inductive Lookup (β : Type) where
  | own (value : β)
  | inherited
  | absent
  deriving DecidableEq, Repr

/-- The lookup `table[key]` in a plain object whose own properties are `table`. -/
def lookupProp {β : Type} (table : List (String × β)) (key : String) : Lookup β :=
  match table.lookup key with
  | some value => .own value
  | none => if key ∈ objectPrototypeMembers then .inherited else .absent

/-- The assignment `table[key] = value` on a plain object. Assigning to
`__proto__` replaces the prototype and adds no own property; the replaced
prototype is not modelled. -/
def assignProp {β : Type} (table : List (String × β)) (key : String) (value : β) :
    List (String × β) :=
  if key = "__proto__" then table else JSMap.set table key value

/-- JavaScript `delete table[key]`. -/
def deleteProp {β : Type} (table : List (String × β)) (key : String) : List (String × β) :=
  table.filter (fun e => e.1 ≠ key)

/-- The key is an integer index: `Object.keys` lists such keys first, in
ascending numeric order. -/
def integerIndex (key : String) : Option Nat :=
  match JSValue.arrayIndex key with
  | some i => if i < 2 ^ 32 - 1 then some i else none
  | none => none

/-- JavaScript `Object.keys(table)`: the integer indices in ascending order,
then the other keys in insertion order. -/
def objectKeys {β : Type} (table : List (String × β)) : List String :=
  ((table.map (·.1)).filter (fun key => (integerIndex key).isSome)).insertionSort
      (fun a b => (integerIndex a).getD 0 ≤ (integerIndex b).getD 0) ++
    (table.map (·.1)).filter (fun key => (integerIndex key).isNone)

/-! ## `agents/mcp-agent-executor.js` -/

namespace MCPAgentExecutor

/-- An entry of `agentConfigs`: how to spawn an agent process. -/
structure AgentConfig where
  id : String
  command : String
  args : List String
  deriving DecidableEq, Repr

/-- The `ChildProcess` object of an agent: the `spawn` call it comes from, the
chunks written to its input stream and whether that stream has been ended, and
the one-shot `data` listeners waiting on its output and error streams, each
named by the number of the `executeCommand` call that attached it. -/
structure AgentProcess where
  command : String
  args : List String
  stdinChunks : List String
  stdinEnded : Bool
  stdoutOnce : List Nat
  stderrOnce : List Nat
  deriving DecidableEq, Repr

/-- The state of the executor: the processes spawned so far (a handle is an
index into this list), `agents`, which maps an agent id to the handle of its
process, `agentConfigs`, and the number of `executeCommand` calls made. -/
structure Executor where
  processes : List AgentProcess
  agents : List (String × Nat)
  agentConfigs : List (String × AgentConfig)
  commands : Nat
  deriving DecidableEq, Repr

/-- The executor the constructor builds, once `loadAgents` has filled
`agentConfigs`. -/
def init (agentConfigs : List (String × AgentConfig)) : Executor :=
  ⟨[], [], agentConfigs, 0⟩

/-- The synchronous outcome of `child_process.spawn(command, args)`: it may throw. -/
abbrev Spawn := String → List String → Except String Unit

/-- `initializeAgent(agentId)`: the handle of the new process, or the error
thrown, and the executor afterwards. -/
def initializeAgent (spawn : Spawn) (ex : Executor) (agentId : String) :
    Except String Nat × Executor :=
  match lookupProp ex.agentConfigs agentId with
  | .absent => (.error ("Agent not found: " ++ agentId), ex)
  | .inherited =>
      (.error "TypeError [ERR_INVALID_ARG_TYPE]: The \"file\" argument must be of type string. Received undefined", ex)
  | .own config =>
      match spawn config.command config.args with
      | .error e => (.error e, ex)
      | .ok _ =>
          (.ok ex.processes.length,
            { ex with
              processes := ex.processes ++ [⟨config.command, config.args, [], false, [], []⟩]
              agents := assignProp ex.agents agentId ex.processes.length })

/-- `listActiveAgents()`. -/
def listActiveAgents (ex : Executor) : List String :=
  objectKeys ex.agents

/-- The `fullCommand` of `executeCommand`; `args` is `normalizedArgs`. -/
def fullCommand (command : String) (args : List String) : String :=
  trim (command ++ " " ++ join args " ")

/-- `executeCommand(agentId, command, ...args)`, up to the point where the
promise is returned: the error the promise is rejected with at once, if any, and
the executor afterwards, in which the line has been written to the agent's input
stream and the two one-shot listeners are attached. -/
def executeCommand (ex : Executor) (agentId command : String) (args : List String) :
    Except String Unit × Executor :=
  match lookupProp ex.agents agentId with
  | .absent => (.error ("Agent not found: " ++ agentId), { ex with commands := ex.commands + 1 })
  | .inherited =>
      (.error "TypeError: Cannot read properties of undefined (reading 'write')",
        { ex with commands := ex.commands + 1 })
  | .own handle =>
      (.ok (),
        { ex with
          processes := ex.processes.modify
            (fun agent =>
              { agent with
                stdinChunks := agent.stdinChunks ++ [fullCommand command args ++ "\n"]
                stdoutOnce := agent.stdoutOnce ++ [ex.commands]
                stderrOnce := agent.stderrOnce ++ [ex.commands] })
            handle
          commands := ex.commands + 1 })

/-- A `data` event on the output stream of a process: the one-shot listeners
attached to it run and are removed. -/
def stdoutData (ex : Executor) (handle : Nat) : Executor :=
  { ex with processes := ex.processes.modify (fun agent => { agent with stdoutOnce := [] }) handle }

/-- A `data` event on the error stream of a process: the one-shot listeners
attached to that stream run and are removed; those on the output stream stay. -/
def stderrData (ex : Executor) (handle : Nat) : Executor :=
  { ex with processes := ex.processes.modify (fun agent => { agent with stderrOnce := [] }) handle }

/-- `closeAgent(agentId)`. -/
def closeAgent (ex : Executor) (agentId : String) : Except String Unit × Executor :=
  match lookupProp ex.agents agentId with
  | .absent => (.ok (), ex)
  | .inherited => (.error "TypeError: Cannot read properties of undefined (reading 'end')", ex)
  | .own handle =>
      (.ok (),
        { ex with
          processes := ex.processes.modify (fun agent => { agent with stdinEnded := true }) handle
          agents := deleteProp ex.agents agentId })

/-- The loop of `closeAllAgents` over the keys listed when it started. -/
def closeEach : List String → Executor → Except String Unit × Executor
  | [], ex => (.ok (), ex)
  | agentId :: rest, ex =>
      match closeAgent ex agentId with
      | (.error e, ex') => (.error e, ex')
      | (.ok _, ex') => closeEach rest ex'

/-- `closeAllAgents()`. -/
def closeAllAgents (ex : Executor) : Except String Unit × Executor :=
  closeEach (objectKeys ex.agents) ex

/-- What can happen to the executor between two states: a call of
`initializeAgent`, of `executeCommand` or of `closeAgent`, or a `data` event on
the output or on the error stream of a process. -/
inductive Event where
  | initializeAgent (agentId : String)
  | executeCommand (agentId command : String) (args : List String)
  | closeAgent (agentId : String)
  | stdoutData (handle : Nat)
  | stderrData (handle : Nat)
  deriving DecidableEq, Repr

/-- The executor after an event. -/
def step (spawn : Spawn) (ex : Executor) : Event → Executor
  | .initializeAgent agentId => (initializeAgent spawn ex agentId).2
  | .executeCommand agentId command args => (executeCommand ex agentId command args).2
  | .closeAgent agentId => (closeAgent ex agentId).2
  | .stdoutData handle => stdoutData ex handle
  | .stderrData handle => stderrData ex handle

/-- The executor after a sequence of events. -/
def run (spawn : Spawn) (ex : Executor) (events : List Event) : Executor :=
  events.foldl (step spawn) ex

/-- The one-shot listeners attached to the output stream of the process of a
running agent; none for an id that is not running. -/
def pendingListeners (ex : Executor) (agentId : String) : List Nat :=
  match ex.agents.lookup agentId with
  | some handle => (ex.processes[handle]?).elim [] (·.stdoutOnce)
  | none => []

/-- The chunk written last to the input stream of the process of a running
agent. -/
def lastChunkWritten (ex : Executor) (agentId : String) : Option String :=
  match ex.agents.lookup agentId with
  | some handle => (ex.processes[handle]?).bind (·.stdinChunks.getLast?)
  | none => none

/-- The callers keep to the one-at-a-time contract along a sequence of events:
`executeCommand` is called for an agent only when no listener is attached to its
output stream. -/
def oneAtATime (spawn : Spawn) : Executor → List Event → Bool
  | _, [] => true
  | ex, event :: rest =>
      (match event with
        | .executeCommand agentId _ _ => (pendingListeners ex agentId).isEmpty
        | _ => true) &&
      oneAtATime spawn (step spawn ex event) rest

end MCPAgentExecutor

/-! ## Retry wrappers: `mcp-client.js` and `utils/retry.js` -/

/-- A thrown error, as far as the retry wrappers look at it: its `message` and
its `type`, `none` when it has no `type`. -/
structure JSError where
  message : String
  type : Option String
  deriving DecidableEq, Repr

/-- An operation passed to a retry wrapper: what its invocation number `n`
(from 0) returns or throws. -/
abbrev Operation (α : Type) := Nat → Except JSError α

/-- What a retry wrapper does while it runs: it invokes the operation, or waits. -/
inductive RetryEvent where
  | invoke
  | sleep (ms : Nat)
  deriving DecidableEq, Repr

/-- The number of invocations of the operation among the events. -/
def invocations (events : List RetryEvent) : Nat :=
  (events.filter (· = .invoke)).length

namespace MCPClient

/-- The `retryConfig` of an `MCPClient`. -/
structure RetryConfig where
  maxRetries : Nat
  initialDelayMs : Nat
  maxDelayMs : Nat
  deriving DecidableEq, Repr

/-- The `retryConfig` the constructor falls back to. -/
def defaultRetryConfig : RetryConfig := ⟨3, 1000, 10000⟩

/-- What `executeWithRetry` ends with (the value returned, or the value thrown,
`none` being `undefined`) and what it did on the way. -/
structure RetryOutcome (α : Type) where
  result : Except (Option JSError) α
  events : List RetryEvent

/-- The `for` loop of `executeWithRetry` followed by `throw lastError`, entered
at `attempt` with `remaining` iterations before `attempt` exceeds `maxRetries`. -/
def retryLoop {α : Type} (config : RetryConfig) (operation : Operation α) :
    Nat → Nat → Nat → Option JSError → RetryOutcome α
  | 0, _, _, lastError => ⟨.error lastError, []⟩
  | remaining + 1, attempt, delay, _ =>
      match operation (attempt - 1) with
      | .ok value => ⟨.ok value, [.invoke]⟩
      | .error error =>
          if includes error.message "rate limit exceeded" then
            ⟨.error (some error), [.invoke]⟩
          else if attempt = config.maxRetries then
            ⟨.error (some error), [.invoke]⟩
          else
            let later := retryLoop config operation remaining (attempt + 1)
              (min (delay * 2) config.maxDelayMs) (some error)
            ⟨later.result, .invoke :: .sleep delay :: later.events⟩

/-- `executeWithRetry(operation)`. -/
def executeWithRetry {α : Type} (config : RetryConfig) (operation : Operation α) :
    RetryOutcome α :=
  retryLoop config operation config.maxRetries 1 config.initialDelayMs none

end MCPClient

namespace RetryHandler

/-- The state of a `RetryHandler`. -/
structure Handler where
  maxRetries : Nat
  initialDelay : Nat
  lastCallTime : Nat
  minTimeBetweenCalls : Nat
  deriving DecidableEq, Repr

/-- The handler `new RetryHandler()` builds. -/
def default : Handler := ⟨3, 5000, 0, 1000⟩

/-- The `retryableErrors` of `isRetryableError`. -/
def retryableErrors : List String :=
  ["overloaded_error", "rate limit exceeded", "timeout", "ECONNRESET", "ETIMEDOUT",
    "resource_exhausted"]

/-- `isRetryableError(error)`. -/
def isRetryableError (error : JSError) : Bool :=
  retryableErrors.any fun errType =>
    decide (includes (toLowerCase error.message) (toLowerCase errType)) ||
    match error.type with
    | some type => decide (includes (toLowerCase type) (toLowerCase errType))
    | none => false

/-- `calculateDelay(error, attempt, baseDelay)` without its random factor: the
code multiplies this value by `1 + Math.random() * 0.1`. -/
def calculateDelay (error : JSError) (attempt baseDelay : Nat) : Nat :=
  if includes (toLowerCase error.message) "rate limit" then max (60000 * attempt) baseDelay
  else baseDelay

/-- What `withRetry` ends with, what it did on the way, and the handler
afterwards. -/
structure RetryOutcome (α : Type) where
  result : Except JSError α
  events : List RetryEvent
  handler : Handler

/-- The error thrown after the loop of `withRetry`. -/
def failedAfter (handler : Handler) (context : String) (lastError : Option JSError) : JSError :=
  match lastError with
  | some error =>
      ⟨"Failed after " ++ toString handler.maxRetries ++ " retries. Context: " ++ context ++
        ". Original error: " ++ error.message, none⟩
  | none => ⟨"Cannot read properties of undefined (reading 'message')", none⟩

/-- The `for` loop of `withRetry` followed by the final `throw`, entered at
`attempt` with `remaining` iterations before `attempt` exceeds `maxRetries`;
`doneAt` is `Date.now()` when the operation returns. -/
def retryLoop {α : Type} (handler : Handler) (doneAt : Nat) (operation : Operation α)
    (context : String) : Nat → Nat → Nat → Option JSError → RetryOutcome α
  | 0, _, _, lastError => ⟨.error (failedAfter handler context lastError), [], handler⟩
  | remaining + 1, attempt, delay, _ =>
      match operation (attempt - 1) with
      | .ok value => ⟨.ok value, [.invoke], { handler with lastCallTime := doneAt }⟩
      | .error error =>
          if !isRetryableError error then
            ⟨.error error, [.invoke], handler⟩
          else if attempt = handler.maxRetries then
            ⟨.error (failedAfter handler context (some error)), [.invoke], handler⟩
          else
            let later := retryLoop handler doneAt operation context remaining (attempt + 1)
              (delay * 2) (some error)
            ⟨later.result, .invoke :: .sleep (calculateDelay error attempt delay) :: later.events,
              later.handler⟩

/-- `withRetry(operation, context)`, called when `Date.now()` is `now`. -/
def withRetry {α : Type} (handler : Handler) (now doneAt : Nat) (operation : Operation α)
    (context : String) : RetryOutcome α :=
  let timeSinceLastCall : Int := (now : Int) - handler.lastCallTime
  let loop := retryLoop handler doneAt operation context handler.maxRetries 1
    handler.initialDelay none
  if timeSinceLastCall < handler.minTimeBetweenCalls then
    { loop with
      events := .sleep (handler.minTimeBetweenCalls - timeSinceLastCall).toNat :: loop.events }
  else loop

end RetryHandler

/-! ## What an agent process prints -/

/-- A thrown error as the agent processes look at it: its `message` and the text
`error.toString()` gives. -/
structure Thrown where
  message : String
  text : String
  deriving DecidableEq, Repr

/-- The error `new Error(message)`. -/
def Thrown.error (message : String) : Thrown :=
  ⟨message, "Error: " ++ message⟩

/-- A `TypeError` raised by the language. -/
def Thrown.typeError (message : String) : Thrown :=
  ⟨message, "TypeError: " ++ message⟩

/-- The `TypeError` Node raises when a path argument is `undefined`. -/
def Thrown.pathNotString : Thrown :=
  ⟨"The \"paths[0]\" argument must be of type string. Received undefined",
    "TypeError [ERR_INVALID_ARG_TYPE]: The \"paths[0]\" argument must be of type string. Received undefined"⟩

/-- What the `data` handler of an agent process prints for one chunk of input:
the value passed through `JSON.stringify` to `console.log` (the output stream) or
to `console.error` (the error stream). -/
inductive Emission where
  | stdout (value : JSValue)
  | stderr (value : JSValue)

/-- The value printed. -/
def Emission.value : Emission → JSValue
  | .stdout value => value
  | .stderr value => value

/-- The emission reports a failure: it goes to the error stream, or it is an
object with an `error` property or with `status: 'error'`. -/
def Emission.isError : Emission → Bool
  | .stderr _ => true
  | .stdout value =>
      (value.ownProp "error").truthy ||
      match value.ownProp "status" with
      | .str status => status = "error"
      | _ => false

/-- The value is an object with `status: 'error'`, a `message` and `details`. -/
def isStatusError (value : JSValue) : Bool :=
  (match value with
    | .obj _ => true
    | _ => false) &&
  (match value.ownProp "status" with
    | .str status => status = "error"
    | _ => false) &&
  !(value.ownProp "message").isUndefined && !(value.ownProp "details").isUndefined

/-- An optional argument as a value: `undefined` when it is missing. -/
def argValue (arg : Option String) : JSValue :=
  match arg with
  | some text => .str text
  | none => .undefined

/-- An optional argument inside a template literal: the text `undefined` when it
is missing. -/
def argText (arg : Option String) : String :=
  arg.getD "undefined"

/-- POSIX `path.join(dir, name)` for any `dir` and a plain entry name: the
segments are normalised, a relative `dir` stays relative and keeps the `..`
segments that lead above it. -/
def joinPath (dir name : String) : String :=
  if dir.data.head? = some '/' then pathJoin dir name
  else
    let segments := ((dir.data ++ '/' :: name.data).splitOn '/').foldl
      (fun stack seg =>
        if seg = [] ∨ seg = ['.'] then stack
        else if seg = ['.', '.'] then
          (if stack = [] ∨ stack.getLast? = some ['.', '.'] then stack ++ [seg]
           else stack.dropLast)
        else stack ++ [seg])
      []
    if segments = [] then "." else String.mk (['/'].intercalate segments)

/-! ## `agents/filesystem-agent.js`: the `data` handler -/

namespace FilesystemAgent

variable {σ : Type}

/-- The value `JSON.stringify` is given for a result. -/
def Result.toJS : Result → JSValue
  | .listing path items =>
      .obj [("path", .str path),
        ("items", .arr (items.map fun item =>
          .obj [("name", .str item.name), ("type", .str item.type), ("path", .str item.path)]))]
  | .content text => .str text
  | .success path => .obj [("success", .bool true), ("path", .str path)]

/-- An operation called with a path that may be missing: `path.resolve(undefined)`
throws before the filesystem is touched. -/
def withPath (fs : σ) (arg : Option String) (operation : String → FsOutcome σ Result) :
    FsOutcome σ Result :=
  match arg with
  | some path => operation path
  | none => ⟨.error Thrown.pathNotString.message, fs, []⟩

/-- The `switch` of the `data` handler: the operation a command runs with its
arguments, or `none` for a command that is not one of the five. -/
def runCommand (nfs : NodeFs σ) (cwd : String) (fs : σ) (command : String)
    (args : List String) : Option (FsOutcome σ Result) :=
  if command = "list" then
    some (list nfs cwd fs (if (args.head?.getD "") = "" then cwd else args.head?.getD ""))
  else if command = "read" then
    some (withPath fs args.head? (read nfs cwd fs))
  else if command = "write" then
    some (withPath fs args.head? fun path => write nfs cwd fs path (join (args.drop 1) " "))
  else if command = "mkdir" then
    some (withPath fs args.head? (mkdir nfs cwd fs))
  else if command = "delete" then
    some (withPath fs args.head? (delete nfs cwd fs))
  else none

/-- What the `data` handler leaves behind. -/
structure Handled (σ : Type) where
  emission : Emission
  fs : σ
  calls : List FsCall

/-- The `data` handler of the filesystem agent on one chunk of input. -/
def handleData (nfs : NodeFs σ) (cwd : String) (fs : σ) (data : String) : Handled σ :=
  let command := (tokens data).headD ""
  let args := (tokens data).drop 1
  match runCommand nfs cwd fs command args with
  | none => ⟨.stdout (.obj [("error", .str ("Unknown command: " ++ command))]), fs, []⟩
  | some outcome =>
      match outcome.result with
      | .ok result => ⟨.stdout result.toJS, outcome.fs, outcome.calls⟩
      | .error message => ⟨.stderr (.obj [("error", .str message)]), outcome.fs, outcome.calls⟩

/-- The handler run on two chunks of input, one after the other: the two
emissions. -/
def handleTwo (nfs : NodeFs σ) (cwd : String) (fs : σ) (first second : String) :
    Emission × Emission :=
  ((handleData nfs cwd fs first).emission,
    (handleData nfs cwd (handleData nfs cwd fs first).fs second).emission)

/-- The five commands of the `switch`. -/
def commands : List String :=
  ["list", "read", "write", "mkdir", "delete"]

/-- The input is malformed for the filesystem agent: its command is not one of
the five (the empty line included), or the path argument is missing (but for
`list`, which falls back to the working directory), or the path is outside the
allow-list. -/
def malformed (cwd : String) (data : String) : Bool :=
  let command := (tokens data).headD ""
  let args := (tokens data).drop 1
  !commands.contains command ||
  (command ≠ "list" && args.head?.isNone) ||
  (command ≠ "list" && !isPathAllowed (resolve cwd (args.head?.getD ""))) ||
  (command = "list" &&
    !isPathAllowed (resolve cwd (if (args.head?.getD "") = "" then cwd else args.head?.getD "")))

end FilesystemAgent

/-! ## `agents/code-analysis-agent.js` -/

namespace CodeAnalysisAgent

/-- What the code-analysis agent finds around it at the time of one call:
`fs.access`, `execSync` (the output of the command line, or the message of the
error thrown), and the three readers of the tools' output
(`parseComplexityOutput`, which gives the fields spread into the result,
`parseDuplicatesOutput`, and the parsing and summing of the linter's JSON report,
which gives `errorCount`, `warningCount` and `details` or the message of the error
thrown). What the command line does to the machine is kept apart, in `Machine`
below. -/
structure Tools where
  access : Option String → Except String Unit
  execSync : String → Except String String
  parseComplexityOutput : String → List (String × JSValue)
  parseDuplicatesOutput : String → JSValue
  lintSummary : String → Except String (JSValue × JSValue × JSValue)

/-- The keys of `supportedCommands`. -/
def supportedCommands : List (String × String) :=
  [("complexity", "calculateComplexity"), ("duplicates", "findDuplicateCode"),
    ("lint", "lintCode")]

/-- `calculateComplexity(filePath)`. -/
def calculateComplexity (tools : Tools) (filePath : Option String) : JSValue :=
  let outcome : Except String (List (String × JSValue)) := do
    tools.access filePath
    let output ← tools.execSync ("npx cyclomatic-complexity " ++ argText filePath)
    pure (tools.parseComplexityOutput output)
  match outcome with
  | .ok complexityResult =>
      .obj (complexityResult.foldl (fun fields entry => JSMap.set fields entry.1 entry.2)
        [("status", .str "success"), ("filePath", argValue filePath)])
  | .error message =>
      .obj [("status", .str "error"), ("filePath", argValue filePath),
        ("message", .str "Complexity calculation failed"), ("details", .str message)]

/-- `findDuplicateCode(dirPath)`. -/
def findDuplicateCode (tools : Tools) (dirPath : Option String) : JSValue :=
  match tools.execSync ("npx jsinspect " ++ argText dirPath) with
  | .ok output =>
      let duplicates := tools.parseDuplicatesOutput output
      .obj [("status", .str "success"), ("dirPath", argValue dirPath),
        ("duplicatesFound", duplicates.ownProp "length"), ("details", duplicates)]
  | .error message =>
      .obj [("status", .str "error"), ("dirPath", argValue dirPath),
        ("message", .str "Duplicate code detection failed"), ("details", .str message)]

/-- `lintCode(filePath)`. -/
def lintCode (tools : Tools) (filePath : Option String) : JSValue :=
  let outcome : Except String (JSValue × JSValue × JSValue) := do
    let output ← tools.execSync ("npx eslint " ++ argText filePath ++ " --format json")
    tools.lintSummary output
  match outcome with
  | .ok (errorCount, warningCount, details) =>
      .obj [("status", .str "success"), ("filePath", argValue filePath),
        ("errorCount", errorCount), ("warningCount", warningCount), ("details", details)]
  | .error message =>
      .obj [("status", .str "error"), ("filePath", argValue filePath),
        ("message", .str "Code linting failed"), ("details", .str message)]

/-- What calling a member inherited from `Object.prototype` on the table
`supportedCommands` does, the arguments being strings: the value returned, as
`JSON.stringify` sees it, or the error thrown. -/
def callInherited (member : String) (args : List String) : Except Thrown JSValue :=
  if member = "toString" ∨ member = "toLocaleString" then .ok (.str "[object Object]")
  else if member = "valueOf" then .ok (.obj [])
  else if member = "hasOwnProperty" ∨ member = "propertyIsEnumerable" then
    .ok (.bool (supportedCommands.lookup (argText args.head?)).isSome)
  else if member = "isPrototypeOf" then .ok (.bool false)
  else if member = "constructor" then
    .ok (match args.head? with
      | some text => .str text
      | none => .obj [])
  else if member = "__lookupGetter__" ∨ member = "__lookupSetter__" then .ok .undefined
  else if member = "__defineGetter__" ∨ member = "__defineSetter__" then
    .error (.typeError ("Object.prototype." ++ member ++ ": Expecting function"))
  else .error (.typeError "this.supportedCommands[command] is not a function")

/-- What `executeCommand` called: one of the agent's three methods, or a member
inherited from `Object.prototype`. -/
inductive Invoked where
  | method (name : String)
  | inherited (member : String)
  deriving DecidableEq, Repr

/-- The `try` block of `executeCommand(command, ...args)`: the value returned or
the error thrown, and what was called. -/
def dispatch (tools : Tools) (command : String) (args : List String) :
    Except Thrown JSValue × Option Invoked :=
  match lookupProp supportedCommands command with
  | .absent => (.error (.error ("Unsupported command: " ++ command)), none)
  | .inherited => (callInherited command args, some (.inherited command))
  | .own method =>
      (.ok (if method = "calculateComplexity" then calculateComplexity tools args.head?
        else if method = "findDuplicateCode" then findDuplicateCode tools args.head?
        else lintCode tools args.head?),
        some (.method method))

/-- The object the `catch` of `executeCommand` returns. -/
def errorObject (error : Thrown) : JSValue :=
  .obj [("status", .str "error"), ("message", .str error.message), ("details", .str error.text)]

/-- `executeCommand(command, ...args)`: the value returned, and what was called. -/
def executeCommand (tools : Tools) (command : String) (args : List String) :
    JSValue × Option Invoked :=
  match dispatch tools command args with
  | (.ok result, invoked) => (result, invoked)
  | (.error error, invoked) => (errorObject error, invoked)

/-- The `data` handler of the code-analysis agent on one chunk of input. -/
def handleData (tools : Tools) (data : String) : Emission :=
  .stdout (executeCommand tools ((tokens data).headD "") ((tokens data).drop 1)).1

end CodeAnalysisAgent

/-! ## `agents/mcp-tool-integration-agent.js` -/

namespace MCPToolIntegrationAgent

/-- What the tool-integration agent finds around it: the working directory, the
`fs` calls it makes, the outcome of `fetchWebContent`'s `try` block (the object
built from the response, or the message of the error thrown), and what the
lookups `toolConfigs[server][tool]` reach through `Object.prototype`. When
`server` names a member of `Object.prototype`, `inheritedServer server tool` is
`none` if the second lookup finds nothing and otherwise what calling the member
found with the arguments does; when `server` is a configured server and `tool`
names a member of `Object.prototype`, `inheritedTool server tool` is what calling
that member does. -/
structure World where
  cwd : String
  readdir : String → Except String (List Dirent)
  readFile : String → Except String String
  fetchSummary : Option String → Except String JSValue
  inheritedServer : String → String → Option (List String → Except Thrown JSValue)
  inheritedTool : String → String → List String → Except Thrown JSValue

/-- The own properties of `toolConfigs`: for each server, its tools and the
method each one is bound to. -/
def toolConfigs : List (String × List (String × String)) :=
  [("filesystem", [("list_allowed_directories", "listAllowedDirectories"),
      ("list_directory", "listDirectory"), ("read_file", "readFile")]),
    ("brave-search", [("brave_web_search", "braveWebSearch")]),
    ("fetch", [("fetch", "fetchWebContent")]),
    ("sqlite", [("list-tables", "listSQLiteTables")])]

/-- The `allowedRoots` set by the constructor. -/
def allowedRoots : List String :=
  ["/Users/garyoleary/MACK_MCP", "/Users/garyoleary/Desktop", "/Users/garyoleary/Documents"]

/-- `isPathAllowed(targetPath)`; it throws when the path is missing. -/
def isPathAllowed (cwd : String) (targetPath : Option String) : Except Thrown Bool :=
  match targetPath with
  | none => .error Thrown.pathNotString
  | some path => .ok (allowedRoots.any fun root => startsWith (resolve cwd path) root)

/-- `listDirectory(dirPath)`. -/
def listDirectory (world : World) (dirPath : Option String) : Except Thrown JSValue := do
  if !(← isPathAllowed world.cwd dirPath) then
    throw (.error ("Access denied to path: " ++ argText dirPath))
  match world.readdir (argText dirPath) with
  | .ok files =>
      pure (.arr (files.map fun file =>
        .obj [("name", .str file.name),
          ("type", .str (if file.isDirectory then "directory" else "file")),
          ("path", .str (joinPath (argText dirPath) file.name))]))
  | .error message => throw (.error ("Failed to list directory: " ++ message))

/-- `readFile(filePath)`. -/
def readFile (world : World) (filePath : Option String) : Except Thrown JSValue := do
  if !(← isPathAllowed world.cwd filePath) then
    throw (.error ("Access denied to path: " ++ argText filePath))
  match world.readFile (argText filePath) with
  | .ok content => pure (.str content)
  | .error message => throw (.error ("Failed to read file: " ++ message))

/-- `braveWebSearch(query)`. -/
def braveWebSearch (query : Option String) : JSValue :=
  .obj [("results", .arr [.obj [("title", .str ("Search results for: " ++ argText query)),
    ("snippet", .str "Simulated web search results")]])]

/-- `fetchWebContent(url)`. -/
def fetchWebContent (world : World) (url : Option String) : Except Thrown JSValue :=
  match world.fetchSummary url with
  | .ok summary => .ok summary
  | .error message => .error (.error ("Failed to fetch content: " ++ message))

/-- `listSQLiteTables()`. -/
def listSQLiteTables : JSValue :=
  .obj [("tables", .arr [.str "users", .str "sessions", .str "logs"])]

/-- The call of the method a tool is bound to. -/
def callMethod (world : World) (method : String) (args : List String) : Except Thrown JSValue :=
  if method = "listAllowedDirectories" then .ok (.arr (allowedRoots.map .str))
  else if method = "listDirectory" then listDirectory world args.head?
  else if method = "readFile" then readFile world args.head?
  else if method = "braveWebSearch" then .ok (braveWebSearch args.head?)
  else if method = "fetchWebContent" then fetchWebContent world args.head?
  else .ok listSQLiteTables

/-- The `try` block of `executeCommand(server, tool, ...args)`; a missing `tool`
is `undefined`. -/
def dispatch (world : World) (server : String) (tool : Option String) (args : List String) :
    Except Thrown JSValue :=
  match lookupProp toolConfigs server with
  | .absent => .error (.error ("Unsupported server: " ++ server))
  | .inherited =>
      match world.inheritedServer server (argText tool) with
      | none => .error (.error ("Unsupported tool: " ++ argText tool))
      | some call => call args
  | .own tools =>
      match lookupProp tools (argText tool) with
      | .absent => .error (.error ("Unsupported tool: " ++ argText tool))
      | .inherited => world.inheritedTool server (argText tool) args
      | .own method => callMethod world method args

/-- The object the `catch` of `executeCommand` returns. -/
def errorObject (error : Thrown) : JSValue :=
  .obj [("error", .str error.message), ("details", .str error.text)]

/-- `executeCommand(server, tool, ...args)`. -/
def executeCommand (world : World) (server : String) (tool : Option String)
    (args : List String) : JSValue :=
  match dispatch world server tool args with
  | .ok result => result
  | .error error => errorObject error

/-- The `data` handler of the tool-integration agent on one chunk of input. -/
def handleData (world : World) (data : String) : Emission :=
  .stdout (executeCommand world ((tokens data).headD "") ((tokens data).drop 1).head?
    ((tokens data).drop 2))

/-- A world in which the filesystem holds the one file
`/Users/garyoleary/Documents/a.txt` and nothing can be fetched. It serves to run
commands addressed to the configured servers and tools, which never go through
`Object.prototype`. -/
def sampleWorld : World where
  cwd := "/"
  readdir := fun path => .error ("ENOENT: no such file or directory, scandir '" ++ path ++ "'")
  readFile := fun path =>
    if path = "/Users/garyoleary/Documents/a.txt" then .ok "hello"
    else .error ("ENOENT: no such file or directory, open '" ++ path ++ "'")
  fetchSummary := fun _ => .error "fetch failed"
  inheritedServer := fun _ _ => none
  inheritedTool := fun _ _ _ => .error (.typeError "Function.prototype.call called on incompatible receiver")

end MCPToolIntegrationAgent

/-! ## `generator-service.js`: the generation pipeline -/

namespace GeneratorService

/-- An item of the result of `searchGitHubRepositories`. -/
structure Repo where
  full_name : String
  deriving DecidableEq, Repr

/-- An item of the result of `fetchRepositoryContent`. -/
structure RepoFile where
  name : String
  path : String
  content : String
  deriving DecidableEq, Repr

/-- An item of the result of `_getCodeSamples` and of `_getWorkflowSamples`. -/
structure Sample where
  repo : String
  file : String
  content : String
  deriving DecidableEq, Repr

/-- What the generator service finds around it: `JSON.parse` (the value, or the
`SyntaxError` thrown), the text `completion.choices[0].message.content` of the
answer to the chat completion requested first (number 0) and second (number 1)
or the error thrown on the way to it, the two functions of `github-service.js`,
whether the `Logger` object has a method `debugState`, and
`String.prototype.toLowerCase`, the language's own lower-casing of a string,
which follows Unicode. -/
structure Env where
  parse : String → Except Thrown JSValue
  toLowerCase : String → String
  chat : Nat → Except Thrown String
  searchGitHubRepositories : JSValue → Except Thrown (List Repo)
  fetchRepositoryContent : String → Except Thrown (List RepoFile)
  hasDebugState : Bool

/-- `Logger.debugState(kind, state)`. -/
def debugState (env : Env) : Except Thrown Unit :=
  if env.hasDebugState then .ok () else .error (.typeError "Logger.debugState is not a function")

/-- The property read `value[key]` of the pipeline, on a parsed value. -/
def prop (value : JSValue) (key : String) : Except Thrown JSValue :=
  match value with
  | .null => .error (.typeError ("Cannot read properties of null (reading '" ++ key ++ "')"))
  | .undefined =>
      .error (.typeError ("Cannot read properties of undefined (reading '" ++ key ++ "')"))
  | other => .ok (other.ownProp key)

/-- `toolType.toLowerCase()`, which throws unless `toolType` is a string;
`toLowerCase` is the language's own function on strings. -/
def lowerCaseOf (toLowerCase : String → String) (toolType : JSValue) : Except Thrown String :=
  match toolType with
  | .str text => .ok (toLowerCase text)
  | .null => .error (.typeError "Cannot read properties of null (reading 'toLowerCase')")
  | .undefined => .error (.typeError "Cannot read properties of undefined (reading 'toLowerCase')")
  | _ => .error (.typeError "toolType.toLowerCase is not a function")

/-- The callback of the `filter` of `_getCodeSamples`. -/
def isRelevantCodeFile (toLowerCase : String → String) (toolType : JSValue) (file : RepoFile) :
    Except Thrown Bool := do
  let lowered ← lowerCaseOf toLowerCase toolType
  pure (decide (includes (toLowerCase file.name) lowered) || endsWith file.name ".js" ||
    endsWith file.name ".py")

/-- JavaScript `files.filter(callback)` for a callback that may throw. -/
def filterFiles (callback : RepoFile → Except Thrown Bool) :
    List RepoFile → Except Thrown (List RepoFile)
  | [] => .ok []
  | file :: rest => do
      let keep ← callback file
      let others ← filterFiles callback rest
      pure (if keep then file :: others else others)

/-- The inner `for` loop of `_getCodeSamples`: one `samples.push` for each file. -/
def pushSamples (repo : Repo) : List RepoFile → List Sample → List Sample
  | [], samples => samples
  | file :: rest, samples =>
      pushSamples repo rest (samples ++ [⟨repo.full_name, file.name, file.content⟩])

/-- The outer `for` loop of `_getCodeSamples` and of `_getWorkflowSamples`, over
the repositories that remain. -/
def samplesLoop (fetchRepositoryContent : String → Except Thrown (List RepoFile))
    (relevant : RepoFile → Except Thrown Bool) :
    List Repo → List Sample → Except Thrown (List Sample)
  | [], samples => .ok samples
  | repo :: rest, samples => do
      let files ← fetchRepositoryContent repo.full_name
      let relevantFiles ← filterFiles relevant files
      samplesLoop fetchRepositoryContent relevant rest
        (pushSamples repo (relevantFiles.take 2) samples)

/-- `_getCodeSamples(repos, toolType)`; `toLowerCase` is the language's own
function on strings. -/
def _getCodeSamples (toLowerCase : String → String)
    (fetchRepositoryContent : String → Except Thrown (List RepoFile))
    (repos : List Repo) (toolType : JSValue) : Except Thrown (List Sample) :=
  samplesLoop fetchRepositoryContent (isRelevantCodeFile toLowerCase toolType) (repos.take 3) []

/-- The callback of the `filter` of `_getWorkflowSamples`. -/
def isRelevantWorkflowFile (toLowerCase : String → String) (file : RepoFile) :
    Except Thrown Bool :=
  .ok (decide (includes (toLowerCase file.name) "workflow") ||
    decide (includes (toLowerCase file.name) "pipeline") ||
    endsWith file.name ".yaml" || endsWith file.name ".yml")

/-- `_getWorkflowSamples(repos)`. -/
def _getWorkflowSamples (toLowerCase : String → String)
    (fetchRepositoryContent : String → Except Thrown (List RepoFile))
    (repos : List Repo) : Except Thrown (List Sample) :=
  samplesLoop fetchRepositoryContent (isRelevantWorkflowFile toLowerCase) (repos.take 3) []

/-- `_analyzeToolPrompt(prompt)`. -/
def _analyzeToolPrompt (env : Env) : Except Thrown JSValue := do
  let content ← env.chat 0
  env.parse content

/-- The error the inner `catch` of `_analyzeWorkflowPrompt` throws. -/
def invalidAnalysisFormat : Thrown :=
  .error "Invalid workflow analysis format. Please try again later."

/-- The error the outer `catch` of `_analyzeWorkflowPrompt` throws. -/
def failedToAnalyze : Thrown :=
  .error "Failed to analyze workflow. Please try again later."

/-- The outer `try` block of `_analyzeWorkflowPrompt`, the inner `try` and its
`catch` included. -/
def analyzeWorkflowAttempt (env : Env) : Except Thrown JSValue := do
  let response ← env.chat 0
  match env.parse response with
  | .ok analysis => pure analysis
  | .error _ => throw invalidAnalysisFormat

/-- `_analyzeWorkflowPrompt(prompt)`: the outer `try` block followed by the outer
`catch`, which sees every error thrown in the block. -/
def _analyzeWorkflowPrompt (env : Env) : Except Thrown JSValue :=
  match analyzeWorkflowAttempt env with
  | .ok analysis => .ok analysis
  | .error error =>
      if includes error.message "rate limit" then .error error
      else .error failedToAnalyze

/-- The steps of `generateTool` from its start to `rawResponse`. -/
def toolRawResponse (env : Env) : Except Thrown String := do
  let analysis ← _analyzeToolPrompt env
  debugState env
  let searchQuery ← prop analysis "searchQuery"
  let repos ← env.searchGitHubRepositories searchQuery
  debugState env
  let toolType ← prop analysis "toolType"
  let _ ← _getCodeSamples env.toLowerCase env.fetchRepositoryContent repos toolType
  debugState env
  env.chat 1

/-- The steps of `generateWorkflow` from its start to `rawResponse`. -/
def workflowRawResponse (env : Env) : Except Thrown String := do
  let analysis ← _analyzeWorkflowPrompt env
  debugState env
  let searchQuery ← prop analysis "searchQuery"
  let repos ← env.searchGitHubRepositories searchQuery
  debugState env
  let _ ← _getWorkflowSamples env.toLowerCase env.fetchRepositoryContent repos
  debugState env
  env.chat 1

/-- The inner `try` block of `generateTool` and of `generateWorkflow`: the text
is parsed and the value is validated. -/
def parseAndValidate (env : Env) (validate : JSValue → Except String Unit)
    (rawResponse : String) : Except Thrown JSValue := do
  let result ← env.parse rawResponse
  debugState env
  match validate result with
  | .ok _ => pure result
  | .error message => throw (.error message)

/-- The inner `try` of `generateTool` with its `catch`. The `catch` stores the
message of the error caught and `rawResponse` in `state.error`, an object local
to the call that nothing reads afterwards, and throws a new `Error`. -/
def synthesizeTool (env : Env) (rawResponse : String) : Except Thrown JSValue :=
  match parseAndValidate env _validateToolSpec rawResponse with
  | .ok result => .ok result
  | .error _ => .error (.error "Invalid tool specification format")

/-- The inner `try` of `generateWorkflow` with its `catch`. -/
def synthesizeWorkflow (env : Env) (rawResponse : String) : Except Thrown JSValue :=
  match parseAndValidate env _validateWorkflowSpec rawResponse with
  | .ok result => .ok result
  | .error _ => .error (.error "Invalid workflow specification format")

/-- `generateTool(prompt)`; the outer `catch` throws the error it caught. -/
def generateTool (env : Env) : Except Thrown JSValue := do
  let rawResponse ← toolRawResponse env
  synthesizeTool env rawResponse

/-- `generateWorkflow(prompt)`; the outer `catch` throws the error it caught. -/
def generateWorkflow (env : Env) : Except Thrown JSValue := do
  let rawResponse ← workflowRawResponse env
  synthesizeWorkflow env rawResponse

/-- The `SyntaxError` of `JSON.parse`. -/
def syntaxError (message : String) : Thrown :=
  ⟨message, "SyntaxError: " ++ message⟩

/-- The sample `_getCodeSamples` pushes for a file of a repository. -/
def sampleOf (repo : Repo) (file : RepoFile) : Sample :=
  ⟨repo.full_name, file.name, file.content⟩

/-- The name of the file contains the tool type, letter case apart (both are
lower-cased by the language's `toLowerCase` and compared), or ends in `.js` or in
`.py`. -/
def relevantByName (toLowerCase : String → String) (toolType : String) (file : RepoFile) :
    Bool :=
  decide (includes (toLowerCase file.name) (toLowerCase toolType)) ||
    endsWith file.name ".js" || endsWith file.name ".py"

/-- A world for examples: the model answers the analysis request with
`analysis` and the specification request with `answer`; `JSON.parse` is given on
one well-formed analysis and on one object that is not a specification, and
throws on the other texts used below, none of which is JSON; the repository
search finds nothing; the texts lower-cased are made of ASCII characters, on
which `toLowerCase` changes the letters `A` to `Z` only. -/
def sampleEnv (hasDebugState : Bool) (analysis answer : String) : Env where
  toLowerCase := AgentSystem.toLowerCase
  parse text :=
    if text = "\x7b\"toolType\":\"api-tool\",\"searchQuery\":\"rest client\"\x7d" then
      .ok (.obj [("toolType", .str "api-tool"), ("searchQuery", .str "rest client")])
    else if text = "\x7b\"name\":\"fetcher\"\x7d" then .ok (.obj [("name", .str "fetcher")])
    else .error (syntaxError "Unexpected token in JSON at position 0")
  chat n := .ok (if n = 0 then analysis else answer)
  searchGitHubRepositories _ := .ok []
  fetchRepositoryContent _ := .ok []
  hasDebugState := hasDebugState

end GeneratorService

/-! ## `agents/code-analysis-agent.js`: reading the tools' output -/

namespace CodeAnalysisAgent

/-- The line terminators of ECMAScript: the characters `.` does not match in a
regular expression. -/
def isLineTerminator (c : Char) : Bool :=
  c = '\n' || c = '\r' || c = '\u2028' || c = '\u2029'

/-- The integer a string of decimal digits spells. -/
def digitsValue (digits : List Char) : Nat :=
  digits.foldl (fun n c => 10 * n + (c.toNat - 48)) 0

/-- The number of low bits an integer loses when it is kept in the 53 bits of the
significand of a double: halving is repeated until the integer is below `2^53`
(`fuel` bounds the number of halvings). -/
def excessBits : Nat → Nat → Nat
  | 0, _ => 0
  | fuel + 1, n => if n < 2 ^ 53 then 0 else excessBits fuel (n / 2) + 1

/-- The double nearest to a natural number, ties going to the even significand:
the value a JavaScript number takes for that integer. An integer below `2^53` is
kept as it is. Integers of `2^1024` and more, which JavaScript takes to
`Infinity`, are outside the model. -/
def toDouble (n : Nat) : Nat :=
  let e := excessBits n n
  let q := n / 2 ^ e
  let r := n % 2 ^ e
  (if 2 * r > 2 ^ e ∨ (2 * r = 2 ^ e ∧ q % 2 = 1) then q + 1 else q) * 2 ^ e

/-- JavaScript `a + b` on two numbers whose values are integers: the sum, rounded
to the nearest double. -/
def addNumbers (a b : Int) : Int :=
  if a + b < 0 then -(toDouble (a + b).natAbs : Int) else (toDouble (a + b).natAbs : Int)

/-- `parseInt(digits, 10)` on a string of decimal digits: the integer the digits
spell, as a JavaScript number (the nearest double; below `2^1024`, see
`toDouble`). -/
def parseInt (digits : List Char) : Nat :=
  toDouble (digitsValue digits)

/-- A match of `/(.+):\s*(\d+)/` that starts at the first character of `s`: the
two groups. The first group is greedy, so the lengths it can have are tried
from the longest down; after the colon, white space and then digits are taken as
far as they go (a digit is not white space, so giving some back cannot help). -/
def matchComplexityHere (s : List Char) : Option (List Char × List Char) :=
  let run := s.takeWhile (fun c => !isLineTerminator c)
  (List.range run.length).reverse.findSome? fun k =>
    match s.drop (k + 1) with
    | ':' :: after =>
        let digits := (after.dropWhile isWhiteSpace).takeWhile Char.isDigit
        if digits = [] then none else some (s.take (k + 1), digits)
    | _ => none

/-- The groups of `line.match(/(.+):\s*(\d+)/)`: the match that starts leftmost. -/
def matchComplexity : List Char → Option (List Char × List Char)
  | [] => none
  | c :: rest =>
      match matchComplexityHere (c :: rest) with
      | some groups => some groups
      | none => matchComplexity rest

/-- The callback of the `map` of `parseComplexityOutput`. -/
def complexityItem (line : String) : JSValue :=
  match matchComplexity line.data with
  | some (file, digits) =>
      .obj [("file", .str (String.mk file)), ("complexity", .num (parseInt digits))]
  | none => .null

/-- The value of `item.complexity` as a number. -/
def complexityOf (item : JSValue) : Int :=
  match item.ownProp "complexity" with
  | .num n => n
  | _ => 0

/-- `parseComplexityOutput(output)`: the fields of the object returned. -/
def parseComplexityOutput (output : String) : List (String × JSValue) :=
  let lines := split (trim output) '\n'
  if lines.length = 0 ∨ includes (lines.headD "") "No issues found" then
    [("complexity", .num 0), ("message", .str "No complexity issues detected")]
  else
    let complexityData := (lines.map complexityItem).filter JSValue.truthy
    [("complexity",
        .num (complexityData.foldl (fun sum item => addNumbers sum (complexityOf item)) 0)),
      ("details", .arr complexityData)]

/-- A match of `/(\d+)\s*duplicates found/` that starts at the first character of
`s`: the group. Digits and then white space are taken as far as they go (what
follows a shorter run of digits is a digit, which is neither white space nor the
letter `d`). -/
def matchDuplicatesHere (s : List Char) : Option (List Char) :=
  let digits := s.takeWhile Char.isDigit
  if digits ≠ [] ∧
      "duplicates found".data.isPrefixOf ((s.drop digits.length).dropWhile isWhiteSpace) then
    some digits
  else none

/-- The group of `output.match(/(\d+)\s*duplicates found/)`: the match that starts
leftmost. -/
def matchDuplicates : List Char → Option (List Char)
  | [] => none
  | c :: rest =>
      match matchDuplicatesHere (c :: rest) with
      | some digits => some digits
      | none => matchDuplicates rest

/-- `parseDuplicatesOutput(output)`. -/
def parseDuplicatesOutput (output : String) : JSValue :=
  match matchDuplicates output.data with
  | some digits => .num (parseInt digits)
  | none => .num 0

/-- The surroundings of the agent with the two readers of the agent itself. -/
def withParsers (access : Option String → Except String Unit)
    (execSync : String → Except String String)
    (lintSummary : String → Except String (JSValue × JSValue × JSValue)) : Tools :=
  ⟨access, execSync, parseComplexityOutput, parseDuplicatesOutput, lintSummary⟩

/-- The command line `executeCommand(command, ...args)` hands to `execSync`, if
the call gets that far: `calculateComplexity` builds it once `fs.access` has
succeeded, `findDuplicateCode` and `lintCode` build it at once, each from the
argument as it came. -/
def shellCommand (tools : Tools) (command : String) (args : List String) : Option String :=
  match lookupProp supportedCommands command with
  | .own method =>
      if method = "calculateComplexity" then
        match tools.access args.head? with
        | .ok _ => some ("npx cyclomatic-complexity " ++ argText args.head?)
        | .error _ => none
      else if method = "findDuplicateCode" then some ("npx jsinspect " ++ argText args.head?)
      else some ("npx eslint " ++ argText args.head? ++ " --format json")
  | _ => none

/-- The machine the agent runs on, over states `σ`: `fs.access` in a state, and
`execSync`, which passes its command line to the shell: the output (or the
message of the error thrown when the exit status is not zero) and the state the
shell leaves, whether the command failed or not. -/
structure Machine (σ : Type) where
  access : σ → Option String → Except String Unit
  execSync : σ → String → Except String String × σ
  lintSummary : String → Except String (JSValue × JSValue × JSValue)

/-- What the agent finds around it in a state of the machine. -/
def Machine.tools {σ : Type} (machine : Machine σ) (state : σ) : Tools :=
  withParsers (machine.access state) (fun line => (machine.execSync state line).1)
    machine.lintSummary

/-- The `data` handler on one chunk of input, on a machine: what it prints and
the state of the machine afterwards. -/
def handleDataOn {σ : Type} (machine : Machine σ) (state : σ) (data : String) : Emission × σ :=
  (handleData (machine.tools state) data,
    match shellCommand (machine.tools state) ((tokens data).headD "") ((tokens data).drop 1) with
    | some line => (machine.execSync state line).2
    | none => state)

/-- The handler run on two chunks of input, one after the other: the two
emissions. -/
def handleTwo {σ : Type} (machine : Machine σ) (state : σ) (first second : String) :
    Emission × Emission :=
  ((handleDataOn machine state first).1,
    (handleDataOn machine (handleDataOn machine state first).2 second).1)

/-- `${IFS}` replaced by a blank, as the shell expands it. -/
def expandIFS : List Char → List Char
  | '$' :: '\x7b' :: 'I' :: 'F' :: 'S' :: '\x7d' :: rest => ' ' :: expandIFS rest
  | c :: rest => c :: expandIFS rest
  | [] => []

/-- One command of a shell line on the machine of the examples, whose state is
the list of the files that exist: the exit status, the output and the files
afterwards. `rm -f` removes a file, `cyclomatic-complexity` prints one line for a
file that exists, `jsinspect` finds no directory, `false` fails, and nothing else
is installed. -/
def sampleRun (files : List String) (words : List String) : Nat × String × List String :=
  match words with
  | ["rm", "-f", path] => (0, "", files.filter (· ≠ path))
  | ["npx", "cyclomatic-complexity", file] =>
      if file ∈ files then (0, file ++ ": 3\n", files) else (1, "", files)
  | ["npx", "jsinspect", _] => (1, "", files)
  | ["false"] => (1, "", files)
  | _ => (127, "", files)

/-- The commands of a shell line, which `;` separates, run one after the other:
the exit status of the last one, the output of all and the files afterwards. The
words of a command are separated by blanks, `${IFS}` being one. -/
def sampleShell : List (List Char) → Nat × String × List String → Nat × String × List String
  | [], outcome => outcome
  | segment :: rest, (status, output, files) =>
      match (((expandIFS segment).splitOn ' ').filter (· ≠ [])).map String.mk with
      | [] => sampleShell rest (status, output, files)
      | word :: others =>
          let (status', output', files') := sampleRun files (word :: others)
          sampleShell rest (status', output ++ output', files')

/-- The machine of the examples. -/
def sampleMachine : Machine (List String) where
  access files path :=
    if argText path ∈ files then .ok ()
    else .error ("ENOENT: no such file or directory, access '" ++ argText path ++ "'")
  execSync files line :=
    match sampleShell (line.data.splitOn ';') (0, "", files) with
    | (0, output, files') => (.ok output, files')
    | (_, _, files') => (.error ("Command failed: " ++ line), files')
  lintSummary _ := .error "Unexpected end of JSON input"

/-- The integer a line gives, if the line matches `/(.+):\s*(\d+)/`: the integer
its digits spell. -/
def lineComplexity (line : String) : Option Nat :=
  (matchComplexity line.data).map fun groups => digitsValue groups.2

/-- The entry of `details` a line gives, if the line matches: the text before
the colon as `file` and the integer its digits spell as `complexity`. -/
def lineDetail (line : String) : Option JSValue :=
  (matchComplexity line.data).map fun groups =>
    .obj [("file", .str (String.mk groups.1)), ("complexity", .num (digitsValue groups.2))]

end CodeAnalysisAgent

namespace FilesystemAgent

/-- A name `fs.readdir` can give: not empty, not `.` or `..`, without a path
separator. -/
def isEntryName (name : String) : Bool :=
  name.data ≠ [] && name.data ≠ ['.'] && name.data ≠ ['.', '.'] && !name.data.contains '/'

end FilesystemAgent

/-! ## `utils/rate-limiter.js`: the counts -/

namespace RateLimiter

/-- `Map.prototype.delete`. -/
def mapDelete (m : String → Option Nat) (key : String) : String → Option Nat :=
  fun k => if k = key then none else m k

/-- The request count of a model as the limiter reads it:
`this.requestCounts.get(modelId) || 0`. -/
def currentCount (rl : RateLimiter) (modelId : String) : Nat :=
  orElse (rl.requestCounts modelId) 0

/-- `getRemainingRequests(modelId)`. -/
def getRemainingRequests (rl : RateLimiter) (modelId : String) : Int :=
  max 0 (((limitsOf rl modelId).requestsPerHour : Int) - (currentCount rl modelId : Int))

/-- `resetLimits(modelId)`. -/
def resetLimits (rl : RateLimiter) (modelId : String) : RateLimiter :=
  { rl with
    requestCounts := mapDelete rl.requestCounts modelId
    lastResetTime := mapDelete rl.lastResetTime modelId
    cooldowns := mapDelete rl.cooldowns modelId }

/-- `forceReset()`. -/
def forceReset (rl : RateLimiter) : RateLimiter :=
  { rl with
    requestCounts := fun _ => none
    lastResetTime := fun _ => none
    cooldowns := fun _ => none }

/-- A call made on the limiter; `now` is `Date.now()` during the call. -/
inductive Call where
  | checkRateLimit (now : Nat) (modelId : String)
  | resetLimits (modelId : String)
  | forceReset
  deriving DecidableEq, Repr

/-- The limiter after a call. -/
def afterCall (rl : RateLimiter) : Call → RateLimiter
  | .checkRateLimit now modelId => (checkRateLimit rl now modelId).1
  | .resetLimits modelId => resetLimits rl modelId
  | .forceReset => forceReset rl

/-- The limiter after a sequence of calls. -/
def afterCalls (rl : RateLimiter) (calls : List Call) : RateLimiter :=
  calls.foldl afterCall rl

end RateLimiter

/-- The durations of the waits among the events, in order. -/
def waits (events : List RetryEvent) : List Nat :=
  events.filterMap fun event =>
    match event with
    | .sleep ms => some ms
    | .invoke => none

/-! ## `utils/logger.js`: masking -/

namespace Logger

/-- The words of `SENSITIVE_PATTERNS`. Each pattern is the regular expression of
its word with the flag `i` and without the flag `g`. -/
def SENSITIVE_PATTERNS : List String :=
  ["password", "secret", "token", "key", "credentials"]

/-- JavaScript `text.replace(/word/i, replacement)` for a word of lower-case
letters and a replacement without `$`: the leftmost occurrence of the word,
letter case apart, is replaced, and the text after it is kept as it is. -/
def replaceFirst (word replacement : List Char) : List Char → List Char
  | [] => []
  | c :: rest =>
      if word.isPrefixOf ((c :: rest).map Char.toLower) then
        replacement ++ (c :: rest).drop word.length
      else c :: replaceFirst word replacement rest

/-- The `reduce` over `SENSITIVE_PATTERNS` of `maskSensitiveData` on a string. -/
def maskString (data : String) : String :=
  SENSITIVE_PATTERNS.foldl
    (fun maskedData pattern =>
      String.mk (replaceFirst pattern.data "***REDACTED***".data maskedData.data))
    data

mutual

/-- `maskSensitiveData(data)`. An array goes through `Object.entries` like any
other object, so the result is an object whose keys are the indices. -/
def maskSensitiveData : JSValue → JSValue
  | .str data => .str (maskString data)
  | .arr items => .obj (maskItems items 0 [])
  | .obj fields => .obj (maskFields fields [])
  | other => other

/-- The `reduce` over the entries of an array, from the index `index` on;
`masked` is the accumulator. -/
def maskItems : List JSValue → Nat → List (String × JSValue) → List (String × JSValue)
  | [], _, masked => masked
  | value :: rest, index, masked =>
      maskItems rest (index + 1) (assignProp masked (toString index) (maskSensitiveData value))

/-- The `reduce` over the entries of an object, listed in the order
`Object.entries` gives them; `masked` is the accumulator. -/
def maskFields : List (String × JSValue) → List (String × JSValue) → List (String × JSValue)
  | [], masked => masked
  | (key, value) :: rest, masked =>
      maskFields rest (assignProp masked key (maskSensitiveData value))

end

/-- The text contains one of the sensitive words, letter case apart. -/
def hasSensitiveWord (text : String) : Bool :=
  SENSITIVE_PATTERNS.any fun word => decide (includes (toLowerCase text) word)

end Logger

/-! ## `agents/mcp-agent-executor.js`: sequences of calls -/

namespace MCPAgentExecutor

/-- A call made on the executor. -/
inductive Call where
  | initializeAgent (agentId : String)
  | closeAgent (agentId : String)
  | closeAllAgents
  deriving DecidableEq, Repr

/-- The executor after a call. -/
def afterCall (spawn : Spawn) (ex : Executor) : Call → Executor
  | .initializeAgent agentId => (initializeAgent spawn ex agentId).2
  | .closeAgent agentId => (closeAgent ex agentId).2
  | .closeAllAgents => (closeAllAgents ex).2

/-- The executor after a sequence of calls. -/
def afterCalls (spawn : Spawn) (ex : Executor) (calls : List Call) : Executor :=
  calls.foldl (afterCall spawn) ex

end MCPAgentExecutor

namespace MCPAgentExecutor

/-- Along a sequence of calls, `initializeAgent` is called only for an id that
does not name a member of `Object.prototype` and is not running at the time of
the call. -/
def initializesOnce (spawn : Spawn) : Executor → List Call → Bool
  | _, [] => true
  | ex, call :: rest =>
      (match call with
        | .initializeAgent agentId =>
            decide (agentId ∉ objectPrototypeMembers) && (ex.agents.lookup agentId).isNone
        | _ => true) &&
      initializesOnce spawn (afterCall spawn ex call) rest

end MCPAgentExecutor

end AgentSystem

/-! # Theorems -/

namespace AgentSystem

/-! ## The filesystem agent's allow-list -/

namespace FilesystemAgent

variable {σ : Type}

theorem normalizeAndValidatePath_denied (cwd p : String)
    (h : isPathAllowed (resolve cwd p) = false) :
    normalizeAndValidatePath cwd p = .error (accessDenied (resolve cwd p)) := by
  simp [normalizeAndValidatePath, h]

/-- When no allowed root is a string prefix of the resolved path, each of the
five operations throws the access-denied error, leaves the filesystem as it was
and makes no `fs` call. -/
theorem denied_makes_no_call (nfs : NodeFs σ) (cwd : String) (fs : σ) (p content : String)
    (h : isPathAllowed (resolve cwd p) = false) :
    list nfs cwd fs p = ⟨.error (accessDenied (resolve cwd p)), fs, []⟩ ∧
    read nfs cwd fs p = ⟨.error (accessDenied (resolve cwd p)), fs, []⟩ ∧
    write nfs cwd fs p content = ⟨.error (accessDenied (resolve cwd p)), fs, []⟩ ∧
    mkdir nfs cwd fs p = ⟨.error (accessDenied (resolve cwd p)), fs, []⟩ ∧
    delete nfs cwd fs p = ⟨.error (accessDenied (resolve cwd p)), fs, []⟩ := by
  simp [list, read, write, mkdir, delete, normalizeAndValidatePath_denied cwd p h]

/-- C1, at the path `/Users/garyoleary/Desktop2/secret.txt`: its resolved form
is neither an allowed root nor nested under one (`Desktop2` is a sibling of the
allowed `Desktop`), yet `isPathAllowed` accepts it, so `read` returns the file's
content, and `list`, `write`, `mkdir` and `delete` all reach the `fs` module. -/
theorem sibling_of_allowed_root_is_served :
    nestedUnderAllowedRoot (resolve "/" "/Users/garyoleary/Desktop2/secret.txt") = false ∧
    isPathAllowed (resolve "/" "/Users/garyoleary/Desktop2/secret.txt") = true ∧
    (read mapFs "/" [("/Users/garyoleary/Desktop2/secret.txt", .file "s")]
        "/Users/garyoleary/Desktop2/secret.txt").result = .ok (.content "s") ∧
    (read mapFs "/" [("/Users/garyoleary/Desktop2/secret.txt", .file "s")]
        "/Users/garyoleary/Desktop2/secret.txt").calls
      = [.readFile "/Users/garyoleary/Desktop2/secret.txt"] ∧
    (list mapFs "/" [("/Users/garyoleary/Desktop2/secret.txt", .file "s")]
        "/Users/garyoleary/Desktop2/secret.txt").calls
      = [.readdir "/Users/garyoleary/Desktop2/secret.txt"] ∧
    (write mapFs "/" [("/Users/garyoleary/Desktop2/secret.txt", .file "s")]
        "/Users/garyoleary/Desktop2/secret.txt" "x").fs
      = [("/Users/garyoleary/Desktop2/secret.txt", .file "x")] ∧
    (mkdir mapFs "/" [("/Users/garyoleary/Desktop2/secret.txt", .file "s")]
        "/Users/garyoleary/Desktop2/secret.txt").calls
      = [.mkdir "/Users/garyoleary/Desktop2/secret.txt"] ∧
    (delete mapFs "/" [("/Users/garyoleary/Desktop2/secret.txt", .file "s")]
        "/Users/garyoleary/Desktop2/secret.txt").fs = [] := by
  refine ⟨by decide, by decide, by rfl, by decide, by decide, by decide, by decide, by decide⟩

end FilesystemAgent

/-! ## The generator service's validators -/

namespace GeneratorService

open JSValue

theorem filterMissing_of_not_nullish (v : JSValue) (h : v.isNullish = false)
    (fields : List String) :
    filterMissing v fields = .ok (fields.filter fun field => !(v.ownProp field).truthy) := by
  induction fields with
  | nil => rfl
  | cons field rest ih =>
      simp only [filterMissing, getProp, h, ih, List.filter_cons]
      by_cases ht : (v.ownProp field).truthy <;> simp [ht, bind, Except.bind, pure, Except.pure]

theorem filterMissing_of_nullish (v : JSValue) (h : v.isNullish = true)
    (field : String) (rest : List String) :
    throws (filterMissing v (field :: rest)) = true := by
  simp [filterMissing, getProp, h, bind, Except.bind, throws]

theorem truthy_false_of_isUndefined {v : JSValue} (h : v.isUndefined = true) :
    v.truthy = false := by
  cases v <;> simp_all [isUndefined, truthy]

theorem throws_iff_ne_ok (r : Except String Unit) : throws r = true ↔ r ≠ .ok () := by
  cases r <;> simp [throws]

/-- The parameters loop accepts exactly the lists in which every element is
neither `null` nor `undefined` and has a truthy value for each required field. -/
theorem validateParams_eq_ok_iff (params : List JSValue) (index : Nat) :
    validateParams params index = .ok () ↔
      ∀ param ∈ params, param.isNullish = false ∧
        ∀ field ∈ paramRequired, (param.ownProp field).truthy = true := by
  induction params generalizing index with
  | nil => simp [validateParams]
  | cons param rest ih =>
      cases hn : param.isNullish with
      | true =>
          have := filterMissing_of_nullish param hn "name" ["type", "description", "required"]
          simp only [validateParams, paramRequired]
          cases hf : filterMissing param ["name", "type", "description", "required"] with
          | error e => simp [bind, Except.bind, hn]
          | ok l => simp [hf, throws] at this
      | false =>
          simp only [validateParams, filterMissing_of_not_nullish param hn]
          by_cases hm : (paramRequired.filter fun field => !(param.ownProp field).truthy) = []
          · have hall : ∀ field ∈ paramRequired, (param.ownProp field).truthy = true := by
              intro field hfield
              by_contra hc
              have : field ∈ paramRequired.filter fun field => !(param.ownProp field).truthy := by
                simp [List.mem_filter, hfield, hc]
              simp [hm] at this
            simp only [hm, List.length_nil, gt_iff_lt, lt_self_iff_false, ↓reduceIte, bind,
              Except.bind, pure, Except.pure, ih, List.mem_cons, forall_eq_or_imp, hn, true_and]
            exact ⟨fun h => ⟨hall, h⟩, fun h => h.2⟩
          · have hpos : (paramRequired.filter fun field => !(param.ownProp field).truthy).length > 0 :=
              List.length_pos.mpr hm
            have hex : ¬ ∀ field ∈ paramRequired, (param.ownProp field).truthy = true := by
              intro hall
              apply hm
              simp [List.filter_eq_nil_iff]
              exact hall
            simp [hpos, bind, Except.bind, throw, throwThe, MonadExceptOf.throw, hex]

/-- `_validateToolSpec` accepts exactly the values that are neither `null` nor
`undefined`, have a truthy value for each required field, and whose
`parameters` is a non-empty array accepted by the parameters loop. -/
theorem validateToolSpec_eq_ok_iff (spec : JSValue) :
    _validateToolSpec spec = .ok () ↔
      spec.isNullish = false ∧
      (∀ field ∈ toolRequiredFields, (spec.ownProp field).truthy = true) ∧
      (spec.ownProp "parameters").isNonEmptyArray = true ∧
      ∀ params, spec.ownProp "parameters" = arr params →
        ∀ param ∈ params, param.isNullish = false ∧
          ∀ field ∈ paramRequired, (param.ownProp field).truthy = true := by
  cases hn : spec.isNullish with
  | true =>
      have := filterMissing_of_nullish spec hn "name" ["description", "type", "parameters", "sourceCode"]
      simp only [_validateToolSpec, toolRequiredFields]
      cases hf : filterMissing spec ["name", "description", "type", "parameters", "sourceCode"] with
      | error e => simp [bind, Except.bind]
      | ok l => simp [hf, throws] at this
  | false =>
      simp only [_validateToolSpec, filterMissing_of_not_nullish spec hn, getProp, hn]
      by_cases hm : (toolRequiredFields.filter fun field => !(spec.ownProp field).truthy) = []
      · have hall : ∀ field ∈ toolRequiredFields, (spec.ownProp field).truthy = true := by
          intro field hfield
          by_contra hc
          have : field ∈ toolRequiredFields.filter fun field => !(spec.ownProp field).truthy := by
            simp [List.mem_filter, hfield, hc]
          simp [hm] at this
        simp only [hm, List.length_nil, gt_iff_lt, lt_self_iff_false, ↓reduceIte, bind,
          Except.bind, pure, Except.pure, true_and]
        cases hp : spec.ownProp "parameters" with
        | arr items =>
            cases items with
            | nil => simp [isNonEmptyArray, throw, throwThe, MonadExceptOf.throw]
            | cons param rest =>
                simp only [Bool.false_eq_true, ↓reduceIte, validateParams_eq_ok_iff,
                  isNonEmptyArray, true_and]
                constructor
                · intro h
                  refine ⟨hall, ?_⟩
                  intro params hparams
                  cases hparams
                  exact h
                · intro h
                  exact h.2 _ rfl
        | _ => simp [isNonEmptyArray, throw, throwThe, MonadExceptOf.throw]
      · have hpos : (toolRequiredFields.filter fun field => !(spec.ownProp field).truthy).length > 0 :=
          List.length_pos.mpr hm
        have hex : ¬ ∀ field ∈ toolRequiredFields, (spec.ownProp field).truthy = true := by
          intro hall
          apply hm
          simp [List.filter_eq_nil_iff]
          exact hall
        simp only [hpos, ↓reduceIte, bind, Except.bind, throw, throwThe, MonadExceptOf.throw]
        constructor
        · intro h
          cases h
        · intro h
          exact absurd h.2.1 hex

theorem truthy_false_of_lacks {v : JSValue} {key : String} (hn : v.isNullish = false)
    (h : v.lacks key = true) : (v.ownProp key).truthy = false := by
  simp only [lacks, hn, Bool.false_or] at h
  exact truthy_false_of_isUndefined h

/-- C2: `_validateToolSpec(spec)` throws whenever `spec` lacks one of `name`,
`description`, `type`, `parameters`, `sourceCode`, or its `parameters` is not a
non-empty array, or some element of `parameters` lacks one of `name`, `type`,
`description`, `required`. -/
theorem validateToolSpec_rejects (spec : JSValue)
    (h : (∃ field ∈ toolRequiredFields, spec.lacks field = true) ∨
         (spec.ownProp "parameters").isNonEmptyArray = false ∨
         (∃ params, spec.ownProp "parameters" = arr params ∧
            ∃ param ∈ params, ∃ field ∈ paramRequired, param.lacks field = true)) :
    throws (_validateToolSpec spec) = true := by
  rw [throws_iff_ne_ok]
  intro hok
  rw [validateToolSpec_eq_ok_iff] at hok
  obtain ⟨hn, hfields, harr, hparams⟩ := hok
  rcases h with ⟨field, hfield, hl⟩ | hne | ⟨params, hp, param, hparam, field, hfield, hl⟩
  · have := truthy_false_of_lacks hn hl
    rw [hfields field hfield] at this
    cases this
  · rw [harr] at hne
    cases hne
  · obtain ⟨hpn, hpf⟩ := hparams params hp param hparam
    have := truthy_false_of_lacks hpn hl
    rw [hpf field hfield] at this
    cases this

/-- A specification with a missing `sourceCode`, one whose `parameters` is the
empty array, and one whose only parameter has no `description`. -/
theorem validateToolSpec_rejects_witness :
    throws (_validateToolSpec (obj [("name", str "t"), ("description", str "d"),
      ("type", str "api-tool"), ("parameters", arr [obj []])])) = true ∧
    throws (_validateToolSpec (obj [("name", str "t"), ("description", str "d"),
      ("type", str "api-tool"), ("parameters", arr []), ("sourceCode", str "x")])) = true ∧
    throws (_validateToolSpec (obj [("name", str "t"), ("description", str "d"),
      ("type", str "api-tool"),
      ("parameters", arr [obj [("name", str "p"), ("type", str "string"),
        ("required", bool true)]]),
      ("sourceCode", str "x")])) = true :=
  ⟨validateToolSpec_rejects _ (Or.inl ⟨"sourceCode", by decide, by decide⟩),
   validateToolSpec_rejects _ (Or.inr (Or.inl (by decide))),
   validateToolSpec_rejects _ (Or.inr (Or.inr ⟨_, rfl, _, List.mem_singleton.mpr rfl,
     "description", by decide, by decide⟩))⟩

/-- C3, at a specification with one optional parameter (`required: false`):
every field the generation prompt asks for is there, with a boolean `required`,
yet `_validateToolSpec` throws, reporting `required` as missing. -/
theorem validateToolSpec_rejects_optional_param :
    wellFormedToolSpec (obj [("name", str "t"), ("description", str "d"),
      ("type", str "api-tool"),
      ("parameters", arr [obj [("name", str "p"), ("type", str "string"),
        ("description", str "d"), ("required", bool false)]]),
      ("sourceCode", str "x")]) = true ∧
    _validateToolSpec (obj [("name", str "t"), ("description", str "d"),
      ("type", str "api-tool"),
      ("parameters", arr [obj [("name", str "p"), ("type", str "string"),
        ("description", str "d"), ("required", bool false)]]),
      ("sourceCode", str "x")])
      = .error "Invalid parameter 1: missing required fields: required" :=
  ⟨by decide, by rfl⟩

/-- The steps loop accepts exactly the lists in which every element is
neither `null` nor `undefined` and has a truthy value for each required field. -/
theorem validateSteps_eq_ok_iff (steps : List JSValue) (index : Nat) :
    validateSteps steps index = .ok () ↔
      ∀ step ∈ steps, step.isNullish = false ∧
        ∀ field ∈ stepRequired, (step.ownProp field).truthy = true := by
  induction steps generalizing index with
  | nil => simp [validateSteps]
  | cons step rest ih =>
      cases hn : step.isNullish with
      | true =>
          have := filterMissing_of_nullish step hn "tool" ["description", "parameters"]
          simp only [validateSteps, stepRequired]
          cases hf : filterMissing step ["tool", "description", "parameters"] with
          | error e => simp [bind, Except.bind, hn]
          | ok l => simp [hf, throws] at this
      | false =>
          simp only [validateSteps, filterMissing_of_not_nullish step hn]
          by_cases hm : (stepRequired.filter fun field => !(step.ownProp field).truthy) = []
          · have hall : ∀ field ∈ stepRequired, (step.ownProp field).truthy = true := by
              intro field hfield
              by_contra hc
              have : field ∈ stepRequired.filter fun field => !(step.ownProp field).truthy := by
                simp [List.mem_filter, hfield, hc]
              simp [hm] at this
            simp only [hm, List.length_nil, gt_iff_lt, lt_self_iff_false, ↓reduceIte, bind,
              Except.bind, pure, Except.pure, ih, List.mem_cons, forall_eq_or_imp, hn, true_and]
            exact ⟨fun h => ⟨hall, h⟩, fun h => h.2⟩
          · have hpos : (stepRequired.filter fun field => !(step.ownProp field).truthy).length > 0 :=
              List.length_pos.mpr hm
            have hex : ¬ ∀ field ∈ stepRequired, (step.ownProp field).truthy = true := by
              intro hall
              apply hm
              simp [List.filter_eq_nil_iff]
              exact hall
            simp [hpos, bind, Except.bind, throw, throwThe, MonadExceptOf.throw, hex]

/-- `_validateWorkflowSpec` accepts exactly the values that are neither `null` nor
`undefined`, have a truthy value for each required field, and whose
`steps` is a non-empty array accepted by the steps loop. -/
theorem validateWorkflowSpec_eq_ok_iff (spec : JSValue) :
    _validateWorkflowSpec spec = .ok () ↔
      spec.isNullish = false ∧
      (∀ field ∈ workflowRequiredFields, (spec.ownProp field).truthy = true) ∧
      (spec.ownProp "steps").isNonEmptyArray = true ∧
      ∀ steps, spec.ownProp "steps" = arr steps →
        ∀ step ∈ steps, step.isNullish = false ∧
          ∀ field ∈ stepRequired, (step.ownProp field).truthy = true := by
  cases hn : spec.isNullish with
  | true =>
      have := filterMissing_of_nullish spec hn "name" ["description", "steps"]
      simp only [_validateWorkflowSpec, workflowRequiredFields]
      cases hf : filterMissing spec ["name", "description", "steps"] with
      | error e => simp [bind, Except.bind]
      | ok l => simp [hf, throws] at this
  | false =>
      simp only [_validateWorkflowSpec, filterMissing_of_not_nullish spec hn, getProp, hn]
      by_cases hm : (workflowRequiredFields.filter fun field => !(spec.ownProp field).truthy) = []
      · have hall : ∀ field ∈ workflowRequiredFields, (spec.ownProp field).truthy = true := by
          intro field hfield
          by_contra hc
          have : field ∈ workflowRequiredFields.filter fun field => !(spec.ownProp field).truthy := by
            simp [List.mem_filter, hfield, hc]
          simp [hm] at this
        simp only [hm, List.length_nil, gt_iff_lt, lt_self_iff_false, ↓reduceIte, bind,
          Except.bind, pure, Except.pure, true_and]
        cases hp : spec.ownProp "steps" with
        | arr items =>
            cases items with
            | nil => simp [isNonEmptyArray, throw, throwThe, MonadExceptOf.throw]
            | cons step rest =>
                simp only [Bool.false_eq_true, ↓reduceIte, validateSteps_eq_ok_iff,
                  isNonEmptyArray, true_and]
                constructor
                · intro h
                  refine ⟨hall, ?_⟩
                  intro steps hparams
                  cases hparams
                  exact h
                · intro h
                  exact h.2 _ rfl
        | _ => simp [isNonEmptyArray, throw, throwThe, MonadExceptOf.throw]
      · have hpos : (workflowRequiredFields.filter fun field => !(spec.ownProp field).truthy).length > 0 :=
          List.length_pos.mpr hm
        have hex : ¬ ∀ field ∈ workflowRequiredFields, (spec.ownProp field).truthy = true := by
          intro hall
          apply hm
          simp [List.filter_eq_nil_iff]
          exact hall
        simp only [hpos, ↓reduceIte, bind, Except.bind, throw, throwThe, MonadExceptOf.throw]
        constructor
        · intro h
          cases h
        · intro h
          exact absurd h.2.1 hex

theorem truthy_of_isPresentNonEmpty {v : JSValue} (h : v.isPresentNonEmpty = true) :
    v.truthy = true := by
  cases v with
  | str s => simpa [isPresentNonEmpty, truthy] using h
  | arr items => rfl
  | obj fields => rfl
  | _ => simp [isPresentNonEmpty] at h

theorem not_nullish_of_isPresentNonEmpty {v : JSValue} {key : String}
    (h : (v.ownProp key).isPresentNonEmpty = true) : v.isNullish = false := by
  cases v <;> first | rfl | simp [ownProp, isPresentNonEmpty] at h

/-- C4: `_validateWorkflowSpec(spec)` throws whenever `spec` lacks one of
`name`, `description`, `steps`, or its `steps` is not a non-empty array, or some
step lacks one of `tool`, `description`, `parameters`; and it accepts every
`spec` in which these three fields, and the three fields of every step, are
present and non-empty. -/
theorem validateWorkflowSpec_rejects_and_accepts (spec : JSValue) :
    (((∃ field ∈ workflowRequiredFields, spec.lacks field = true) ∨
       (spec.ownProp "steps").isNonEmptyArray = false ∨
       (∃ steps, spec.ownProp "steps" = arr steps ∧
          ∃ step ∈ steps, ∃ field ∈ stepRequired, step.lacks field = true)) →
      throws (_validateWorkflowSpec spec) = true) ∧
    (workflowFieldsPresent spec = true → _validateWorkflowSpec spec = .ok ()) := by
  constructor
  · intro h
    rw [throws_iff_ne_ok]
    intro hok
    rw [validateWorkflowSpec_eq_ok_iff] at hok
    obtain ⟨hn, hfields, harr, hsteps⟩ := hok
    rcases h with ⟨field, hfield, hl⟩ | hne | ⟨steps, hp, step, hstep, field, hfield, hl⟩
    · have := truthy_false_of_lacks hn hl
      rw [hfields field hfield] at this
      cases this
    · rw [harr] at hne
      cases hne
    · obtain ⟨hpn, hpf⟩ := hsteps steps hp step hstep
      have := truthy_false_of_lacks hpn hl
      rw [hpf field hfield] at this
      cases this
  · intro h
    simp only [workflowFieldsPresent, Bool.and_eq_true, List.all_eq_true] at h
    obtain ⟨hfields, hsteps⟩ := h
    rw [validateWorkflowSpec_eq_ok_iff]
    refine ⟨not_nullish_of_isPresentNonEmpty (hfields "name" (by decide)),
      fun field hfield => truthy_of_isPresentNonEmpty (hfields field hfield), ?_, ?_⟩
    · have hs := hfields "steps" (by decide)
      cases hp : spec.ownProp "steps" with
      | arr items =>
          cases items with
          | nil => simp [hp, isPresentNonEmpty] at hs
          | cons step rest => rfl
      | _ => simp [hp] at hsteps
    · intro steps hp step hstep
      simp only [hp, List.all_eq_true] at hsteps
      have hstepOk := hsteps step hstep
      simp only [stepFieldsPresent, List.all_eq_true] at hstepOk
      exact ⟨not_nullish_of_isPresentNonEmpty (hstepOk "tool" (by decide)),
        fun field hfield => truthy_of_isPresentNonEmpty (hstepOk field hfield)⟩

/-- A workflow whose only step has no `tool` is rejected; the same workflow with
the `tool` filled in is accepted. -/
theorem validateWorkflowSpec_rejects_and_accepts_witness :
    throws (_validateWorkflowSpec (obj [("name", str "w"), ("description", str "d"),
      ("steps", arr [obj [("description", str "first"),
        ("parameters", obj [("param1", str "value1")])]])])) = true ∧
    _validateWorkflowSpec (obj [("name", str "w"), ("description", str "d"),
      ("steps", arr [obj [("tool", str "step1"), ("description", str "first"),
        ("parameters", obj [("param1", str "value1")])]])]) = .ok () :=
  ⟨(validateWorkflowSpec_rejects_and_accepts _).1
      (Or.inr (Or.inr ⟨_, rfl, _, List.mem_singleton.mpr rfl, "tool", by decide, by decide⟩)),
   (validateWorkflowSpec_rejects_and_accepts _).2 (by decide)⟩

end GeneratorService

/-! ## The rate limiter -/

namespace RateLimiter

theorem limitsOf_congr {rl rl' : RateLimiter} (hm : rl'.modelLimits = rl.modelLimits)
    (hg : rl'.globalConfig = rl.globalConfig) (modelId : String) :
    limitsOf rl' modelId = limitsOf rl modelId := by
  simp [limitsOf, hm, hg]

theorem orElse_some_zero (k : Nat) : orElse (some k) 0 = k := by
  simp only [orElse]; split_ifs with h <;> simp [h]

theorem orElse_none (b : Nat) : orElse none b = b := rfl

/-- A call made while the window opened at `t0` is still running and the count
`k` is below the limit returns `true` and adds one to the count. -/
theorem checkRateLimit_below_limit (rl : RateLimiter) (now t0 k : Nat) (modelId : String)
    (hc : rl.cooldowns modelId = none) (hr : rl.lastResetTime modelId = some t0)
    (hk : rl.requestCounts modelId = some k)
    (hwin : now < t0 + (limitsOf rl modelId).resetIntervalMs)
    (hlt : k < (limitsOf rl modelId).requestsPerHour) :
    (checkRateLimit rl now modelId).2 = .ok true ∧
    (checkRateLimit rl now modelId).1.cooldowns modelId = none ∧
    (checkRateLimit rl now modelId).1.lastResetTime modelId = some t0 ∧
    (checkRateLimit rl now modelId).1.requestCounts modelId = some (k + 1) ∧
    (checkRateLimit rl now modelId).1.modelLimits = rl.modelLimits ∧
    (checkRateLimit rl now modelId).1.globalConfig = rl.globalConfig := by
  have hreset : ¬ (((limitsOf rl modelId).resetIntervalMs : Int) ≤ (now : Int) - (t0 : Int)) := by
    omega
  have hnot : ¬ (limitsOf rl modelId).requestsPerHour ≤ k := by omega
  simp [checkRateLimit, hc, hr, hk, orElse_some_zero, orElse_none, mapSet, hreset, hnot]

/-- A call made while the window opened at `t0` is still running and the count
has reached the limit throws and starts a cooldown of `retryDelayMs`. -/
theorem checkRateLimit_at_limit (rl : RateLimiter) (now t0 k : Nat) (modelId : String)
    (hc : rl.cooldowns modelId = none) (hr : rl.lastResetTime modelId = some t0)
    (hk : rl.requestCounts modelId = some k)
    (hwin : now < t0 + (limitsOf rl modelId).resetIntervalMs)
    (hge : (limitsOf rl modelId).requestsPerHour ≤ k) :
    (checkRateLimit rl now modelId).2 =
      .error (exceededMessage modelId (limitsOf rl modelId).retryDelayMs) ∧
    (checkRateLimit rl now modelId).1.cooldowns modelId =
      some (now + (limitsOf rl modelId).retryDelayMs) := by
  have hreset : ¬ (((limitsOf rl modelId).resetIntervalMs : Int) ≤ (now : Int) - (t0 : Int)) := by
    omega
  simp [checkRateLimit, hc, hr, hk, orElse_some_zero, orElse_none, mapSet, hreset, hge]

/-- The first call on a limiter that has never seen the model opens the window
at the time of the call. -/
theorem checkRateLimit_first_below (rl : RateLimiter) (now : Nat) (modelId : String)
    (hc : rl.cooldowns modelId = none) (hr : rl.lastResetTime modelId = none)
    (hwin : 0 < (limitsOf rl modelId).resetIntervalMs)
    (hlt : 0 < (limitsOf rl modelId).requestsPerHour) :
    (checkRateLimit rl now modelId).2 = .ok true ∧
    (checkRateLimit rl now modelId).1.cooldowns modelId = none ∧
    (checkRateLimit rl now modelId).1.lastResetTime modelId = some now ∧
    (checkRateLimit rl now modelId).1.requestCounts modelId = some 1 ∧
    (checkRateLimit rl now modelId).1.modelLimits = rl.modelLimits ∧
    (checkRateLimit rl now modelId).1.globalConfig = rl.globalConfig := by
  have hreset : ¬ (limitsOf rl modelId).resetIntervalMs = 0 := by omega
  have hnot : ¬ (limitsOf rl modelId).requestsPerHour = 0 := by omega
  simp [checkRateLimit, hc, hr, orElse_some_zero, orElse_none, mapSet, hreset, hnot]

/-- The first call on a limiter that has never seen a model whose limit is zero
throws at once. -/
theorem checkRateLimit_first_at_limit (rl : RateLimiter) (now : Nat) (modelId : String)
    (hc : rl.cooldowns modelId = none) (hr : rl.lastResetTime modelId = none)
    (hzero : (limitsOf rl modelId).requestsPerHour = 0) :
    (checkRateLimit rl now modelId).2 =
      .error (exceededMessage modelId (limitsOf rl modelId).retryDelayMs) ∧
    (checkRateLimit rl now modelId).1.cooldowns modelId =
      some (now + (limitsOf rl modelId).retryDelayMs) := by
  by_cases hw : ((limitsOf rl modelId).resetIntervalMs : Int) ≤ 0 <;>
    simp [checkRateLimit, hc, hr, orElse_some_zero, orElse_none, mapSet, hzero, hw]

/-- While the window opened at `t0` is running, calls that keep the count
within the limit all return `true`. -/
theorem checkRateLimitAt_below_limit (modelId : String) (limits : Limits) (t0 : Nat)
    (times : List Nat) :
    ∀ (rl : RateLimiter) (k : Nat),
      rl.cooldowns modelId = none → rl.lastResetTime modelId = some t0 →
      rl.requestCounts modelId = some k → limitsOf rl modelId = limits →
      (∀ t ∈ times, t < t0 + limits.resetIntervalMs) →
      k + times.length ≤ limits.requestsPerHour →
      (checkRateLimitAt rl modelId times).2 = List.replicate times.length (.ok true) ∧
      (checkRateLimitAt rl modelId times).1.cooldowns modelId = none ∧
      (checkRateLimitAt rl modelId times).1.lastResetTime modelId = some t0 ∧
      (checkRateLimitAt rl modelId times).1.requestCounts modelId = some (k + times.length) ∧
      limitsOf (checkRateLimitAt rl modelId times).1 modelId = limits := by
  induction times with
  | nil =>
      intro rl k hc hr hk hl _ _
      exact ⟨rfl, hc, hr, hk, hl⟩
  | cons now later ih =>
      intro rl k hc hr hk hl hwin hlen
      simp only [List.length_cons] at hlen
      obtain ⟨h1, h2, h3, h4, h5, h6⟩ :=
        checkRateLimit_below_limit rl now t0 k modelId hc hr hk
          (by rw [hl]; exact hwin now (List.mem_cons_self _ _)) (by rw [hl]; omega)
      have hl' : limitsOf (checkRateLimit rl now modelId).1 modelId = limits :=
        (limitsOf_congr h5 h6 modelId).trans hl
      obtain ⟨g1, g2, g3, g4, g5⟩ :=
        ih (checkRateLimit rl now modelId).1 (k + 1) h2 h3 h4 hl'
          (fun t ht => hwin t (List.mem_cons_of_mem _ ht)) (by omega)
      refine ⟨?_, g2, g3, ?_, g5⟩
      · simp only [checkRateLimitAt, h1, g1, List.length_cons, List.replicate_succ]
      · simp only [checkRateLimitAt, g4, List.length_cons]
        congr 1
        omega

theorem getCooldownStatus_of_cooldown (rl : RateLimiter) (now delay : Nat) (modelId : String)
    (hc : rl.cooldowns modelId = some (now + delay)) (hd : 0 < delay) :
    getCooldownStatus rl now modelId = some ⟨(delay : Int), now + delay⟩ := by
  have h1 : ¬ (now + delay = 0) := by omega
  have h2 : ¬ (now + delay ≤ now) := by omega
  simp [getCooldownStatus, hc, orElse, h1, h2]

/-- C5: on a fresh limiter, for a model whose limit is `N = requestsPerHour` and
whose `retryDelayMs` is positive (a model id that names a member of
`Object.prototype` has no such limit), `N + 1` calls of `checkRateLimit` at
non-decreasing times within one reset window of the first: the first `N` return
`true`, the last throws the rate-limit error, and `getCooldownStatus` at the
time of the throw is not `null` and has a positive `remainingMs`. -/
theorem checkRateLimit_throws_after_limit (modelLimits : List (String × Limits))
    (globalConfig : Option GlobalConfig) (modelId : String) (times : List Nat) (last : Nat)
    (_hown : modelId ∉ objectPrototypeMembers)
    (hlen : times.length = (limitsOf (fresh modelLimits globalConfig) modelId).requestsPerHour)
    (_hmono : (times ++ [last]).Chain' (· ≤ ·))
    (hwin : ∀ t ∈ times ++ [last],
      t < (times ++ [last]).headD 0 +
        (limitsOf (fresh modelLimits globalConfig) modelId).resetIntervalMs)
    (hdelay : 0 < (limitsOf (fresh modelLimits globalConfig) modelId).retryDelayMs) :
    (checkRateLimitAt (fresh modelLimits globalConfig) modelId times).2
      = List.replicate (limitsOf (fresh modelLimits globalConfig) modelId).requestsPerHour
          (.ok true) ∧
    (checkRateLimit (checkRateLimitAt (fresh modelLimits globalConfig) modelId times).1
        last modelId).2
      = .error (exceededMessage modelId
          (limitsOf (fresh modelLimits globalConfig) modelId).retryDelayMs) ∧
    ∃ status,
      getCooldownStatus
        (checkRateLimit (checkRateLimitAt (fresh modelLimits globalConfig) modelId times).1
          last modelId).1 last modelId = some status ∧
      0 < status.remainingMs := by
  cases times with
  | nil =>
      simp only [List.length_nil] at hlen
      obtain ⟨h1, h2⟩ :=
        checkRateLimit_first_at_limit (fresh modelLimits globalConfig) last modelId rfl rfl
          hlen.symm
      refine ⟨by rw [← hlen]; rfl, h1, _, getCooldownStatus_of_cooldown _ _ _ _ h2 hdelay, ?_⟩
      exact Int.ofNat_pos.mpr hdelay
  | cons t0 later =>
      simp only [List.length_cons] at hlen
      have hwin' : ∀ t, t = t0 ∨ t ∈ later ∨ t = last →
          t < t0 + (limitsOf (fresh modelLimits globalConfig) modelId).resetIntervalMs := by
        intro t ht
        have := hwin t (by simpa using ht)
        simpa using this
      have hw : 0 < (limitsOf (fresh modelLimits globalConfig) modelId).resetIntervalMs := by
        have := hwin' t0 (Or.inl rfl)
        omega
      obtain ⟨h1, h2, h3, h4, h5, h6⟩ :=
        checkRateLimit_first_below (fresh modelLimits globalConfig) t0 modelId rfl rfl hw
          (by omega)
      have hl := limitsOf_congr h5 h6 modelId
      obtain ⟨g1, g2, g3, g4, g5⟩ :=
        checkRateLimitAt_below_limit modelId _ t0 later _ 1 h2 h3 h4 hl
          (fun t ht => hwin' t (Or.inr (Or.inl ht))) (by omega)
      obtain ⟨f1, f2⟩ :=
        checkRateLimit_at_limit
          (checkRateLimitAt (checkRateLimit (fresh modelLimits globalConfig) t0 modelId).1
            modelId later).1 last t0 (1 + later.length) modelId g2 g3 g4
          (by rw [g5]; exact hwin' last (Or.inr (Or.inr rfl))) (by rw [g5]; omega)
      rw [g5] at f1 f2
      refine ⟨?_, f1, _, getCooldownStatus_of_cooldown _ _ _ _ f2 hdelay, ?_⟩
      · simp only [checkRateLimitAt, h1, g1, ← hlen, List.replicate_succ]
      · exact Int.ofNat_pos.mpr hdelay

/-- The model `m` with limit 2, a window of 1000 ms and a retry delay of 500 ms,
called at times 10, 20 and 30. -/
theorem checkRateLimit_throws_after_limit_witness :
    (checkRateLimitAt (fresh [("m", ⟨2, 1000, 500⟩)] none) "m" [10, 20]).2
      = [.ok true, .ok true] ∧
    (checkRateLimit (checkRateLimitAt (fresh [("m", ⟨2, 1000, 500⟩)] none) "m" [10, 20]).1
        30 "m").2
      = .error "Rate limit exceeded for m. Try again in 1 seconds." ∧
    ∃ status,
      getCooldownStatus
        (checkRateLimit (checkRateLimitAt (fresh [("m", ⟨2, 1000, 500⟩)] none) "m" [10, 20]).1
          30 "m").1 30 "m" = some status ∧
      0 < status.remainingMs :=
  checkRateLimit_throws_after_limit [("m", ⟨2, 1000, 500⟩)] none "m" [10, 20] 30
    (by decide) (by decide) (by simp) (by decide) (by decide)

end RateLimiter

/-! ## Workflow execution -/

namespace WorkshopService

/-- When the subprocesses of the steps before index `k` exit with 0 and the one
of step `k` does not, the loop fails with the error of step `k` and has spawned
the subprocesses of the first `k + 1` steps only. -/
theorem executeSteps_of_first_failure (os : Spawner) (toolsDir params : String)
    (steps : List Step) :
    ∀ (spawned k : Nat) (failing : Step),
      (∀ i, i < k → ∀ step, steps[i]? = some step →
        (os (spawned + i) (spawnCallOf toolsDir params step)).code = some 0) →
      steps[k]? = some failing →
      (os (spawned + k) (spawnCallOf toolsDir params failing)).code ≠ some 0 →
      (executeSteps os toolsDir params steps spawned).1
        = .error ("Step failed: " ++
            (os (spawned + k) (spawnCallOf toolsDir params failing)).stderr) ∧
      (executeSteps os toolsDir params steps spawned).2
        = (steps.take (k + 1)).map (spawnCallOf toolsDir params) := by
  induction steps with
  | nil =>
      intro spawned k failing _ hk _
      simp at hk
  | cons step rest ih =>
      intro spawned k failing hbefore hk hfail
      cases k with
      | zero =>
          simp only [List.getElem?_cons_zero, Option.some.injEq] at hk
          subst hk
          simp only [Nat.add_zero] at hfail ⊢
          simp [executeSteps, executeStep, hfail]
      | succ k =>
          have h0 : (os spawned (spawnCallOf toolsDir params step)).code = some 0 := by
            simpa using hbefore 0 (Nat.succ_pos k) step (List.getElem?_cons_zero ..)
          simp only [List.getElem?_cons_succ] at hk
          have hrest := ih (spawned + 1) k failing
            (fun i hi s hs => by
              have := hbefore (i + 1) (Nat.succ_lt_succ hi) s (by simpa using hs)
              rwa [show spawned + (i + 1) = spawned + 1 + i by omega] at this)
            hk (by rwa [show spawned + 1 + k = spawned + (k + 1) by omega])
          rw [show spawned + 1 + k = spawned + (k + 1) by omega] at hrest
          simp [executeSteps, executeStep, h0, hrest.1, hrest.2, Except.map]

/-- C6: when the subprocess of step `k` exits with a non-zero code (or is ended
by a signal) while those of the earlier steps exit with 0, `executeWorkflow`
rejects, and the subprocesses it has spawned are those of the steps up to `k`:
none is spawned for a later step. -/
theorem executeWorkflow_stops_at_failing_step (os : Spawner)
    (readWorkflow : String → Except String (List Step)) (toolsDir name params : String)
    (steps : List Step) (k : Nat) (failing : Step)
    (hread : readWorkflow (pathJoin (pathJoin toolsDir "workflows") (name ++ ".json"))
      = .ok steps)
    (hbefore : ∀ i, i < k → ∀ step, steps[i]? = some step →
      (os i (spawnCallOf toolsDir params step)).code = some 0)
    (hk : steps[k]? = some failing)
    (hfail : (os k (spawnCallOf toolsDir params failing)).code ≠ some 0) :
    throws (executeWorkflow os readWorkflow toolsDir name params).1 = true ∧
    (executeWorkflow os readWorkflow toolsDir name params).2
      = (steps.take (k + 1)).map (spawnCallOf toolsDir params) := by
  have h := executeSteps_of_first_failure os toolsDir params steps 0 k failing
    (by simpa using hbefore) hk (by simpa using hfail)
  simp only [executeWorkflow, hread, h.1, h.2, throws, and_self]

/-- Three steps, the second of which exits with code 1: two subprocesses are
spawned, none for `step3`. -/
theorem executeWorkflow_stops_at_failing_step_witness :
    throws (executeWorkflow (fun n _ => if n = 1 then ⟨"", "boom", some 1⟩ else ⟨"ok", "", some 0⟩)
      (fun _ => .ok [⟨"step1", none⟩, ⟨"step2", none⟩, ⟨"step3", none⟩])
      "/app/mcp-tools" "w" "{}").1 = true ∧
    (executeWorkflow (fun n _ => if n = 1 then ⟨"", "boom", some 1⟩ else ⟨"ok", "", some 0⟩)
      (fun _ => .ok [⟨"step1", none⟩, ⟨"step2", none⟩, ⟨"step3", none⟩])
      "/app/mcp-tools" "w" "{}").2
      = ([⟨"step1", none⟩, ⟨"step2", none⟩, ⟨"step3", none⟩].take (1 + 1)).map
          (spawnCallOf "/app/mcp-tools" "{}") :=
  executeWorkflow_stops_at_failing_step _ _ "/app/mcp-tools" "w" "{}"
    [⟨"step1", none⟩, ⟨"step2", none⟩, ⟨"step3", none⟩] 1 ⟨"step2", none⟩ rfl
    (by
      intro i hi step hstep
      have hi0 : i = 0 := by omega
      subst hi0
      rfl)
    rfl (by decide)

/-- C7, at the workflow `step1`, `step2` whose first subprocess exits with code
1 after writing `boom` to its error stream: the error `executeWorkflow` fails
with is `Step failed: boom`, which does not contain `step1`. -/
theorem executeWorkflow_error_omits_tool_name :
    (executeWorkflow (fun _ _ => ⟨"", "boom", some 1⟩)
      (fun _ => .ok [⟨"step1", none⟩, ⟨"step2", none⟩])
      "/app/mcp-tools" "w" "{}").1 = .error "Step failed: boom" ∧
    ¬ includes "Step failed: boom" "step1" := by
  refine ⟨by rfl, by decide⟩

/-- C7, amended: the error `executeWorkflow` fails with is `Step failed: `
followed by what the failing step's subprocess wrote to its error stream, and
nothing else. -/
theorem executeWorkflow_error_is_stderr (os : Spawner)
    (readWorkflow : String → Except String (List Step)) (toolsDir name params : String)
    (steps : List Step) (k : Nat) (failing : Step)
    (hread : readWorkflow (pathJoin (pathJoin toolsDir "workflows") (name ++ ".json"))
      = .ok steps)
    (hbefore : ∀ i, i < k → ∀ step, steps[i]? = some step →
      (os i (spawnCallOf toolsDir params step)).code = some 0)
    (hk : steps[k]? = some failing)
    (hfail : (os k (spawnCallOf toolsDir params failing)).code ≠ some 0) :
    (executeWorkflow os readWorkflow toolsDir name params).1
      = .error ("Step failed: " ++ (os k (spawnCallOf toolsDir params failing)).stderr) := by
  have h := executeSteps_of_first_failure os toolsDir params steps 0 k failing
    (by simpa using hbefore) hk (by simpa using hfail)
  simpa [executeWorkflow, hread] using h.1

/-- The first of two steps exits with code 1 after writing `boom`. -/
theorem executeWorkflow_error_is_stderr_witness :
    (executeWorkflow (fun _ _ => ⟨"", "boom", some 1⟩)
      (fun _ => .ok [⟨"step1", none⟩, ⟨"step2", none⟩])
      "/app/mcp-tools" "w" "{}").1
      = .error ("Step failed: " ++
          ((fun _ _ => ⟨"", "boom", some 1⟩ : Spawner) 0
            (spawnCallOf "/app/mcp-tools" "{}" ⟨"step1", none⟩)).stderr) :=
  executeWorkflow_error_is_stderr _ _ "/app/mcp-tools" "w" "{}"
    [⟨"step1", none⟩, ⟨"step2", none⟩] 0 ⟨"step1", none⟩ rfl
    (fun i hi => absurd hi (Nat.not_lt_zero i)) rfl (by decide)

end WorkshopService

/-! ## Maps -/

namespace JSMap

variable {β : Type}

theorem lookup_append_of_none (m m' : JSMap β) (key : String) (h : m.lookup key = none) :
    (m ++ m').lookup key = m'.lookup key := by
  induction m with
  | nil => rfl
  | cons e rest ih =>
      obtain ⟨k, v⟩ := e
      by_cases hk : key = k
      · subst hk
        simp [List.lookup] at h
      · have hne : (key == k) = false := by simpa using hk
        simp only [List.lookup, hne, List.cons_append] at h ⊢
        exact ih h

theorem lookup_replace (m : JSMap β) (key key' : String) (value : β) :
    (m.map (fun e => if e.1 = key then (key, value) else e)).lookup key'
      = if key' = key then (m.lookup key).map (fun _ => value) else m.lookup key' := by
  induction m with
  | nil => simp
  | cons e rest ih =>
      obtain ⟨k, v⟩ := e
      rw [List.map_cons]
      by_cases hk : k = key <;> by_cases hk' : key' = key
      · subst hk; subst hk'
        simp only [↓reduceIte, List.lookup_cons_self, Option.map_some']
      · subst hk
        have hne : (key' == k) = false := by simpa using hk'
        simp only [↓reduceIte, List.lookup_cons, hne, ih, hk']
      · subst hk'
        have hne : (key' == k) = false := by
          simpa using fun h => hk h.symm
        simp only [hk, ↓reduceIte, List.lookup_cons, hne, ih]
      · simp only [hk, ↓reduceIte, List.lookup_cons, ih, hk']

/-- Reading back the key just set gives the value set. -/
theorem get_set_self (m : JSMap β) (key : String) (value : β) :
    (m.set key value).get key = some value := by
  unfold set get has
  cases h : m.lookup key with
  | none =>
      simp only [Option.isSome_none, Bool.false_eq_true, ↓reduceIte]
      rw [lookup_append_of_none m _ key h]
      simp [List.lookup]
  | some v =>
      simp only [Option.isSome_some, ↓reduceIte]
      rw [lookup_replace, h]
      simp

/-- Setting a key leaves the other keys as they were. -/
theorem get_set_of_ne (m : JSMap β) (key key' : String) (value : β) (hne : key' ≠ key) :
    (m.set key value).get key' = m.get key' := by
  unfold set get has
  cases h : m.lookup key with
  | none =>
      simp only [Option.isSome_none, Bool.false_eq_true, ↓reduceIte]
      have hb : (key' == key) = false := by simpa using hne
      induction m with
      | nil => simp [List.lookup, hb]
      | cons e rest ih =>
          obtain ⟨k, v⟩ := e
          by_cases hk : key = k
          · subst hk
            simp [List.lookup] at h
          · have hkb : (key == k) = false := by simpa using hk
            simp only [List.lookup, hkb] at h
            by_cases hk' : key' = k
            · subst hk'
              simp [List.lookup]
            · have hkb' : (key' == k) = false := by simpa using hk'
              simp only [List.cons_append, List.lookup, hkb']
              exact ih h
  | some v =>
      simp only [Option.isSome_some, ↓reduceIte]
      rw [lookup_replace]
      simp [hne]

end JSMap

/-! ## The hook registry -/

namespace PluginManager

variable {H A R : Type}

/-- `registerHook` appends the handler to the list of its hook name and leaves
the lists of the other names as they were. -/
theorem handlers_registerHook (pm : PluginManager H) (hookName name : String) (handler : H) :
    (((registerHook pm hookName handler).hooks.get name).getD [])
      = ((pm.hooks.get name).getD []) ++ (if hookName = name then [handler] else []) := by
  by_cases hn : hookName = name
  · subst hn
    simp only [registerHook, JSMap.get_set_self, Option.getD_some, ↓reduceIte]
    cases hh : pm.hooks.has hookName with
    | true => simp
    | false =>
        have : pm.hooks.get hookName = none := by
          simpa [JSMap.has, JSMap.get] using hh
        simp [JSMap.get_set_self, this]
  · have hne : name ≠ hookName := fun h => hn h.symm
    simp only [registerHook, hn, ↓reduceIte, List.append_nil]
    rw [JSMap.get_set_of_ne _ _ _ _ hne]
    cases hh : pm.hooks.has hookName with
    | true => simp
    | false => simp [JSMap.get_set_of_ne _ _ _ _ hne]

theorem handlers_foldl_registerHook (registrations : List (String × H)) (name : String) :
    ∀ pm : PluginManager H,
      (((registrations.foldl (fun pm r => registerHook pm r.1 r.2) pm).hooks.get name).getD [])
        = ((pm.hooks.get name).getD []) ++ registeredUnder registrations name := by
  induction registrations with
  | nil => intro pm; simp [registeredUnder]
  | cons r rest ih =>
      intro pm
      simp only [List.foldl_cons, ih, handlers_registerHook, registeredUnder, List.filter_cons]
      by_cases hr : r.1 = name <;> simp [hr]

/-- After a sequence of `registerHook` calls on a new manager, the list kept
under a name holds the handlers registered under it, in registration order. -/
theorem handlers_registerAll (registrations : List (String × H)) (name : String) :
    (((registerAll registrations).hooks.get name).getD []) = registeredUnder registrations name := by
  rw [registerAll, handlers_foldl_registerHook]
  simp [empty, JSMap.get]

/-- When none of the handlers throws, the loop invokes each of them once, in
order, and returns their results in that order. -/
theorem runHandlers_of_all_return (call : H → A → Except String R) (args : A)
    (handlers : List H) (hret : ∀ handler ∈ handlers, ∃ result, call handler args = .ok result) :
    (runHandlers call args handlers).2 = handlers ∧
    ∃ results, (runHandlers call args handlers).1 = .ok results ∧
      results.map .ok = handlers.map (fun handler => call handler args) := by
  induction handlers with
  | nil => exact ⟨rfl, [], rfl, rfl⟩
  | cons handler rest ih =>
      obtain ⟨result, hresult⟩ := hret handler (List.mem_cons_self _ _)
      obtain ⟨htrace, results, hres, hmap⟩ :=
        ih (fun h hh => hret h (List.mem_cons_of_mem _ hh))
      refine ⟨by simp [runHandlers, hresult, htrace], result :: results, ?_, ?_⟩
      · simp [runHandlers, hresult, hres, Except.map]
      · simp [hresult, hmap]

/-- C8, at two handlers registered under the hook `h`, the first of which
throws: `executeHook` fails with the first handler's error and never invokes
the second handler, so that it neither calls every registered handler nor
returns a list of results. -/
theorem executeHook_stops_at_throwing_handler :
    registeredUnder [("h", 0), ("h", 1)] "h" = [0, 1] ∧
    executeHook (fun (handler : Nat) (_ : Unit) =>
        if handler = 0 then (.error "boom" : Except String Nat) else .ok (handler * 10))
      (registerAll [("h", 0), ("h", 1)]) "h" () = (.error "boom", [0]) := by
  refine ⟨by decide, by rfl⟩

/-- C8, amended: after any sequence of `registerHook` calls, when none of the
handlers registered under the name throws on the arguments, `executeHook`
invokes exactly those handlers, each once, in registration order, and returns
their results in the same order; for a name with no registered handler it
invokes nothing and returns the empty list. -/
theorem executeHook_runs_registered_in_order (call : H → A → Except String R)
    (registrations : List (String × H)) (hookName : String) (args : A) :
    ((∀ handler ∈ registeredUnder registrations hookName,
        ∃ result, call handler args = .ok result) →
      (executeHook call (registerAll registrations) hookName args).2
        = registeredUnder registrations hookName ∧
      ∃ results,
        (executeHook call (registerAll registrations) hookName args).1 = .ok results ∧
        results.map .ok
          = (registeredUnder registrations hookName).map (fun handler => call handler args)) ∧
    (registeredUnder registrations hookName = [] →
      executeHook call (registerAll registrations) hookName args = (.ok [], [])) := by
  constructor
  · intro hret
    simp only [executeHook, handlers_registerAll]
    exact runHandlers_of_all_return call args _ hret
  · intro hnone
    simp only [executeHook, handlers_registerAll, hnone, runHandlers]

/-- Handlers 1 and 3 registered under `a`, handler 2 under `b`: the hook `a`
runs 1 then 3, the hook `c` runs nothing. -/
theorem executeHook_runs_registered_in_order_witness :
    ((executeHook (fun (handler : Nat) (_ : Unit) => (.ok (handler * 10) : Except String Nat))
        (registerAll [("a", 1), ("b", 2), ("a", 3)]) "a" ()).2
        = registeredUnder [("a", 1), ("b", 2), ("a", 3)] "a" ∧
      ∃ results,
        (executeHook (fun (handler : Nat) (_ : Unit) => (.ok (handler * 10) : Except String Nat))
          (registerAll [("a", 1), ("b", 2), ("a", 3)]) "a" ()).1 = .ok results ∧
        results.map .ok
          = (registeredUnder [("a", 1), ("b", 2), ("a", 3)] "a").map
              (fun handler => (.ok (handler * 10) : Except String Nat))) ∧
    executeHook (fun (handler : Nat) (_ : Unit) => (.ok (handler * 10) : Except String Nat))
      (registerAll [("a", 1), ("b", 2), ("a", 3)]) "c" () = (.ok [], []) :=
  ⟨(executeHook_runs_registered_in_order _ [("a", 1), ("b", 2), ("a", 3)] "a" ()).1
      (fun handler _ => ⟨handler * 10, rfl⟩),
   (executeHook_runs_registered_in_order _ [("a", 1), ("b", 2), ("a", 3)] "c" ()).2
      (by decide)⟩

end PluginManager

/-! ## Plugin configuration -/

namespace PluginConfigManager

open JSValue

theorem not_nullish_of_truthy {v : JSValue} (h : v.truthy = true) : v.isNullish = false := by
  cases v <;> first | rfl | simp [truthy] at h

theorem ownProp_of_nullish {v : JSValue} (h : v.isNullish = true) (key : String) :
    v.ownProp key = undefined := by
  cases v <;> first | rfl | simp [isNullish] at h

/-- The `filter` finds no missing variable exactly when every listed variable is
present. -/
theorem missingVars_eq_ok_nil_iff (configGet : ConfigGet) (varNames : List JSValue) :
    missingVars configGet varNames = .ok [] ↔
      ∀ varName ∈ varNames, envVarPresent configGet varName = true := by
  induction varNames with
  | nil => simp [missingVars]
  | cons varName rest ih =>
      simp only [missingVars, List.mem_cons, forall_eq_or_imp]
      cases hv : configGet varName with
      | error e =>
          have hp : envVarPresent configGet varName = false := by simp [envVarPresent, hv]
          simp [bind, Except.bind, hp]
      | ok value =>
          have hp : envVarPresent configGet varName = value.truthy := by
            simp [envVarPresent, hv]
          rw [hp, ← ih]
          cases hm : missingVars configGet rest with
          | error e => simp [bind, Except.bind]
          | ok others =>
              cases ht : value.truthy <;> simp [bind, Except.bind, pure, Except.pure, ht]

theorem optionalChain_eq_ownProp (v : JSValue) (key : String) :
    (if v.isNullish then undefined else v.ownProp key) = v.ownProp key := by
  cases hn : v.isNullish with
  | true => simp [ownProp_of_nullish hn]
  | false => simp

/-- C9: for a configuration in which the `requiredEnvVars` of the plugin's entry
is a list (or is left out), `validatePluginConfig(name)` returns `true` exactly
when the configuration has an entry for the name, the entry's `enabled` flag is
set and every variable listed in `requiredEnvVars` is present in the environment
configuration; being a total function into the booleans, it returns `false`,
without raising, in every other case. -/
theorem validatePluginConfig_eq_true_iff (configGet : ConfigGet) (config : JSValue)
    (pluginName : String)
    (hlist : requiredEnvVarsIsList (pluginEntry config pluginName) = true) :
    validatePluginConfig configGet config pluginName = true ↔
      (pluginEntry config pluginName).truthy = true ∧
      ((pluginEntry config pluginName).ownProp "enabled").truthy = true ∧
      ∀ varName ∈ listedEnvVars (pluginEntry config pluginName),
        envVarPresent configGet varName = true := by
  cases hc : config.isNullish with
  | true =>
      have hentry : pluginEntry config pluginName = undefined := by
        cases config <;> first | rfl | simp [isNullish] at hc
      simp [validatePluginConfig, validatePluginConfigBody, getProp, hc, bind, Except.bind,
        hentry, truthy]
  | false =>
      simp only [validatePluginConfig, validatePluginConfigBody, getProp, hc,
        optionalChain_eq_ownProp, bind, Except.bind, Bool.false_eq_true, ↓reduceIte]
      rw [show (config.ownProp "plugins").ownProp pluginName = pluginEntry config pluginName
        from rfl]
      cases he : (pluginEntry config pluginName).truthy with
      | false => simp [pure, Except.pure]
      | true =>
          have hn := not_nullish_of_truthy he
          simp only [hn, Bool.not_true, Bool.false_eq_true, ↓reduceIte, true_and]
          cases hen : ((pluginEntry config pluginName).ownProp "enabled").truthy with
          | false => simp [pure, Except.pure]
          | true =>
              simp only [Bool.not_true, Bool.false_eq_true, ↓reduceIte, true_and]
              simp only [pure, Except.pure, requiredEnvVarsIsList, listedEnvVars] at hlist ⊢
              cases hreq : (pluginEntry config pluginName).ownProp "requiredEnvVars" with
              | arr varNames =>
                  simp only [truthy, ↓reduceIte, ← missingVars_eq_ok_nil_iff]
                  cases hm : missingVars configGet varNames with
                  | error e => simp
                  | ok missing =>
                      cases missing with
                      | nil => simp
                      | cons varName rest => simp
              | _ => simp_all [truthy]

/-- An enabled entry that lists one variable, which the environment provides. -/
theorem validatePluginConfig_eq_true_iff_witness :
    validatePluginConfig
        (fun varName => match varName with
          | str "SEARCH_API_KEY" => .ok (str "k")
          | _ => .ok undefined)
        (obj [("plugins", obj [("web-search-plugin",
          obj [("enabled", bool true), ("requiredEnvVars", arr [str "SEARCH_API_KEY"])])])])
        "web-search-plugin" = true :=
  (validatePluginConfig_eq_true_iff _ _ "web-search-plugin" (by decide)).mpr
    ⟨by decide, by decide, by decide⟩

end PluginConfigManager

/-! ## Plugin loading -/

namespace PluginManager

/-- `loadPlugins()` never raises: whatever happens inside, the call returns. -/
theorem loadPlugins_returns {H : Type} (env : PluginEnv H) (pm : PluginManager H) :
    (loadPlugins env pm).1 = .ok () := by
  unfold loadPlugins
  split <;> rfl

/-- C10, at the directory listing `bad.js`, `good.js` in which `bad.js` fails to
load and `good.js` is a well-formed, enabled plugin: `loadPlugins()` returns
without raising, but the error of `bad.js` ends the loop, so `good` is not
registered, even with a `validatePlugin` that accepts it; it is registered only
when it comes first in the listing. With the `PluginConfig` object of the
repository, which has no `validatePlugin` method, `good` is not registered even
when it is alone in the directory. -/
theorem loadPlugins_aborts_at_malformed_plugin :
    PluginConfigManager.validatePluginConfig (fun _ => .ok .undefined)
      (sampleEnv none []).config "good" = true ∧
    (loadPlugins (sampleEnv (some fun _ => .ok true) ["bad.js", "good.js"]) empty).1 = .ok () ∧
    listPlugins (loadPlugins (sampleEnv (some fun _ => .ok true) ["bad.js", "good.js"]) empty).2
      = [] ∧
    listPlugins (loadPlugins (sampleEnv (some fun _ => .ok true) ["good.js", "bad.js"]) empty).2
      = ["good"] ∧
    listPlugins (loadPlugins (sampleEnv none ["good.js"]) empty).2 = [] := by
  refine ⟨by decide, by rfl, by decide, by decide, by decide⟩

end PluginManager

/-! ## Loading one plugin -/

namespace PluginManager

variable {H : Type}

/-- With a `PluginConfig` object that has no `validatePlugin` method, `loadPlugin`
throws for every path and leaves the manager as it was. -/
theorem loadPlugin_of_no_validatePlugin (env : PluginEnv H) (pm : PluginManager H)
    (pluginPath : String) (hnone : env.validatePlugin = none) :
    throws (loadPlugin env pm pluginPath).1 = true ∧ (loadPlugin env pm pluginPath).2 = pm := by
  unfold loadPlugin
  cases env.require pluginPath with
  | error e => exact ⟨rfl, rfl⟩
  | ok pluginModule => simp [hnone, throws]

/-- With a `validatePlugin` that accepts the module, `loadPlugin` returns the
module, stores it under the base name of its file and appends the module's
hooks, in order, to the lists of their hook names. -/
theorem loadPlugin_of_accepted (env : PluginEnv H) (pm : PluginManager H) (pluginPath : String)
    (pluginModule : PluginModule H) (validatePlugin : PluginModule H → Except String Bool)
    (hrequire : env.require pluginPath = .ok pluginModule)
    (hsome : env.validatePlugin = some validatePlugin)
    (haccept : validatePlugin pluginModule = .ok true) :
    throws (loadPlugin env pm pluginPath).1 = false ∧
    (loadPlugin env pm pluginPath).2.plugins = pm.plugins.set (basename pluginPath ".js") pluginModule ∧
    ∀ hookName,
      (((loadPlugin env pm pluginPath).2.hooks.get hookName).getD [])
        = ((pm.hooks.get hookName).getD []) ++
            registeredUnder (pluginModule.hooks.getD []) hookName := by
  have hplugins : ∀ (hooks : List (String × H)) (pm' : PluginManager H),
      (hooks.foldl (fun pm r => registerHook pm r.1 r.2) pm').plugins = pm'.plugins := by
    intro hooks
    induction hooks with
    | nil => intro pm'; rfl
    | cons r rest ih =>
        intro pm'
        rw [List.foldl_cons, ih]
        rfl
  simp only [loadPlugin, hrequire, hsome, haccept]
  cases hh : pluginModule.hooks with
  | none => simp [throws, registeredUnder]
  | some hooks =>
      refine ⟨rfl, ?_, ?_⟩
      · simp [hplugins]
      · intro hookName
        simp [handlers_foldl_registerHook]

/-- C11, at the well-formed plugin `good.js` (it has the `search` capability and
one hook) loaded through the `PluginConfig` object of the repository, which has
no `validatePlugin` method: `loadPlugin` throws a `TypeError`, the plugins map
stays empty and no hook is registered. -/
theorem loadPlugin_throws_on_well_formed_plugin :
    ((sampleEnv none ["good.js"]).require "/app/plugins/good.js").toOption.map (·.hasSearch)
      = some true ∧
    (loadPlugin (sampleEnv none ["good.js"]) empty "/app/plugins/good.js").1
      = .error "TypeError: PluginConfig.validatePlugin is not a function" ∧
    listPlugins (loadPlugin (sampleEnv none ["good.js"]) empty "/app/plugins/good.js").2 = [] ∧
    ((loadPlugin (sampleEnv none ["good.js"]) empty "/app/plugins/good.js").2.hooks.get
      "search:preprocess") = none := by
  refine ⟨by decide, by rfl, by decide, by decide⟩

end PluginManager

/-! ## Writing a file and reading it back -/

namespace FilesystemAgent

theorem lookup_set_self (fs : MapFs) (path : String) (node : FsNode) :
    (fs.set path node).lookup path = some node := by
  simp [MapFs.set]

/-- C14: on the map filesystem, when `write(p, content)` succeeds, a following
`read(p)` returns exactly `content`. -/
theorem read_after_write (cwd : String) (fs : MapFs) (p content : String)
    (hwrite : throws (write mapFs cwd fs p content).result = false) :
    (read mapFs cwd (write mapFs cwd fs p content).fs p).result = .ok (.content content) := by
  unfold write at hwrite ⊢
  unfold read
  cases hpath : normalizeAndValidatePath cwd p with
  | error e => simp [hpath, throws] at hwrite
  | ok normalizedPath =>
      simp only [hpath] at hwrite ⊢
      cases hw : mapFs.writeFile fs normalizedPath content with
      | error e => simp [hw, throws] at hwrite
      | ok fs' =>
          have hfs' : fs' = fs.set normalizedPath (.file content) := by
            simp only [mapFs] at hw
            split at hw
            · cases hw
            · cases hw; rfl
          simp only [hfs', mapFs, lookup_set_self]

/-- Writing `hello` to a new file under the allowed root `Documents` and reading
it back. -/
theorem read_after_write_witness :
    (read mapFs "/" (write mapFs "/" [] "/Users/garyoleary/Documents/a.txt" "hello").fs
      "/Users/garyoleary/Documents/a.txt").result = .ok (.content "hello") :=
  read_after_write "/" [] "/Users/garyoleary/Documents/a.txt" "hello" (by decide)

end FilesystemAgent

/-! ## The line protocol -/

theorem dropWhile_append_of_all {p : Char → Bool} (l₁ l₂ : List Char)
    (h : ∀ c ∈ l₁, p c = true) : (l₁ ++ l₂).dropWhile p = l₂.dropWhile p := by
  induction l₁ with
  | nil => rfl
  | cons c rest ih =>
      have hc := h c (List.mem_cons_self _ _)
      simp only [List.cons_append, List.dropWhile_cons, hc, ↓reduceIte]
      exact ih (fun c' hc' => h c' (List.mem_cons_of_mem _ hc'))

/-- Trimming removes a tail of white space from a text that starts and ends
with a character that is not white space. -/
theorem trim_append_whiteSpace (first last : Char) (middle tail : List Char)
    (body : List Char) (hfirst : body = first :: middle ∨ body = [first])
    (hbody : ∃ init, body = init ++ [last])
    (hf : isWhiteSpace first = false) (hl : isWhiteSpace last = false)
    (htail : ∀ c ∈ tail, isWhiteSpace c = true) :
    trim (String.mk (body ++ tail)) = String.mk body := by
  obtain ⟨init, hinit⟩ := hbody
  have hhead : ∃ rest, body = first :: rest := by
    rcases hfirst with h | h
    · exact ⟨middle, h⟩
    · exact ⟨[], h⟩
  obtain ⟨rest, hrest⟩ := hhead
  have h1 : (body ++ tail).dropWhile isWhiteSpace = body ++ tail := by
    rw [hrest]
    simp [List.dropWhile_cons, hf]
  have h2 : ((body ++ tail).reverse).dropWhile isWhiteSpace = body.reverse := by
    rw [List.reverse_append,
      dropWhile_append_of_all _ _ (fun c hc => htail c (List.mem_reverse.mp hc)), hinit]
    simp [List.dropWhile_cons, hl]
  simp only [trim, h1, h2, List.reverse_reverse]

/-- The tokens joined by single spaces start with the first character of the
first token and end with the last character of the last one. -/
theorem intercalate_first_last (toks : List (List Char)) (htoks : toks ≠ [])
    (hne : ∀ t ∈ toks, t ≠ [] ∧ ∀ c ∈ t, isWhiteSpace c = false) :
    (∃ first rest, [' '].intercalate toks = first :: rest ∧ isWhiteSpace first = false) ∧
    (∃ init last, [' '].intercalate toks = init ++ [last] ∧ isWhiteSpace last = false) := by
  induction toks with
  | nil => exact absurd rfl htoks
  | cons tok rest ih =>
      obtain ⟨htok, hws⟩ := hne tok (List.mem_cons_self _ _)
      cases rest with
      | nil =>
          have hsingle : [' '].intercalate [tok] = tok := by
            simp [List.intercalate]
          rw [hsingle]
          constructor
          · cases tok with
            | nil => exact absurd rfl htok
            | cons c cs => exact ⟨c, cs, rfl, hws c (List.mem_cons_self _ _)⟩
          · refine ⟨tok.dropLast, tok.getLast htok, (List.dropLast_append_getLast htok).symm, ?_⟩
            exact hws _ (List.getLast_mem htok)
      | cons tok' rest' =>
          have hcons : [' '].intercalate (tok :: tok' :: rest')
              = tok ++ ' ' :: [' '].intercalate (tok' :: rest') := by
            simp [List.intercalate]
          obtain ⟨_, init, last, hlast, hl⟩ :=
            ih (List.cons_ne_nil _ _) (fun t ht => hne t (List.mem_cons_of_mem _ ht))
          rw [hcons]
          constructor
          · cases tok with
            | nil => exact absurd rfl htok
            | cons c cs => exact ⟨c, _, rfl, hws c (List.mem_cons_self _ _)⟩
          · exact ⟨tok ++ ' ' :: init, last, by rw [hlast]; simp, hl⟩

theorem mem_intercalate_space (toks : List (List Char)) (c : Char)
    (h : c ∈ [' '].intercalate toks) : c = ' ' ∨ ∃ t ∈ toks, c ∈ t := by
  induction toks with
  | nil => simp [List.intercalate] at h
  | cons tok rest ih =>
      cases rest with
      | nil =>
          have hsingle : [' '].intercalate [tok] = tok := by simp [List.intercalate]
          rw [hsingle] at h
          exact Or.inr ⟨tok, List.mem_cons_self _ _, h⟩
      | cons tok' rest' =>
          have hcons : [' '].intercalate (tok :: tok' :: rest')
              = tok ++ ' ' :: [' '].intercalate (tok' :: rest') := by
            simp [List.intercalate]
          rw [hcons] at h
          rcases List.mem_append.mp h with h1 | h2
          · exact Or.inr ⟨tok, List.mem_cons_self _ _, h1⟩
          · rcases List.mem_cons.mp h2 with h3 | h4
            · exact Or.inl h3
            · rcases ih h4 with h5 | ⟨t, ht, hct⟩
              · exact Or.inl h5
              · exact Or.inr ⟨t, List.mem_cons_of_mem _ ht, hct⟩

theorem token_spec {s : String} (h : isToken s = true) :
    s.data ≠ [] ∧ ∀ c ∈ s.data, isWhiteSpace c = false := by
  simp only [isToken, Bool.and_eq_true, Bool.not_eq_true', List.isEmpty_eq_false,
    List.all_eq_true] at h
  exact ⟨by simpa using h.1, h.2⟩

namespace MCPAgentExecutor

/-- For a command and arguments without white space, `fullCommand` is the
command and the arguments joined by single spaces: the `trim` removes nothing
but the space left after a command without arguments. -/
theorem fullCommand_eq_join (command : String) (args : List String)
    (hc : isToken command = true) (ha : ∀ a ∈ args, isToken a = true) :
    fullCommand command args = join (command :: args) " " := by
  have htoks : ∀ t ∈ (command :: args).map String.data,
      t ≠ [] ∧ ∀ c ∈ t, isWhiteSpace c = false := by
    intro t ht
    obtain ⟨s, hs, rfl⟩ := List.mem_map.mp ht
    rcases List.mem_cons.mp hs with rfl | hmem
    · exact token_spec hc
    · exact token_spec (ha s hmem)
  obtain ⟨⟨first, rest, hfirst, hf⟩, ⟨init, last, hlast, hl⟩⟩ :=
    intercalate_first_last _ (by simp) htoks
  cases args with
  | nil =>
      have hbody : (command ++ " " ++ join [] " ").data = command.data ++ [' '] := by
        simp [join, List.intercalate]
      have hj : [' '].intercalate (List.map String.data [command]) = command.data := by
        simp [List.intercalate]
      rw [hj] at hfirst hlast
      have := trim_append_whiteSpace first last rest [' '] command.data (Or.inl hfirst)
        ⟨init, hlast⟩ hf hl (by intro c hc'; simp at hc'; subst hc'; decide)
      simp only [fullCommand]
      rw [show command ++ " " ++ join [] " " = String.mk (command.data ++ [' ']) from
        String.ext hbody, this]
      simp [join, List.intercalate]
  | cons a rest' =>
      have hbody : (command ++ " " ++ join (a :: rest') " ").data
          = [' '].intercalate (List.map String.data (command :: a :: rest')) := by
        simp [join, List.intercalate]
      have := trim_append_whiteSpace first last rest []
        ([' '].intercalate (List.map String.data (command :: a :: rest'))) (Or.inl hfirst)
        ⟨init, hlast⟩ hf hl (by simp)
      simp only [fullCommand]
      rw [show command ++ " " ++ join (a :: rest') " "
          = String.mk ([' '].intercalate (List.map String.data (command :: a :: rest')) ++ [])
          from String.ext (by simpa using hbody), this]
      rfl

/-- C12: for a command and arguments that are non-empty and contain no white
space, the text `executeCommand` writes to the input stream of a running agent
is the command and the arguments joined by single spaces followed by one
newline, with no other newline in it, and the agent's parsing of that text
(`trim`, then `split(' ')`) gives back the command followed by the arguments. -/
theorem executeCommand_line_roundtrip (ex : Executor) (agentId : String) (handle : Nat)
    (command : String) (args : List String)
    (hrunning : ex.agents.lookup agentId = some handle)
    (hhandle : handle < ex.processes.length)
    (hc : isToken command = true) (ha : ∀ a ∈ args, isToken a = true) :
    lastChunkWritten (executeCommand ex agentId command args).2 agentId
      = some (join (command :: args) " " ++ "\n") ∧
    '\n' ∉ (join (command :: args) " ").data ∧
    tokens (join (command :: args) " " ++ "\n") = command :: args := by
  have htoks : ∀ t ∈ (command :: args).map String.data,
      t ≠ [] ∧ ∀ c ∈ t, isWhiteSpace c = false := by
    intro t ht
    obtain ⟨s, hs, rfl⟩ := List.mem_map.mp ht
    rcases List.mem_cons.mp hs with rfl | hmem
    · exact token_spec hc
    · exact token_spec (ha s hmem)
  obtain ⟨⟨first, rest, hfirst, hf⟩, ⟨init, last, hlast, hl⟩⟩ :=
    intercalate_first_last _ (by simp) htoks
  refine ⟨?_, ?_, ?_⟩
  · obtain ⟨agent, hagent⟩ : ∃ agent, ex.processes[handle]? = some agent :=
      ⟨ex.processes[handle], List.getElem?_eq_getElem hhandle⟩
    simp [lastChunkWritten, executeCommand, lookupProp, hrunning, List.getElem?_modify_eq,
      hagent, fullCommand_eq_join command args hc ha]
  · intro hmem
    rcases mem_intercalate_space _ _ hmem with h | ⟨t, ht, hct⟩
    · cases h
    · have := (htoks t ht).2 _ hct
      simp [isWhiteSpace] at this
  · have htrim := trim_append_whiteSpace first last rest ['\n']
      ([' '].intercalate (List.map String.data (command :: args))) (Or.inl hfirst)
      ⟨init, hlast⟩ hf hl (by intro c hc'; simp at hc'; subst hc'; decide)
    have hsplit : ([' '].intercalate (List.map String.data (command :: args))).splitOn ' '
        = List.map String.data (command :: args) := by
      refine List.splitOn_intercalate _ ' ' ?_ (by simp)
      intro l hl' hmem
      have := (htoks l hl').2 _ hmem
      simp [isWhiteSpace] at this
    have hline : join (command :: args) " " ++ "\n"
        = String.mk ([' '].intercalate (List.map String.data (command :: args)) ++ ['\n']) := by
      apply String.ext
      simp [join]
    rw [tokens, hline, htrim, split]
    simp only [hsplit, List.map_map]
    have hid : (String.mk ∘ String.data) = id := by
      funext s
      rfl
    rw [hid, List.map_id]


/-- The agent `fs` is running; `read` and a path are written to it. -/
theorem executeCommand_line_roundtrip_witness :
    lastChunkWritten
        (executeCommand ⟨[⟨"node", ["filesystem-agent.js"], [], false, [], []⟩], [("fs", 0)], [], 0⟩
          "fs" "read" ["/Users/garyoleary/Documents/a.txt"]).2 "fs"
      = some (join ("read" :: ["/Users/garyoleary/Documents/a.txt"]) " " ++ "\n") ∧
    '\n' ∉ (join ("read" :: ["/Users/garyoleary/Documents/a.txt"]) " ").data ∧
    tokens (join ("read" :: ["/Users/garyoleary/Documents/a.txt"]) " " ++ "\n")
      = "read" :: ["/Users/garyoleary/Documents/a.txt"] :=
  executeCommand_line_roundtrip _ "fs" 0 "read" ["/Users/garyoleary/Documents/a.txt"]
    (by decide) (by decide) (by decide) (by decide)

end MCPAgentExecutor

/-! ## Plain objects -/

theorem mem_objectKeys {β : Type} (table : List (String × β)) (key : String) :
    key ∈ objectKeys table ↔ key ∈ table.map (·.1) := by
  simp only [objectKeys, List.mem_append, (List.perm_insertionSort _ _).mem_iff,
    List.mem_filter]
  cases h : integerIndex key <;> simp [h]

theorem lookup_deleteProp_self {β : Type} (table : List (String × β)) (key : String) :
    (deleteProp table key).lookup key = none := by
  induction table with
  | nil => rfl
  | cons e rest ih =>
      obtain ⟨k, v⟩ := e
      by_cases hk : k = key
      · simp [deleteProp, List.filter_cons, hk] at ih ⊢
        exact ih
      · have hne : (key == k) = false := by simpa using fun h => hk h.symm
        simp only [deleteProp, List.filter_cons, ne_eq, hk, not_false_eq_true, decide_True,
          ↓reduceIte, List.lookup_cons, hne]
        exact ih

theorem mem_keys_deleteProp {β : Type} (table : List (String × β)) (key other : String) :
    other ∈ (deleteProp table key).map (·.1) ↔ other ∈ table.map (·.1) ∧ other ≠ key := by
  simp only [deleteProp, List.mem_map, List.mem_filter]
  constructor
  · rintro ⟨e, ⟨he, hne⟩, rfl⟩
    exact ⟨⟨e, he, rfl⟩, by simpa using hne⟩
  · rintro ⟨⟨e, he, rfl⟩, hne⟩
    exact ⟨e, ⟨he, by simpa using hne⟩, rfl⟩

theorem mem_keys_set {β : Type} (table : JSMap β) (key other : String) (value : β) :
    other ∈ (table.set key value).map (·.1) ↔ other ∈ table.map (·.1) ∨ other = key := by
  unfold JSMap.set JSMap.has
  cases h : table.lookup key with
  | none => simp
  | some v =>
      have hmem : key ∈ table.map (·.1) := by
        induction table with
        | nil => simp at h
        | cons e rest ih =>
            obtain ⟨k, w⟩ := e
            by_cases hk : key = k
            · simp [hk]
            · have hne : (key == k) = false := by simpa using hk
              simp only [List.lookup_cons, hne] at h
              simp [ih h]
      simp only [Option.isSome_some, ↓reduceIte, List.map_map, List.mem_map,
        Function.comp_apply]
      constructor
      · rintro ⟨e, he, rfl⟩
        by_cases hk : e.1 = key
        · right; simp [hk]
        · left; exact ⟨e, he, by simp [hk]⟩
      · rintro (⟨e, he, rfl⟩ | rfl)
        · by_cases hk : e.1 = key
          · exact ⟨e, he, by simp [hk]⟩
          · exact ⟨e, he, by simp [hk]⟩
        · obtain ⟨e, he, hek⟩ := List.mem_map.mp hmem
          exact ⟨e, he, by simp [hek]⟩

/-! ## The executor's live set -/

namespace MCPAgentExecutor

/-- Closing an agent that is not running changes nothing; it throws only for an
id that names a member of `Object.prototype`. -/
theorem closeAgent_of_not_running (ex : Executor) (agentId : String)
    (h : ex.agents.lookup agentId = none) :
    (closeAgent ex agentId).2 = ex ∧
    (agentId ∉ objectPrototypeMembers → (closeAgent ex agentId).1 = .ok ()) := by
  unfold closeAgent lookupProp
  simp only [h]
  by_cases hm : agentId ∈ objectPrototypeMembers <;> simp [hm]

/-- C15: for an agent id other than `__proto__`, after `initializeAgent(id)`
succeeds (which takes an entry for the id in `agentConfigs`) and `closeAgent(id)`
is called, the id is not in `listActiveAgents()`, every other id is listed
exactly when it was listed before, and a second `closeAgent(id)` leaves the
executor as it is; the second call returns normally unless the id names a
member of `Object.prototype`. -/
theorem closeAgent_after_initializeAgent (spawn : Spawn) (ex : Executor) (agentId : String)
    (handle : Nat) (hid : agentId ≠ "__proto__")
    (hinit : (initializeAgent spawn ex agentId).1 = .ok handle) :
    agentId ∉ listActiveAgents
      (closeAgent (initializeAgent spawn ex agentId).2 agentId).2 ∧
    (∀ other, other ≠ agentId →
      (other ∈ listActiveAgents (closeAgent (initializeAgent spawn ex agentId).2 agentId).2 ↔
        other ∈ listActiveAgents ex)) ∧
    (closeAgent (closeAgent (initializeAgent spawn ex agentId).2 agentId).2 agentId).2
      = (closeAgent (initializeAgent spawn ex agentId).2 agentId).2 ∧
    (agentId ∉ objectPrototypeMembers →
      (closeAgent (closeAgent (initializeAgent spawn ex agentId).2 agentId).2 agentId).1
        = .ok ()) := by
  unfold initializeAgent at hinit ⊢
  cases hcfg : lookupProp ex.agentConfigs agentId with
  | absent => simp [hcfg] at hinit
  | inherited => simp [hcfg] at hinit
  | own config =>
      simp only [hcfg] at hinit ⊢
      cases hspawn : spawn config.command config.args with
      | error e => simp [hspawn] at hinit
      | ok u =>
          simp only [hspawn]
          have hlook : (assignProp ex.agents agentId ex.processes.length).lookup agentId
              = some ex.processes.length := by
            simp only [assignProp, hid, ↓reduceIte]
            exact JSMap.get_set_self _ _ _
          have hclose : (closeAgent
              { ex with
                processes := ex.processes ++ [⟨config.command, config.args, [], false, [], []⟩]
                agents := assignProp ex.agents agentId ex.processes.length } agentId).2.agents
              = deleteProp (assignProp ex.agents agentId ex.processes.length) agentId := by
            simp [closeAgent, lookupProp, hlook]
          have hgone := lookup_deleteProp_self
            (assignProp ex.agents agentId ex.processes.length) agentId
          rw [← hclose] at hgone
          refine ⟨?_, ?_, (closeAgent_of_not_running _ _ hgone).1,
            (closeAgent_of_not_running _ _ hgone).2⟩
          · simp only [listActiveAgents, mem_objectKeys, hclose, mem_keys_deleteProp]
            exact fun h => h.2 rfl
          · intro other hother
            simp only [listActiveAgents, mem_objectKeys, hclose, mem_keys_deleteProp]
            simp only [assignProp, hid, ↓reduceIte, mem_keys_set]
            constructor
            · rintro ⟨h | h, _⟩
              · exact h
              · exact absurd h hother
            · intro h
              exact ⟨Or.inl h, hother⟩

/-- The agent `fs` is initialized while `code` is running, then closed twice. -/
theorem closeAgent_after_initializeAgent_witness :
    "fs" ∉ listActiveAgents
      (closeAgent (initializeAgent (fun _ _ => .ok ())
        ⟨[⟨"node", ["code-analysis-agent.js"], [], false, [], []⟩], [("code", 0)],
          [("fs", ⟨"fs", "node", ["filesystem-agent.js"]⟩)], 0⟩ "fs").2 "fs").2 ∧
    (∀ other, other ≠ "fs" →
      (other ∈ listActiveAgents (closeAgent (initializeAgent (fun _ _ => .ok ())
        ⟨[⟨"node", ["code-analysis-agent.js"], [], false, [], []⟩], [("code", 0)],
          [("fs", ⟨"fs", "node", ["filesystem-agent.js"]⟩)], 0⟩ "fs").2 "fs").2 ↔
        other ∈ listActiveAgents
          ⟨[⟨"node", ["code-analysis-agent.js"], [], false, [], []⟩], [("code", 0)],
            [("fs", ⟨"fs", "node", ["filesystem-agent.js"]⟩)], 0⟩)) ∧
    (closeAgent (closeAgent (initializeAgent (fun _ _ => .ok ())
        ⟨[⟨"node", ["code-analysis-agent.js"], [], false, [], []⟩], [("code", 0)],
          [("fs", ⟨"fs", "node", ["filesystem-agent.js"]⟩)], 0⟩ "fs").2 "fs").2 "fs").2
      = (closeAgent (initializeAgent (fun _ _ => .ok ())
        ⟨[⟨"node", ["code-analysis-agent.js"], [], false, [], []⟩], [("code", 0)],
          [("fs", ⟨"fs", "node", ["filesystem-agent.js"]⟩)], 0⟩ "fs").2 "fs").2 ∧
    ("fs" ∉ objectPrototypeMembers →
      (closeAgent (closeAgent (initializeAgent (fun _ _ => .ok ())
        ⟨[⟨"node", ["code-analysis-agent.js"], [], false, [], []⟩], [("code", 0)],
          [("fs", ⟨"fs", "node", ["filesystem-agent.js"]⟩)], 0⟩ "fs").2 "fs").2 "fs").1
        = .ok ()) :=
  closeAgent_after_initializeAgent (fun _ _ => .ok ())
    ⟨[⟨"node", ["code-analysis-agent.js"], [], false, [], []⟩], [("code", 0)],
      [("fs", ⟨"fs", "node", ["filesystem-agent.js"]⟩)], 0⟩ "fs" 1 (by decide) rfl

end MCPAgentExecutor

/-! ## The response listeners -/

namespace MCPAgentExecutor

theorem forall_mem_modify {α : Type} (P : α → Prop) (f : α → α) (l : List α) (n : Nat)
    (hl : ∀ a ∈ l, P a) (hf : ∀ a, l[n]? = some a → P (f a)) :
    ∀ a ∈ l.modify f n, P a := by
  intro a ha
  obtain ⟨i, hi⟩ := List.mem_iff_getElem?.mp ha
  rw [List.getElem?_modify] at hi
  cases hli : l[i]? with
  | none => simp [hli] at hi
  | some b =>
      simp only [hli, Option.map_eq_map, Option.map_some', Option.some.injEq] at hi
      by_cases hn : n = i
      · subst hn
        simp only [↓reduceIte] at hi
        rw [← hi]
        exact hf b hli
      · simp only [hn, ↓reduceIte] at hi
        rw [← hi]
        exact hl b (List.mem_iff_getElem?.mpr ⟨i, hli⟩)

theorem initializeAgent_processes (spawn : Spawn) (ex : Executor) (agentId : String) :
    (initializeAgent spawn ex agentId).2.processes = ex.processes ∨
    ∃ agent, agent.stdoutOnce = [] ∧
      (initializeAgent spawn ex agentId).2.processes = ex.processes ++ [agent] := by
  unfold initializeAgent
  cases hcfg : lookupProp ex.agentConfigs agentId with
  | absent => exact Or.inl rfl
  | inherited => exact Or.inl rfl
  | own config =>
      dsimp only
      cases hspawn : spawn config.command config.args with
      | error e => exact Or.inl rfl
      | ok u => exact Or.inr ⟨_, rfl, rfl⟩

theorem executeCommand_processes (ex : Executor) (agentId command : String)
    (args : List String) :
    (executeCommand ex agentId command args).2.processes = ex.processes ∨
    ∃ handle, ex.agents.lookup agentId = some handle ∧
      (executeCommand ex agentId command args).2.processes
        = ex.processes.modify
            (fun agent =>
              { agent with
                stdinChunks := agent.stdinChunks ++ [fullCommand command args ++ "\n"]
                stdoutOnce := agent.stdoutOnce ++ [ex.commands]
                stderrOnce := agent.stderrOnce ++ [ex.commands] })
            handle := by
  unfold executeCommand lookupProp
  cases hlook : ex.agents.lookup agentId with
  | none => by_cases hm : agentId ∈ objectPrototypeMembers <;> simp [hm]
  | some handle => exact Or.inr ⟨handle, rfl, rfl⟩

theorem closeAgent_processes (ex : Executor) (agentId : String) :
    (closeAgent ex agentId).2.processes = ex.processes ∨
    ∃ handle,
      (closeAgent ex agentId).2.processes
        = ex.processes.modify (fun agent => { agent with stdinEnded := true }) handle := by
  unfold closeAgent lookupProp
  cases hlook : ex.agents.lookup agentId with
  | none => by_cases hm : agentId ∈ objectPrototypeMembers <;> simp [hm]
  | some handle => exact Or.inr ⟨handle, rfl⟩

/-- An event that keeps to the one-at-a-time contract leaves at most one
listener on the output stream of every process, if that was so before. -/
theorem step_preserves_single_listener (spawn : Spawn) (ex : Executor) (event : Event)
    (hinv : ∀ agent ∈ ex.processes, agent.stdoutOnce.length ≤ 1)
    (hcontract : ∀ agentId command args, event = .executeCommand agentId command args →
      (pendingListeners ex agentId).isEmpty = true) :
    ∀ agent ∈ (step spawn ex event).processes, agent.stdoutOnce.length ≤ 1 := by
  cases event with
  | initializeAgent agentId =>
      simp only [step]
      rcases initializeAgent_processes spawn ex agentId with h | ⟨agent, hagent, h⟩
      · rw [h]; exact hinv
      · rw [h]
        intro a ha
        rcases List.mem_append.mp ha with h1 | h1
        · exact hinv a h1
        · rw [List.mem_singleton.mp h1, hagent]
          exact Nat.zero_le _
  | executeCommand agentId command args =>
      have hempty := hcontract agentId command args rfl
      simp only [step]
      rcases executeCommand_processes ex agentId command args with h | ⟨handle, hlook, h⟩
      · rw [h]; exact hinv
      · rw [h]
        apply forall_mem_modify _ _ _ _ hinv
        intro agent hagent
        simp only [pendingListeners, hlook, hagent, Option.elim, List.isEmpty_iff] at hempty
        simp [hempty]
  | closeAgent agentId =>
      simp only [step]
      rcases closeAgent_processes ex agentId with h | ⟨handle, h⟩
      · rw [h]; exact hinv
      · rw [h]
        apply forall_mem_modify _ _ _ _ hinv
        intro agent hagent
        exact hinv agent (List.mem_iff_getElem?.mpr ⟨handle, hagent⟩)
  | stdoutData handle =>
      simp only [step, stdoutData]
      apply forall_mem_modify _ _ _ _ hinv
      intro agent _
      simp
  | stderrData handle =>
      simp only [step, stderrData]
      apply forall_mem_modify _ _ _ _ hinv
      intro agent hagent
      exact hinv agent (List.mem_iff_getElem?.mpr ⟨handle, hagent⟩)

theorem run_preserves_single_listener (spawn : Spawn) (events : List Event) :
    ∀ ex : Executor, (∀ agent ∈ ex.processes, agent.stdoutOnce.length ≤ 1) →
      oneAtATime spawn ex events = true →
      ∀ agent ∈ (run spawn ex events).processes, agent.stdoutOnce.length ≤ 1 := by
  induction events with
  | nil => intro ex hinv _; exact hinv
  | cons event rest ih =>
      intro ex hinv hcontract
      simp only [oneAtATime, Bool.and_eq_true] at hcontract
      have hstep := step_preserves_single_listener spawn ex event hinv
        (by
          intro agentId command args hev
          subst hev
          exact hcontract.1)
      exact ih (step spawn ex event) hstep hcontract.2

/-- C16, at an agent that is sent two commands before it has answered the
first: two response listeners are attached to its output stream at once. -/
theorem overlapping_commands_attach_two_listeners :
    pendingListeners
      (run (fun _ _ => .ok ()) (init [("fs", ⟨"fs", "node", ["filesystem-agent.js"]⟩)])
        [.initializeAgent "fs", .executeCommand "fs" "list" [],
          .executeCommand "fs" "read" ["a.txt"]]) "fs" = [0, 1] ∧
    ¬ (pendingListeners
      (run (fun _ _ => .ok ()) (init [("fs", ⟨"fs", "node", ["filesystem-agent.js"]⟩)])
        [.initializeAgent "fs", .executeCommand "fs" "list" [],
          .executeCommand "fs" "read" ["a.txt"]]) "fs").length ≤ 1 := by
  refine ⟨by decide, by decide⟩

/-- C16, amended: in every state the executor reaches from its initial state by
calls of `initializeAgent`, `executeCommand` and `closeAgent` and by output
events, provided `executeCommand` is called for an agent only when no response
listener is attached to its output stream, at most one response listener is
attached to the output stream of every running agent. -/
theorem single_listener_of_one_at_a_time (spawn : Spawn)
    (agentConfigs : List (String × AgentConfig)) (events : List Event)
    (hcontract : oneAtATime spawn (init agentConfigs) events = true) (agentId : String) :
    (pendingListeners (run spawn (init agentConfigs) events) agentId).length ≤ 1 := by
  have hinv := run_preserves_single_listener spawn events (init agentConfigs)
    (by intro agent hagent; simp [init] at hagent) hcontract
  unfold pendingListeners
  cases (run spawn (init agentConfigs) events).agents.lookup agentId with
  | none => simp
  | some handle =>
      cases hagent : (run spawn (init agentConfigs) events).processes[handle]? with
      | none => simp [hagent]
      | some agent =>
          simp only [hagent, Option.elim]
          exact hinv agent (List.mem_iff_getElem?.mpr ⟨handle, hagent⟩)

/-- A command, its answer, then the next command: one listener is attached. -/
theorem single_listener_of_one_at_a_time_witness :
    (pendingListeners
      (run (fun _ _ => .ok ()) (init [("fs", ⟨"fs", "node", ["filesystem-agent.js"]⟩)])
        [.initializeAgent "fs", .executeCommand "fs" "list" [], .stdoutData 0,
          .executeCommand "fs" "read" ["a.txt"]]) "fs").length ≤ 1 :=
  single_listener_of_one_at_a_time (fun _ _ => .ok ())
    [("fs", ⟨"fs", "node", ["filesystem-agent.js"]⟩)]
    [.initializeAgent "fs", .executeCommand "fs" "list" [], .stdoutData 0,
      .executeCommand "fs" "read" ["a.txt"]] (by decide) "fs"

end MCPAgentExecutor

/-! ## Rate-limit failures in the retry wrappers -/

theorem includes_toLowerCase {message pattern : String} (h : includes message pattern)
    (hlower : toLowerCase pattern = pattern) :
    includes (toLowerCase message) pattern := by
  have := List.IsInfix.map Char.toLower h
  unfold includes at *
  rw [← hlower]
  exact this

namespace RetryHandler

/-- An error whose message contains `rate limit exceeded` is retryable. -/
theorem isRetryableError_of_rate_limit (error : JSError)
    (h : includes error.message "rate limit exceeded") : isRetryableError error = true := by
  have hl : includes (toLowerCase error.message) (toLowerCase "rate limit exceeded") :=
    @includes_toLowerCase error.message "rate limit exceeded" h (by decide)
  simp only [isRetryableError, retryableErrors, List.any_cons, Bool.or_eq_true,
    decide_eq_true_eq]
  exact Or.inr (Or.inl (Or.inl hl))

/-- C20, at `RetryHandler.withRetry` with the default handler and an operation
that fails with `rate limit exceeded` each time: the operation is invoked three
times, with waits of 60 and 120 seconds in between, and the error thrown in the
end is a new one, not the operation's. -/
theorem withRetry_retries_rate_limit :
    (withRetry default 5000 9000
        (fun _ => (.error ⟨"rate limit exceeded", none⟩ : Except JSError Nat)) "").events
      = [.invoke, .sleep 60000, .invoke, .sleep 120000, .invoke] ∧
    (withRetry default 5000 9000
        (fun _ => (.error ⟨"rate limit exceeded", none⟩ : Except JSError Nat)) "").result
      = .error ⟨"Failed after 3 retries. Context: . Original error: rate limit exceeded", none⟩ := by
  refine ⟨by decide, by rfl⟩

end RetryHandler

/-- C20, amended: when the first invocation of the operation fails with an error
whose message contains `rate limit exceeded`, `MCPClient.executeWithRetry` (with
`maxRetries` at least 1) invokes the operation exactly once and fails with that
same error, whereas `RetryHandler.withRetry` treats the error as retryable: with
`maxRetries` at least 2 it waits and invokes the operation a second time. -/
theorem retry_wrappers_on_rate_limit {α : Type} (operation : Operation α) (error : JSError)
    (hfirst : operation 0 = .error error)
    (hrate : includes error.message "rate limit exceeded") :
    (∀ config : MCPClient.RetryConfig, 1 ≤ config.maxRetries →
      (MCPClient.executeWithRetry config operation).result = .error (some error) ∧
      (MCPClient.executeWithRetry config operation).events = [.invoke]) ∧
    (∀ (handler : RetryHandler.Handler) (now doneAt : Nat) (context : String),
      2 ≤ handler.maxRetries →
      2 ≤ invocations (RetryHandler.withRetry handler now doneAt operation context).events) := by
  constructor
  · intro config hmax
    obtain ⟨n, hn⟩ : ∃ n, config.maxRetries = n + 1 := ⟨config.maxRetries - 1, by omega⟩
    simp [MCPClient.executeWithRetry, hn, MCPClient.retryLoop, hfirst, hrate]
  · intro handler now doneAt context hmax
    obtain ⟨n, hn⟩ : ∃ n, handler.maxRetries = n + 2 := ⟨handler.maxRetries - 2, by omega⟩
    have hretry := RetryHandler.isRetryableError_of_rate_limit error hrate
    have hne : ¬ (1 = n + 2) := by omega
    have hloop : 2 ≤ invocations
        (RetryHandler.retryLoop handler doneAt operation context handler.maxRetries 1
          handler.initialDelay none).events := by
      rw [hn]
      simp only [RetryHandler.retryLoop, Nat.sub_self, hfirst, hretry, Bool.not_true,
        Bool.false_eq_true, ↓reduceIte, hn, hne]
      cases hsecond : operation (1 + 1 - 1) with
      | ok value => simp [invocations]
      | error error' =>
          simp only
          split_ifs <;> simp [invocations]
    unfold RetryHandler.withRetry
    simp only
    split_ifs
    · simpa [invocations] using hloop
    · exact hloop

/-- An operation that fails once with `rate limit exceeded` and then succeeds,
under the default configuration of each wrapper. -/
theorem retry_wrappers_on_rate_limit_witness :
    ((MCPClient.executeWithRetry MCPClient.defaultRetryConfig
        (fun n => if n = 0 then .error ⟨"rate limit exceeded", none⟩ else .ok n)).result
        = .error (some ⟨"rate limit exceeded", none⟩) ∧
      (MCPClient.executeWithRetry MCPClient.defaultRetryConfig
        (fun n => if n = 0 then .error ⟨"rate limit exceeded", none⟩ else .ok n)).events
        = [.invoke]) ∧
    2 ≤ invocations (RetryHandler.withRetry RetryHandler.default 5000 9000
        (fun n => if n = 0 then .error ⟨"rate limit exceeded", none⟩ else .ok n) "").events :=
  ⟨(retry_wrappers_on_rate_limit
      (fun n => if n = 0 then .error ⟨"rate limit exceeded", none⟩ else .ok n)
      ⟨"rate limit exceeded", none⟩ rfl (by decide)).1 MCPClient.defaultRetryConfig (by decide),
   (retry_wrappers_on_rate_limit
      (fun n => if n = 0 then .error ⟨"rate limit exceeded", none⟩ else .ok n)
      ⟨"rate limit exceeded", none⟩ rfl (by decide)).2 RetryHandler.default 5000 9000 ""
      (by decide)⟩

/-! ## Dispatch in the code-analysis agent -/

namespace CodeAnalysisAgent

/-- For a command that is none of the three and does not name a member of
`Object.prototype`, `executeCommand` calls nothing and returns the error object
whose message is `Unsupported command: ` followed by the command. -/
theorem executeCommand_of_unknown (tools : Tools) (command : String) (args : List String)
    (hcommand : command ∉ ["complexity", "duplicates", "lint"])
    (hproto : command ∉ objectPrototypeMembers) :
    executeCommand tools command args
      = (errorObject (.error ("Unsupported command: " ++ command)), none) := by
  have hlook : supportedCommands.lookup command = none := by
    simp only [List.mem_cons, List.mem_singleton, not_or, List.not_mem_nil,
      not_false_eq_true, and_true] at hcommand
    obtain ⟨h1, h2, h3⟩ := hcommand
    have e1 : (command == "complexity") = false := by simpa using h1
    have e2 : (command == "duplicates") = false := by simpa using h2
    have e3 : (command == "lint") = false := by simpa using h3
    simp only [supportedCommands, List.lookup_cons, e1, e2, e3, List.lookup_nil]
  simp [executeCommand, dispatch, lookupProp, hlook, hproto]

/-- C17, at the command `toString`, which is none of `complexity`, `duplicates`
and `lint`: `supportedCommands['toString']` is the method inherited from
`Object.prototype`, so `executeCommand` calls it and returns the string
`[object Object]` instead of the error object for an unsupported command. -/
theorem executeCommand_runs_inherited_member (tools : Tools) :
    "toString" ∉ ["complexity", "duplicates", "lint"] ∧
    executeCommand tools "toString" []
      = (.str "[object Object]", some (.inherited "toString")) ∧
    (handleData tools "toString\n").value.ownProp "message" = .undefined := by
  refine ⟨by decide, by rfl, by rfl⟩

end CodeAnalysisAgent

/-! ## Arguments that contain spaces -/

/-- C13, at three lines whose last argument contains spaces. The filesystem
agent's `write` receives the whole content, joined back with single spaces; its
`read` and `list` receive the first token of the path only; the tool-integration
agent's `brave_web_search` receives the first word of the query only. -/
theorem last_argument_is_joined_for_write_only :
    (FilesystemAgent.handleData mapFs "/" []
        "write /Users/garyoleary/Documents/b.txt hello big world\n").calls
      = [.writeFile "/Users/garyoleary/Documents/b.txt" "hello big world"] ∧
    (FilesystemAgent.handleData mapFs "/" []
        "read /Users/garyoleary/Documents/my file.txt\n").calls
      = [.readFile "/Users/garyoleary/Documents/my"] ∧
    (FilesystemAgent.handleData mapFs "/" []
        "list /Users/garyoleary/Documents/my dir\n").calls
      = [.readdir "/Users/garyoleary/Documents/my"] ∧
    MCPToolIntegrationAgent.handleData MCPToolIntegrationAgent.sampleWorld
        "brave-search brave_web_search Codeium AI development tools\n"
      = .stdout (MCPToolIntegrationAgent.braveWebSearch (some "Codeium")) := by
  refine ⟨by decide, by decide, by decide, by rfl⟩

/-! ## The response to a handler that throws -/

/-- C18, at a path outside the allow-list: the filesystem agent answers `read`
with an object that has only an `error` property, on its error stream, and the
tool-integration agent answers `filesystem read_file` with an object that has
`error` and `details`; neither has `status: 'error'` or a `message`. -/
theorem error_response_without_status :
    (FilesystemAgent.handleData mapFs "/" [] "read /etc/passwd\n").emission
      = .stderr (.obj [("error", .str "Access denied to path: /etc/passwd")]) ∧
    isStatusError (.obj [("error", .str "Access denied to path: /etc/passwd")]) = false ∧
    MCPToolIntegrationAgent.handleData MCPToolIntegrationAgent.sampleWorld
        "filesystem read_file /etc/passwd\n"
      = .stdout (.obj [("error", .str "Access denied to path: /etc/passwd"),
          ("details", .str "Error: Access denied to path: /etc/passwd")]) ∧
    isStatusError (.obj [("error", .str "Access denied to path: /etc/passwd"),
      ("details", .str "Error: Access denied to path: /etc/passwd")]) = false := by
  refine ⟨by rfl, by decide, by rfl, by decide⟩

/-- C18, amended: when the handler of a command throws, the code-analysis agent
answers with an object that has `status: 'error'`, a `message` and `details`; the
tool-integration agent answers with an object made of `error` (the message) and
`details`; the filesystem agent prints an object made of `error` (the message)
on its error stream. -/
theorem error_response_of_each_agent :
    (∀ (tools : CodeAnalysisAgent.Tools) (command : String) (args : List String)
        (error : Thrown) (invoked : Option CodeAnalysisAgent.Invoked),
      CodeAnalysisAgent.dispatch tools command args = (.error error, invoked) →
      (CodeAnalysisAgent.executeCommand tools command args).1
        = .obj [("status", .str "error"), ("message", .str error.message),
            ("details", .str error.text)] ∧
      isStatusError (CodeAnalysisAgent.executeCommand tools command args).1 = true) ∧
    (∀ (world : MCPToolIntegrationAgent.World) (server : String) (tool : Option String)
        (args : List String) (error : Thrown),
      MCPToolIntegrationAgent.dispatch world server tool args = .error error →
      MCPToolIntegrationAgent.executeCommand world server tool args
        = .obj [("error", .str error.message), ("details", .str error.text)]) ∧
    (∀ (σ : Type) (nfs : NodeFs σ) (cwd : String) (fs : σ) (data : String)
        (outcome : FsOutcome σ FilesystemAgent.Result) (message : String),
      FilesystemAgent.runCommand nfs cwd fs ((tokens data).headD "") ((tokens data).drop 1)
        = some outcome →
      outcome.result = .error message →
      (FilesystemAgent.handleData nfs cwd fs data).emission
        = .stderr (.obj [("error", .str message)])) := by
  refine ⟨?_, ?_, ?_⟩
  · intro tools command args error invoked h
    have : (CodeAnalysisAgent.executeCommand tools command args).1
        = CodeAnalysisAgent.errorObject error := by
      simp [CodeAnalysisAgent.executeCommand, h]
    rw [this]
    exact ⟨rfl, by simp [CodeAnalysisAgent.errorObject, isStatusError, JSValue.ownProp,
      JSValue.isUndefined, List.lookup]⟩
  · intro world server tool args error h
    simp [MCPToolIntegrationAgent.executeCommand, h, MCPToolIntegrationAgent.errorObject]
  · intro σ nfs cwd fs data outcome message hrun hresult
    simp only [FilesystemAgent.handleData, hrun, hresult]

/-- An unsupported command sent to the code-analysis agent, an unsupported
server sent to the tool-integration agent and a denied path sent to the
filesystem agent. -/
theorem error_response_of_each_agent_witness :
    isStatusError (CodeAnalysisAgent.executeCommand
      ⟨fun _ => .ok (), fun _ => .error "not found", fun _ => [], fun _ => .num 0,
        fun _ => .error "no report"⟩ "format" []).1 = true ∧
    MCPToolIntegrationAgent.executeCommand MCPToolIntegrationAgent.sampleWorld "git" none []
      = .obj [("error", .str (Thrown.error "Unsupported server: git").message),
          ("details", .str (Thrown.error "Unsupported server: git").text)] ∧
    (FilesystemAgent.handleData mapFs "/" [] "read /etc/passwd\n").emission
      = .stderr (.obj [("error", .str "Access denied to path: /etc/passwd")]) :=
  ⟨(error_response_of_each_agent.1 _ "format" [] (.error "Unsupported command: format") none
      rfl).2,
   error_response_of_each_agent.2.1 MCPToolIntegrationAgent.sampleWorld "git" none []
      (.error "Unsupported server: git") rfl,
   error_response_of_each_agent.2.2 MapFs mapFs "/" [] "read /etc/passwd\n"
      ⟨.error "Access denied to path: /etc/passwd", [], []⟩
      "Access denied to path: /etc/passwd" (by rfl) rfl⟩

/-! ## Fault isolation -/

namespace FilesystemAgent

variable {σ : Type}

theorem toJS_not_isError (result : Result) : (Emission.stdout result.toJS).isError = false := by
  cases result <;> rfl

theorem list_fs (nfs : NodeFs σ) (cwd : String) (fs : σ) (p : String) :
    (list nfs cwd fs p).fs = fs := by
  unfold list
  cases normalizeAndValidatePath cwd p with
  | error e => rfl
  | ok q =>
      dsimp only
      cases nfs.readdir fs q <;> rfl

theorem read_fs (nfs : NodeFs σ) (cwd : String) (fs : σ) (p : String) :
    (read nfs cwd fs p).fs = fs := by
  unfold read
  cases normalizeAndValidatePath cwd p with
  | error e => rfl
  | ok q =>
      dsimp only
      cases nfs.readFile fs q <;> rfl

theorem write_fs_of_error (nfs : NodeFs σ) (cwd : String) (fs : σ) (p content : String)
    (h : throws (write nfs cwd fs p content).result = true) :
    (write nfs cwd fs p content).fs = fs := by
  unfold write at h ⊢
  cases hp : normalizeAndValidatePath cwd p with
  | error e => rfl
  | ok q =>
      simp only [hp] at h ⊢
      cases hw : nfs.writeFile fs q content with
      | error e => rfl
      | ok fs' => simp [hw, throws] at h

theorem mkdir_fs_of_error (nfs : NodeFs σ) (cwd : String) (fs : σ) (p : String)
    (h : throws (mkdir nfs cwd fs p).result = true) : (mkdir nfs cwd fs p).fs = fs := by
  unfold mkdir at h ⊢
  cases hp : normalizeAndValidatePath cwd p with
  | error e => rfl
  | ok q =>
      simp only [hp] at h ⊢
      cases hw : nfs.mkdir fs q with
      | error e => rfl
      | ok fs' => simp [hw, throws] at h

theorem delete_fs_of_error (nfs : NodeFs σ) (cwd : String) (fs : σ) (p : String)
    (h : throws (delete nfs cwd fs p).result = true) : (delete nfs cwd fs p).fs = fs := by
  unfold delete at h ⊢
  cases hp : normalizeAndValidatePath cwd p with
  | error e => rfl
  | ok q =>
      simp only [hp] at h ⊢
      cases hw : nfs.rm fs q with
      | error e => rfl
      | ok fs' => simp [hw, throws] at h

theorem withPath_fs_of_error (fs : σ) (arg : Option String)
    (operation : String → FsOutcome σ Result)
    (hop : ∀ p, throws (operation p).result = true → (operation p).fs = fs)
    (h : throws (withPath fs arg operation).result = true) :
    (withPath fs arg operation).fs = fs := by
  cases arg with
  | none => rfl
  | some p => exact hop p h

/-- An operation that fails leaves the filesystem as it was. -/
theorem runCommand_fs_of_error (nfs : NodeFs σ) (cwd : String) (fs : σ) (command : String)
    (args : List String) (outcome : FsOutcome σ Result)
    (hrun : runCommand nfs cwd fs command args = some outcome)
    (herr : throws outcome.result = true) : outcome.fs = fs := by
  unfold runCommand at hrun
  split_ifs at hrun <;> simp only [Option.some.injEq] at hrun <;> subst hrun <;>
    first
    | exact list_fs ..
    | exact withPath_fs_of_error fs _ _ (fun p _ => read_fs ..) herr
    | exact withPath_fs_of_error fs _ _ (fun p hp => write_fs_of_error _ _ _ _ _ hp) herr
    | exact withPath_fs_of_error fs _ _ (fun p hp => mkdir_fs_of_error _ _ _ _ hp) herr
    | exact withPath_fs_of_error fs _ _ (fun p hp => delete_fs_of_error _ _ _ _ hp) herr

/-- An input answered with an error leaves the filesystem as it was. -/
theorem handleData_fs_of_isError (nfs : NodeFs σ) (cwd : String) (fs : σ) (data : String)
    (h : (handleData nfs cwd fs data).emission.isError = true) :
    (handleData nfs cwd fs data).fs = fs := by
  unfold handleData at h ⊢
  dsimp only at h ⊢
  cases hrun : runCommand nfs cwd fs ((tokens data).headD "") ((tokens data).drop 1) with
  | none => rfl
  | some outcome =>
      simp only [hrun] at h ⊢
      cases hres : outcome.result with
      | ok result => simp [hres, toJS_not_isError] at h
      | error message =>
          simp only [hres]
          exact runCommand_fs_of_error nfs cwd fs _ _ outcome hrun (by simp [hres, throws])


variable {σ : Type}

/-- For a malformed input, the command is unknown or its operation throws
before any `fs` call. -/
theorem runCommand_of_malformed (nfs : NodeFs σ) (cwd : String) (fs : σ) (command : String)
    (args : List String)
    (h : (!commands.contains command ||
      (command ≠ "list" && args.head?.isNone) ||
      (command ≠ "list" && !isPathAllowed (resolve cwd (args.head?.getD ""))) ||
      (command = "list" &&
        !isPathAllowed
          (resolve cwd (if (args.head?.getD "") = "" then cwd else args.head?.getD ""))))
      = true) :
    runCommand nfs cwd fs command args = none ∨
    ∃ message, runCommand nfs cwd fs command args = some ⟨.error message, fs, []⟩ := by
  by_cases hmem : command ∈ commands
  · right
    have hcontains : commands.contains command = true := by simpa using hmem
    simp only [hcontains, Bool.not_true, Bool.false_or, Bool.or_eq_true, Bool.and_eq_true,
      decide_eq_true_eq, Bool.not_eq_true', Option.isNone_iff_eq_none] at h
    simp only [commands, List.mem_cons, List.mem_singleton, List.not_mem_nil, or_false] at hmem
    rcases hmem with rfl | rfl | rfl | rfl | rfl
    · have hden : isPathAllowed
          (resolve cwd (if (args.head?.getD "") = "" then cwd else args.head?.getD "")) = false := by
        rcases h with (h | h) | h
        · exact absurd rfl h.1
        · exact absurd rfl h.1
        · exact h.2
      exact ⟨accessDenied
          (resolve cwd (if (args.head?.getD "") = "" then cwd else args.head?.getD "")),
        by simp only [runCommand, ↓reduceIte, (denied_makes_no_call nfs cwd fs _ "" hden).1]⟩
    all_goals
      cases harg : args.head? with
      | none => exact ⟨Thrown.pathNotString.message, by simp [runCommand, harg, withPath]⟩
      | some p =>
          have hden : isPathAllowed (resolve cwd p) = false := by
            rcases h with (h | h) | h
            · simp [harg] at h
            · simpa [harg] using h.2
            · simp at h
          refine ⟨accessDenied (resolve cwd p), ?_⟩
          simp only [runCommand, harg, withPath, Option.some.injEq, reduceCtorEq, ↓reduceIte,
            String.reduceEq]
          first
          | exact (denied_makes_no_call nfs cwd fs p "" hden).2.1
          | exact (denied_makes_no_call nfs cwd fs p _ hden).2.2.1
          | exact (denied_makes_no_call nfs cwd fs p "" hden).2.2.2.1
          | exact (denied_makes_no_call nfs cwd fs p "" hden).2.2.2.2
  · left
    simp only [commands, List.mem_cons, List.mem_singleton, List.not_mem_nil, or_false,
      not_or] at hmem
    obtain ⟨h1, h2, h3, h4, h5⟩ := hmem
    simp [runCommand, h1, h2, h3, h4, h5]

/-- A malformed input is answered with an error, and the `fs` module is not
called. -/
theorem handleData_of_malformed (nfs : NodeFs σ) (cwd : String) (fs : σ) (data : String)
    (h : malformed cwd data = true) :
    (handleData nfs cwd fs data).emission.isError = true ∧
    (handleData nfs cwd fs data).calls = [] := by
  unfold malformed at h
  rcases runCommand_of_malformed nfs cwd fs _ _ h with hrun | ⟨message, hrun⟩
  · have hne : ("Unknown command: " ++ (tokens data).headD "" : String) ≠ "" := by
      intro hempty
      have hdata := congrArg String.data hempty
      rw [String.data_append] at hdata
      have hlit := (List.append_eq_nil.mp hdata).1
      exact absurd hlit (by decide)
    simp only [handleData, hrun]
    simp only [Emission.isError, JSValue.ownProp, List.lookup_cons_self, Option.getD_some,
      JSValue.truthy, Bool.or_eq_true, decide_eq_true_eq, and_true]
    exact Or.inl hne
  · simp only [handleData, hrun, Emission.isError, and_self]

end FilesystemAgent

/-- The filesystem agent and a line that is answered with an error: every
malformed line is answered with an error without any `fs` call, every line
answered with an error leaves the filesystem as it was, and the answer to a
following command is then the one it would have got had the line not been sent. -/
theorem FilesystemAgent.error_line_is_isolated (σ : Type) (nfs : NodeFs σ) (cwd : String)
    (fs : σ) (data next : String) :
    (FilesystemAgent.malformed cwd data = true →
      (FilesystemAgent.handleData nfs cwd fs data).emission.isError = true ∧
      (FilesystemAgent.handleData nfs cwd fs data).calls = []) ∧
    ((FilesystemAgent.handleData nfs cwd fs data).emission.isError = true →
      (FilesystemAgent.handleData nfs cwd fs data).fs = fs ∧
      (FilesystemAgent.handleTwo nfs cwd fs data next).2
        = (FilesystemAgent.handleData nfs cwd fs next).emission) := by
  refine ⟨FilesystemAgent.handleData_of_malformed nfs cwd fs data, ?_⟩
  intro herr
  have hfs := FilesystemAgent.handleData_fs_of_isError nfs cwd fs data herr
  exact ⟨hfs, by simp only [FilesystemAgent.handleTwo, hfs]⟩

namespace CodeAnalysisAgent

/-- A line that hands nothing to the shell leaves the machine as it was. -/
theorem handleDataOn_state_of_no_shell {σ : Type} (machine : Machine σ) (state : σ)
    (data : String)
    (h : shellCommand (machine.tools state) ((tokens data).headD "") ((tokens data).drop 1)
      = none) :
    (handleDataOn machine state data).2 = state := by
  simp only [handleDataOn, h]

/-- A command that is not one of `complexity`, `duplicates` and `lint` hands
nothing to the shell. -/
theorem shellCommand_of_unknown (tools : Tools) (command : String) (args : List String)
    (h : command ∉ ["complexity", "duplicates", "lint"]) :
    shellCommand tools command args = none := by
  simp only [List.mem_cons, List.mem_singleton, List.not_mem_nil, or_false, not_or] at h
  obtain ⟨h1, h2, h3⟩ := h
  have e1 : (command == "complexity") = false := by simpa using h1
  have e2 : (command == "duplicates") = false := by simpa using h2
  have e3 : (command == "lint") = false := by simpa using h3
  have hlook : supportedCommands.lookup command = none := by
    simp only [supportedCommands, List.lookup_cons, e1, e2, e3, List.lookup_nil]
  simp only [shellCommand, lookupProp, hlook]
  split_ifs <;> rfl

/-- C19, at the code-analysis agent on a machine where the file
`/Users/garyoleary/Documents/a.js` exists. Sent alone, `complexity` of the file is
answered with a result. Sent after the line
`duplicates x;rm${IFS}-f${IFS}/Users/garyoleary/Documents/a.js`, whose argument
the handler puts into the command line of `execSync` as it came, the same
command is answered with an error: the shell has removed the file. The same
happens when the first line is itself answered with an error (its command line
ends in `;false`). -/
theorem shell_line_changes_following_response :
    (handleDataOn sampleMachine ["/Users/garyoleary/Documents/a.js"]
        "complexity /Users/garyoleary/Documents/a.js\n").1
      = .stdout (.obj [("status", .str "success"),
          ("filePath", .str "/Users/garyoleary/Documents/a.js"), ("complexity", .num 3),
          ("details", .arr [.obj [("file", .str "/Users/garyoleary/Documents/a.js"),
            ("complexity", .num 3)]])]) ∧
    shellCommand (sampleMachine.tools ["/Users/garyoleary/Documents/a.js"]) "duplicates"
        ["x;rm$\x7bIFS\x7d-f$\x7bIFS\x7d/Users/garyoleary/Documents/a.js"]
      = some "npx jsinspect x;rm$\x7bIFS\x7d-f$\x7bIFS\x7d/Users/garyoleary/Documents/a.js" ∧
    (handleDataOn sampleMachine ["/Users/garyoleary/Documents/a.js"]
        "duplicates x;rm$\x7bIFS\x7d-f$\x7bIFS\x7d/Users/garyoleary/Documents/a.js\n").2 = [] ∧
    (handleTwo sampleMachine ["/Users/garyoleary/Documents/a.js"]
        "duplicates x;rm$\x7bIFS\x7d-f$\x7bIFS\x7d/Users/garyoleary/Documents/a.js\n"
        "complexity /Users/garyoleary/Documents/a.js\n").2
      = .stdout (.obj [("status", .str "error"),
          ("filePath", .str "/Users/garyoleary/Documents/a.js"),
          ("message", .str "Complexity calculation failed"),
          ("details", .str
            "ENOENT: no such file or directory, access '/Users/garyoleary/Documents/a.js'")]) ∧
    (handleTwo sampleMachine ["/Users/garyoleary/Documents/a.js"]
        "duplicates x;rm$\x7bIFS\x7d-f$\x7bIFS\x7d/Users/garyoleary/Documents/a.js;false\n"
        "complexity /Users/garyoleary/Documents/a.js\n").1.isError = true ∧
    (handleTwo sampleMachine ["/Users/garyoleary/Documents/a.js"]
        "duplicates x;rm$\x7bIFS\x7d-f$\x7bIFS\x7d/Users/garyoleary/Documents/a.js;false\n"
        "complexity /Users/garyoleary/Documents/a.js\n").2.isError = true := by
  refine ⟨by rfl, by decide, by decide, by rfl, by decide, by decide⟩

end CodeAnalysisAgent

/-! ## The generation pipeline -/

namespace GeneratorService

/-- C21: when the model's answer to the analysis request is not valid JSON,
`_analyzeWorkflowPrompt` does not fail with the error `Invalid workflow analysis
format...` that its inner `catch` throws: the outer `catch` takes that error
and throws `Failed to analyze workflow...`, the error it throws for every other
failure that is not a rate limit. -/
theorem analyzeWorkflowPrompt_parse_failure_is_generic (env : Env) (response : String)
    (parseError : Thrown) (hchat : env.chat 0 = .ok response)
    (hparse : env.parse response = .error parseError) :
    _analyzeWorkflowPrompt env = .error failedToAnalyze ∧
    failedToAnalyze ≠ invalidAnalysisFormat ∧
    (∀ (other : Env) (error : Thrown), other.chat 0 = .error error →
      ¬ includes error.message "rate limit" →
      _analyzeWorkflowPrompt other = _analyzeWorkflowPrompt env) := by
  have hattempt : analyzeWorkflowAttempt env = .error invalidAnalysisFormat := by
    simp only [analyzeWorkflowAttempt, hchat, bind, Except.bind, hparse]
    rfl
  have hnot : ¬ includes invalidAnalysisFormat.message "rate limit" := by decide
  have henv : _analyzeWorkflowPrompt env = .error failedToAnalyze := by
    simp only [_analyzeWorkflowPrompt, hattempt, hnot, ↓reduceIte]
  refine ⟨henv, by decide, ?_⟩
  intro other error hother hrate
  have : analyzeWorkflowAttempt other = .error error := by
    simp only [analyzeWorkflowAttempt, hother]
    rfl
  rw [henv]
  simp only [_analyzeWorkflowPrompt, this, hrate, ↓reduceIte]

/-- The model answers the analysis request with a sentence instead of JSON. -/
theorem analyzeWorkflowPrompt_parse_failure_is_generic_witness :
    _analyzeWorkflowPrompt (sampleEnv true "Sure, here is the analysis." "")
      = .error failedToAnalyze ∧
    failedToAnalyze ≠ invalidAnalysisFormat ∧
    (∀ (other : Env) (error : Thrown), other.chat 0 = .error error →
      ¬ includes error.message "rate limit" →
      _analyzeWorkflowPrompt other
        = _analyzeWorkflowPrompt (sampleEnv true "Sure, here is the analysis." "")) :=
  analyzeWorkflowPrompt_parse_failure_is_generic
    (sampleEnv true "Sure, here is the analysis." "") "Sure, here is the analysis."
    (syntaxError "Unexpected token in JSON at position 0") rfl rfl

/-- When the `Logger` object has no method `debugState`, `generateTool` fails
right after a successful analysis, before the specification is requested. -/
theorem generateTool_of_no_debugState (env : Env) (analysis : JSValue)
    (hlogger : env.hasDebugState = false) (hanalysis : _analyzeToolPrompt env = .ok analysis) :
    generateTool env = .error (.typeError "Logger.debugState is not a function") := by
  simp only [generateTool, toolRawResponse, hanalysis, debugState, hlogger]
  rfl

/-- The same for `generateWorkflow`. -/
theorem generateWorkflow_of_no_debugState (env : Env) (analysis : JSValue)
    (hlogger : env.hasDebugState = false)
    (hanalysis : _analyzeWorkflowPrompt env = .ok analysis) :
    generateWorkflow env = .error (.typeError "Logger.debugState is not a function") := by
  simp only [generateWorkflow, workflowRawResponse, hanalysis, debugState, hlogger]
  rfl

/-- When the text fails to parse or the parsed value fails validation, the inner
`try` block throws. -/
theorem parseAndValidate_of_failure (env : Env) (validate : JSValue → Except String Unit)
    (rawResponse : String)
    (hfail : (∃ parseError, env.parse rawResponse = .error parseError) ∨
      ∃ result, env.parse rawResponse = .ok result ∧ throws (validate result) = true) :
    ∃ error, parseAndValidate env validate rawResponse = .error error := by
  rcases hfail with ⟨parseError, hparse⟩ | ⟨result, hparse, hvalidate⟩
  · exact ⟨parseError, by simp only [parseAndValidate, hparse]; rfl⟩
  · cases hv : validate result with
    | ok _ => simp [hv, throws] at hvalidate
    | error message =>
        cases hd : debugState env with
        | error e =>
            exact ⟨e, by simp only [parseAndValidate, hparse, hd, bind, Except.bind]⟩
        | ok _ =>
            exact ⟨.error message, by
              simp only [parseAndValidate, hparse, hd, bind, Except.bind, hv]; rfl⟩

/-- C22: when the raw model output fails to parse as JSON or fails the
validation of the specification, the error `generateTool` fails with is
`Error('Invalid tool specification format')` and the one `generateWorkflow`
fails with is `Error('Invalid workflow specification format')`, whatever the raw
output is: the error does not carry it. With a `Logger` that has no `debugState`
method the two functions fail before the specification is requested. -/
theorem generate_error_lacks_raw_output (env : Env) (rawResponse : String) :
    (toolRawResponse env = .ok rawResponse →
      ((∃ parseError, env.parse rawResponse = .error parseError) ∨
        ∃ result, env.parse rawResponse = .ok result ∧
          throws (_validateToolSpec result) = true) →
      generateTool env = .error (.error "Invalid tool specification format")) ∧
    (workflowRawResponse env = .ok rawResponse →
      ((∃ parseError, env.parse rawResponse = .error parseError) ∨
        ∃ result, env.parse rawResponse = .ok result ∧
          throws (_validateWorkflowSpec result) = true) →
      generateWorkflow env = .error (.error "Invalid workflow specification format")) ∧
    (env.hasDebugState = false →
      (∀ analysis, _analyzeToolPrompt env = .ok analysis →
        generateTool env = .error (.typeError "Logger.debugState is not a function")) ∧
      (∀ analysis, _analyzeWorkflowPrompt env = .ok analysis →
        generateWorkflow env = .error (.typeError "Logger.debugState is not a function"))) := by
  refine ⟨?_, ?_, ?_⟩
  · intro hraw hfail
    obtain ⟨error, herror⟩ := parseAndValidate_of_failure env _validateToolSpec rawResponse hfail
    simp only [generateTool, hraw, synthesizeTool, bind, Except.bind, herror]
  · intro hraw hfail
    obtain ⟨error, herror⟩ :=
      parseAndValidate_of_failure env _validateWorkflowSpec rawResponse hfail
    simp only [generateWorkflow, hraw, synthesizeWorkflow, bind, Except.bind, herror]
  · intro hlogger
    exact ⟨fun analysis h => generateTool_of_no_debugState env analysis hlogger h,
      fun analysis h => generateWorkflow_of_no_debugState env analysis hlogger h⟩

/-- The model answers the specification request with a sentence that is not
JSON: the error is the fixed one, and the sentence is not in it. -/
theorem generate_error_lacks_raw_output_witness :
    generateTool (sampleEnv true
        "\x7b\"toolType\":\"api-tool\",\"searchQuery\":\"rest client\"\x7d"
        "I cannot write that tool.")
      = .error (.error "Invalid tool specification format") ∧
    ¬ includes (Thrown.error "Invalid tool specification format").text
        "I cannot write that tool." :=
  ⟨(generate_error_lacks_raw_output (sampleEnv true
        "\x7b\"toolType\":\"api-tool\",\"searchQuery\":\"rest client\"\x7d"
        "I cannot write that tool.") "I cannot write that tool.").1 rfl
      (Or.inl ⟨syntaxError "Unexpected token in JSON at position 0", rfl⟩),
    by decide⟩


/-- For a tool type that is a string the callback of the filter does not throw. -/
theorem filterFiles_isRelevantCodeFile (toLowerCase : String → String) (toolType : String)
    (files : List RepoFile) :
    filterFiles (isRelevantCodeFile toLowerCase (.str toolType)) files
      = .ok (files.filter (relevantByName toLowerCase toolType)) := by
  induction files with
  | nil => rfl
  | cons file rest ih =>
      simp only [filterFiles, isRelevantCodeFile, lowerCaseOf, bind, Except.bind, pure,
        Except.pure, ih, List.filter_cons, relevantByName]

/-- The inner loop appends one sample for each file, in order. -/
theorem pushSamples_eq (repo : Repo) (files : List RepoFile) (samples : List Sample) :
    pushSamples repo files samples = samples ++ files.map (sampleOf repo) := by
  induction files generalizing samples with
  | nil => simp [pushSamples]
  | cons file rest ih => simp [pushSamples, ih, sampleOf]

/-- The outer loop, when the content of every repository can be fetched. -/
theorem samplesLoop_eq (toLowerCase : String → String)
    (fetchRepositoryContent : String → Except Thrown (List RepoFile))
    (listing : String → List RepoFile) (toolType : String) (repos : List Repo)
    (samples : List Sample)
    (hfetch : ∀ repo ∈ repos, fetchRepositoryContent repo.full_name
      = .ok (listing repo.full_name)) :
    samplesLoop fetchRepositoryContent (isRelevantCodeFile toLowerCase (.str toolType)) repos
        samples
      = .ok (samples ++ repos.flatMap fun repo =>
          (((listing repo.full_name).filter (relevantByName toLowerCase toolType)).take 2).map
            (sampleOf repo)) := by
  induction repos generalizing samples with
  | nil => simp [samplesLoop]
  | cons repo rest ih =>
      have hrepo := hfetch repo (List.mem_cons_self _ _)
      have hrest := fun r hr => hfetch r (List.mem_cons_of_mem _ hr)
      simp only [samplesLoop, hrepo, bind, Except.bind, filterFiles_isRelevantCodeFile,
        ih _ hrest, pushSamples_eq, List.flatMap_cons, List.append_assoc]

/-- C23: when the content of the first three repositories can be fetched,
`_getCodeSamples` returns, for the first three repositories in order, the
samples of the first two files of the listing whose name contains the tool type
(letter case apart: the name and the tool type are lower-cased by the language's
own `toLowerCase`, whatever that function does to a string) or ends in `.js` or
`.py`, in the order of the listing: at most two samples for each of these
repositories and at most six in all, each from such a file of the listing of one
of the first three repositories. -/
theorem getCodeSamples_spec (toLowerCase : String → String)
    (fetchRepositoryContent : String → Except Thrown (List RepoFile))
    (listing : String → List RepoFile) (repos : List Repo) (toolType : String)
    (hfetch : ∀ repo ∈ repos.take 3, fetchRepositoryContent repo.full_name
      = .ok (listing repo.full_name)) :
    ∃ samples,
      _getCodeSamples toLowerCase fetchRepositoryContent repos (.str toolType) = .ok samples ∧
      samples = (repos.take 3).flatMap (fun repo =>
        (((listing repo.full_name).filter (relevantByName toLowerCase toolType)).take 2).map
          (sampleOf repo)) ∧
      samples.length ≤ 6 ∧
      ∀ sample ∈ samples, ∃ repo ∈ repos.take 3, ∃ file ∈ listing repo.full_name,
        relevantByName toLowerCase toolType file = true ∧ sample = sampleOf repo file := by
  refine ⟨_, by
    simp only [_getCodeSamples,
      samplesLoop_eq toLowerCase fetchRepositoryContent listing toolType _ [] hfetch,
      List.nil_append], rfl, ?_, ?_⟩
  · rw [List.length_flatMap]
    have hbound : ∀ n ∈ List.map (List.length ∘ fun repo : Repo =>
        (((listing repo.full_name).filter (relevantByName toLowerCase toolType)).take 2).map
          (sampleOf repo)) (repos.take 3), n ≤ 2 := by
      intro n hn
      obtain ⟨repo, _, rfl⟩ := List.mem_map.mp hn
      simp only [Function.comp, List.length_map]
      exact List.length_take_le _ _
    have hsum := List.sum_le_card_nsmul _ 2 hbound
    have hlen : (repos.take 3).length ≤ 3 := List.length_take_le _ _
    simp only [List.length_map, smul_eq_mul] at hsum
    omega
  · intro sample hsample
    obtain ⟨repo, hrepo, hmem⟩ := List.mem_flatMap.mp hsample
    obtain ⟨file, hfile, rfl⟩ := List.mem_map.mp hmem
    have hfiltered := List.mem_of_mem_take hfile
    rw [List.mem_filter] at hfiltered
    exact ⟨repo, hrepo, file, hfiltered.1, hfiltered.2, rfl⟩

/-- Four repositories; the second has three relevant files, the fourth is not
looked at; the names are made of ASCII characters, which `toLowerCase` changes
on the letters `A` to `Z` only. -/
theorem getCodeSamples_spec_witness :
    ∃ samples,
      _getCodeSamples AgentSystem.toLowerCase
          (fun name => .ok
            (if name = "b/two" then
              [⟨"README.md", "README.md", "r"⟩, ⟨"scraper.js", "scraper.js", "s"⟩,
                ⟨"API-Tool.txt", "API-Tool.txt", "a"⟩, ⟨"main.py", "main.py", "m"⟩]
            else [⟨"index.js", "index.js", name⟩]))
          [⟨"a/one"⟩, ⟨"b/two"⟩, ⟨"c/three"⟩, ⟨"d/four"⟩] (.str "api-tool") = .ok samples ∧
      samples = [⟨"a/one", "index.js", "a/one"⟩, ⟨"b/two", "scraper.js", "s"⟩,
        ⟨"b/two", "API-Tool.txt", "a"⟩, ⟨"c/three", "index.js", "c/three"⟩] :=
  (getCodeSamples_spec AgentSystem.toLowerCase
    (fun name => .ok
      (if name = "b/two" then
        [⟨"README.md", "README.md", "r"⟩, ⟨"scraper.js", "scraper.js", "s"⟩,
          ⟨"API-Tool.txt", "API-Tool.txt", "a"⟩, ⟨"main.py", "main.py", "m"⟩]
      else [⟨"index.js", "index.js", name⟩]))
    (fun name =>
      if name = "b/two" then
        [⟨"README.md", "README.md", "r"⟩, ⟨"scraper.js", "scraper.js", "s"⟩,
          ⟨"API-Tool.txt", "API-Tool.txt", "a"⟩, ⟨"main.py", "main.py", "m"⟩]
      else [⟨"index.js", "index.js", name⟩])
    [⟨"a/one"⟩, ⟨"b/two"⟩, ⟨"c/three"⟩, ⟨"d/four"⟩] "api-tool"
    (fun _ _ => rfl)).imp fun _ h => ⟨h.1, h.2.1.trans (by decide)⟩

/-- A file whose name has a letter outside `A` to `Z` in upper case is sampled
for the tool type in lower case, with a `toLowerCase` that lower-cases that
letter as the language does. -/
theorem getCodeSamples_lower_cases_by_toLowerCase :
    _getCodeSamples
        (fun text => String.mk (text.data.map fun c => if c = 'Ä' then 'ä' else c.toLower))
        (fun _ => .ok [⟨"ÄRGER.TXT", "ÄRGER.TXT", "x"⟩]) [⟨"a/one"⟩] (.str "ärger")
      = .ok [⟨"a/one", "ÄRGER.TXT", "x"⟩] := by
  rfl

end GeneratorService

/-! ## Reading the output of the analysis tools -/

namespace CodeAnalysisAgent

/-- An integer below `2^53` is a double. -/
theorem toDouble_of_lt (n : Nat) (h : n < 2 ^ 53) : toDouble n = n := by
  have hbits : excessBits n n = 0 := by
    cases n with
    | zero => rfl
    | succ k => simp only [excessBits, h, ↓reduceIte]
  simp [toDouble, hbits, Nat.mod_one]

/-- The sum of two natural numbers is exact when it is below `2^53`. -/
theorem addNumbers_of_lt (a b : Nat) (h : a + b < 2 ^ 53) :
    addNumbers (a : Int) (b : Int) = ((a + b : Nat) : Int) := by
  have hnonneg : ¬ ((a : Int) + (b : Int) < 0) := by omega
  have habs : ((a : Int) + (b : Int)).natAbs = a + b := by omega
  simp only [addNumbers, hnonneg, ↓reduceIte, habs, toDouble_of_lt _ h]

/-- The item of a line whose integer is below `2^53` is its entry of `details`,
or `null` when the line does not match. -/
theorem complexityItem_of_lt (line : String)
    (h : ∀ value, lineComplexity line = some value → value < 2 ^ 53) :
    complexityItem line = (lineDetail line).getD .null := by
  cases hmatch : matchComplexity line.data with
  | none => simp [complexityItem, lineDetail, hmatch]
  | some groups =>
      have hvalue := h (digitsValue groups.2) (by simp [lineComplexity, hmatch])
      simp [complexityItem, lineDetail, hmatch, parseInt, toDouble_of_lt _ hvalue]

/-- The items kept by `filter(Boolean)` are those of the lines that match. -/
theorem filter_complexityItem (lines : List String)
    (h : ∀ line ∈ lines, ∀ value, lineComplexity line = some value → value < 2 ^ 53) :
    (lines.map complexityItem).filter JSValue.truthy = lines.filterMap lineDetail := by
  induction lines with
  | nil => rfl
  | cons line rest ih =>
      have hrest := ih (fun l hl => h l (List.mem_cons_of_mem _ hl))
      rw [List.map_cons, complexityItem_of_lt line (h line (List.mem_cons_self _ _))]
      cases hmatch : matchComplexity line.data with
      | none => simp [lineDetail, hmatch, JSValue.truthy, hrest, List.filterMap_cons]
      | some groups => simp [lineDetail, hmatch, JSValue.truthy, hrest, List.filterMap_cons]

/-- The `reduce` of `parseComplexityOutput` adds up the integers of the lines that
match, exactly as long as the sum stays below `2^53`. -/
theorem foldl_complexityOf (lines : List String) (sum : Nat)
    (h : sum + (lines.filterMap lineComplexity).sum < 2 ^ 53) :
    (lines.filterMap lineDetail).foldl (fun sum item => addNumbers sum (complexityOf item))
        (sum : Int)
      = ((sum + (lines.filterMap lineComplexity).sum : Nat) : Int) := by
  induction lines generalizing sum with
  | nil => simp
  | cons line rest ih =>
      cases hmatch : matchComplexity line.data with
      | none =>
          simp only [lineDetail, lineComplexity, hmatch, List.filterMap_cons, Option.map_none']
            at ih h ⊢
          exact ih sum h
      | some groups =>
          simp only [lineDetail, lineComplexity, hmatch, List.filterMap_cons, Option.map_some',
            List.foldl_cons, List.sum_cons] at ih h ⊢
          have hitem : complexityOf (.obj [("file", .str (String.mk groups.1)),
              ("complexity", .num (digitsValue groups.2))]) = (digitsValue groups.2 : Int) := by
            simp [complexityOf, JSValue.ownProp, List.lookup]
          rw [hitem, addNumbers_of_lt _ _ (by omega), ih _ (by omega)]
          congr 1
          omega

/-- A term of a sum of natural numbers is at most the sum. -/
theorem lineComplexity_le_sum (lines : List String) (line : String) (value : Nat)
    (hline : line ∈ lines) (hvalue : lineComplexity line = some value) :
    value ≤ (lines.filterMap lineComplexity).sum := by
  have hmem : value ∈ lines.filterMap lineComplexity :=
    List.mem_filterMap.mpr ⟨line, hline, hvalue⟩
  exact List.single_le_sum (fun _ _ => Nat.zero_le _) _ hmem

/-- A decimal digit is not white space. -/
theorem not_isWhiteSpace_of_isDigit (c : Char) (h : c.isDigit = true) :
    isWhiteSpace c = false := by
  simp only [Char.isDigit, Bool.and_eq_true, decide_eq_true_eq] at h
  obtain ⟨h1, h2⟩ := h
  have hval : 48 ≤ c.toNat ∧ c.toNat ≤ 57 := ⟨h1, h2⟩
  simp only [isWhiteSpace, Bool.or_eq_false_iff, decide_eq_false_iff_not, Bool.and_eq_false_imp,
    decide_eq_true_eq, List.mem_cons, List.mem_singleton, List.not_mem_nil, or_false, not_or,
    not_le]
  refine ⟨⟨?_, ?_, ?_, ?_, ?_, ?_, ?_, ?_, ?_, ?_, ?_, ?_, ?_, ?_⟩, fun h => by omega⟩ <;>
    (rintro rfl; revert hval; decide)

/-- The groups of a match that starts at the first character: the text is the
first group, a colon, white space, the second group and a rest; the first group
is not empty and has no line terminator, the second is a non-empty run of
digits. -/
theorem matchComplexityHere_groups (s file digits : List Char)
    (h : matchComplexityHere s = some (file, digits)) :
    ∃ ws post, s = file ++ ':' :: ws ++ digits ++ post ∧ file ≠ [] ∧
      (∀ c ∈ file, isLineTerminator c = false) ∧ (∀ c ∈ ws, isWhiteSpace c = true) ∧
      digits ≠ [] ∧ ∀ c ∈ digits, c.isDigit = true := by
  unfold matchComplexityHere at h
  obtain ⟨k, hk, hf⟩ := List.exists_of_findSome?_eq_some h
  simp only [List.mem_reverse, List.mem_range] at hk
  split at hf
  · rename_i after hdrop
    dsimp only at hf
    split_ifs at hf with hempty
    simp only [Option.some.injEq, Prod.mk.injEq] at hf
    obtain ⟨hfile, hdigits⟩ := hf
    refine ⟨after.takeWhile isWhiteSpace,
      (after.dropWhile isWhiteSpace).dropWhile Char.isDigit, ?_, ?_, ?_, ?_, ?_, ?_⟩
    · have hs : s = s.take (k + 1) ++ s.drop (k + 1) := (List.take_append_drop _ _).symm
      rw [hdrop, hfile] at hs
      rw [← hdigits, List.append_assoc, List.append_assoc, List.takeWhile_append_dropWhile]
      simpa using hs
    · rw [← hfile]
      intro hnil
      have := congrArg List.length hnil
      simp only [List.length_take, List.length_nil] at this
      have hlen : (s.takeWhile fun c => !isLineTerminator c).length ≤ s.length :=
        (List.takeWhile_prefix _).length_le
      omega
    · intro c hc
      rw [← hfile] at hc
      obtain ⟨t, ht⟩ := List.takeWhile_prefix (fun c => !isLineTerminator c) (l := s)
      have htake : s.take (k + 1) = (s.takeWhile fun c => !isLineTerminator c).take (k + 1) := by
        conv_lhs => rw [← ht]
        exact List.take_append_of_le_length (by omega)
      rw [htake] at hc
      have := List.mem_takeWhile_imp (List.mem_of_mem_take hc)
      simpa using this
    · exact fun c hc => List.mem_takeWhile_imp hc
    · rw [← hdigits]; exact hempty
    · rw [← hdigits]; exact fun c hc => List.mem_takeWhile_imp hc
  · exact absurd hf (by simp)

/-- A text that starts with a non-empty group without line terminators, a colon,
white space and a digit has a match at its first character. -/
theorem matchComplexityHere_isSome (file ws post : List Char) (d : Char) (hfile : file ≠ [])
    (hterm : ∀ c ∈ file, isLineTerminator c = false) (hws : ∀ c ∈ ws, isWhiteSpace c = true)
    (hd : d.isDigit = true) :
    (matchComplexityHere (file ++ ':' :: ws ++ d :: post)).isSome = true := by
  unfold matchComplexityHere
  rw [List.findSome?_isSome_iff]
  have hlen : 0 < file.length := List.length_pos.mpr hfile
  refine ⟨file.length - 1, ?_, ?_⟩
  · simp only [List.mem_reverse, List.mem_range]
    have hrun : (List.takeWhile (fun c => !isLineTerminator c)
        (file ++ ':' :: ws ++ d :: post)).length ≥ file.length + 1 := by
      rw [List.append_assoc, List.takeWhile_append_of_pos (by simpa using hterm)]
      simp [List.takeWhile_cons, isLineTerminator]
    omega
  · have hk : file.length - 1 + 1 = file.length := by omega
    have hdrop : List.drop file.length (file ++ ':' :: ws ++ d :: post)
        = ':' :: (ws ++ d :: post) := by
      rw [List.append_assoc]
      simp
    have hnot : ¬ isWhiteSpace d = true := by
      rw [not_isWhiteSpace_of_isDigit d hd]; simp
    have hdigits : List.takeWhile Char.isDigit (List.dropWhile isWhiteSpace (ws ++ d :: post))
        ≠ [] := by
      rw [List.dropWhile_append_of_pos hws, List.dropWhile_cons_of_neg hnot,
        List.takeWhile_cons_of_pos hd]
      simp
    simp only [hk, hdrop, hdigits, ↓reduceIte, Option.isSome_some]

/-- The groups of `line.match(/(.+):\s*(\d+)/)`: the line is some text, the first
group, a colon, white space, the second group and a rest. -/
theorem matchComplexity_groups (line file digits : List Char)
    (h : matchComplexity line = some (file, digits)) :
    ∃ pre ws post, line = pre ++ file ++ ':' :: ws ++ digits ++ post ∧ file ≠ [] ∧
      (∀ c ∈ file, isLineTerminator c = false) ∧ (∀ c ∈ ws, isWhiteSpace c = true) ∧
      digits ≠ [] ∧ ∀ c ∈ digits, c.isDigit = true := by
  induction line with
  | nil => simp [matchComplexity] at h
  | cons c rest ih =>
      unfold matchComplexity at h
      cases hhere : matchComplexityHere (c :: rest) with
      | some groups =>
          simp only [hhere, Option.some.injEq] at h
          subst h
          obtain ⟨ws, post, hs, hrest⟩ := matchComplexityHere_groups _ _ _ hhere
          exact ⟨[], ws, post, by simpa using hs, hrest⟩
      | none =>
          simp only [hhere] at h
          obtain ⟨pre, ws, post, hs, hrest⟩ := ih h
          exact ⟨c :: pre, ws, post, by simp [hs], hrest⟩

/-- A line matches `/(.+):\s*(\d+)/` exactly when it contains a non-empty text
without line terminators, a colon, white space (maybe none) and a digit, one after
the other. -/
theorem matchComplexity_isSome_iff (line : List Char) :
    (matchComplexity line).isSome = true ↔
      ∃ pre file ws d post, line = pre ++ file ++ ':' :: ws ++ d :: post ∧ file ≠ [] ∧
        (∀ c ∈ file, isLineTerminator c = false) ∧ (∀ c ∈ ws, isWhiteSpace c = true) ∧
        d.isDigit = true := by
  constructor
  · intro h
    obtain ⟨⟨file, digits⟩, hgroups⟩ := Option.isSome_iff_exists.mp h
    obtain ⟨pre, ws, post, hs, hfile, hterm, hws, hne, hdigits⟩ :=
      matchComplexity_groups _ _ _ hgroups
    obtain ⟨d, others, rfl⟩ := List.exists_cons_of_ne_nil hne
    exact ⟨pre, file, ws, d, others ++ post, by simp [hs], hfile, hterm, hws,
      hdigits d (List.mem_cons_self _ _)⟩
  · rintro ⟨pre, file, ws, d, post, rfl, hfile, hterm, hws, hd⟩
    induction pre with
    | nil =>
        obtain ⟨c, rest, hcons⟩ : ∃ c rest, [] ++ file ++ ':' :: ws ++ d :: post = c :: rest := by
          obtain ⟨c, others, rfl⟩ := List.exists_cons_of_ne_nil hfile
          exact ⟨c, others ++ ':' :: ws ++ d :: post, by simp⟩
        have hhere := matchComplexityHere_isSome file ws post d hfile hterm hws hd
        rw [List.nil_append] at hcons
        rw [List.nil_append, hcons] at *
        unfold matchComplexity
        cases hm : matchComplexityHere (c :: rest) with
        | some groups => simp
        | none => simp [hm] at hhere
    | cons c pre ih =>
        simp only [List.cons_append]
        unfold matchComplexity
        cases hm : matchComplexityHere (c :: (pre ++ file ++ ':' :: ws ++ d :: post)) with
        | some groups => simp
        | none => simpa using ih

/-- C24, at an output whose first line contains `No issues found` and whose
second line matches with the integer 12: the complexity returned is 0, not 12,
and the result has a `message` and no `details`. And at an output whose only line
matches with the integer `2^53 + 1`: JavaScript numbers being doubles, the
complexity returned is `2^53`. -/
theorem parseComplexityOutput_no_issues_first_line :
    lineComplexity "src/a.js: 12" = some 12 ∧
    parseComplexityOutput "No issues found\nsrc/a.js: 12"
      = [("complexity", .num 0), ("message", .str "No complexity issues detected")] ∧
    (JSValue.obj (parseComplexityOutput "No issues found\nsrc/a.js: 12")).ownProp "details"
      = .undefined ∧
    lineComplexity "big.js: 9007199254740993" = some 9007199254740993 ∧
    parseComplexityOutput "big.js: 9007199254740993"
      = [("complexity", .num 9007199254740992),
        ("details", .arr [.obj [("file", .str "big.js"),
          ("complexity", .num 9007199254740992)]])] := by
  refine ⟨by decide, by rfl, by rfl, by decide, by rfl⟩

/-- C24, amended: `parseComplexityOutput` is a total function of the output.
When the first line of the trimmed output does not contain `No issues found`:
if the sum of the integers of the lines that match `/(.+):\s*(\d+)/` is at most
`Number.MAX_SAFE_INTEGER` (it is below `2^53`), the complexity returned is that
sum and `details` has one entry for each of those lines, in order, with the
integer of the line; and an output none of whose lines matches gives complexity
0 and empty details. When the first line contains `No issues found`, the result
is complexity 0 with the message `No complexity issues detected` and without
`details`. -/
theorem parseComplexityOutput_spec (output : String) :
    (¬ includes ((split (trim output) '\n').headD "") "No issues found" →
      (((split (trim output) '\n').filterMap lineComplexity).sum < 2 ^ 53 →
        parseComplexityOutput output
          = [("complexity",
              .num (((split (trim output) '\n').filterMap lineComplexity).sum : Nat)),
            ("details", .arr ((split (trim output) '\n').filterMap lineDetail))]) ∧
      ((∀ line ∈ split (trim output) '\n', lineComplexity line = none) →
        parseComplexityOutput output = [("complexity", .num 0), ("details", .arr [])])) ∧
    (includes ((split (trim output) '\n').headD "") "No issues found" →
      parseComplexityOutput output
        = [("complexity", .num 0), ("message", .str "No complexity issues detected")]) := by
  have hlength : (split (trim output) '\n').length ≠ 0 := by
    simp only [split, List.length_map]
    intro h
    exact List.splitOnP_ne_nil _ _ (List.length_eq_zero.mp h)
  constructor
  · intro hfirst
    have hmain : ((split (trim output) '\n').filterMap lineComplexity).sum < 2 ^ 53 →
        parseComplexityOutput output
          = [("complexity",
              .num (((split (trim output) '\n').filterMap lineComplexity).sum : Nat)),
            ("details", .arr ((split (trim output) '\n').filterMap lineDetail))] := by
      intro hbound
      have hlines : ∀ line ∈ split (trim output) '\n', ∀ value,
          lineComplexity line = some value → value < 2 ^ 53 := fun line hline value hvalue =>
        lt_of_le_of_lt (lineComplexity_le_sum _ line value hline hvalue) hbound
      have hfold := foldl_complexityOf (split (trim output) '\n') 0 (by simpa using hbound)
      simp only [Nat.cast_zero, zero_add] at hfold
      simp only [parseComplexityOutput, hlength, hfirst, or_self, ↓reduceIte,
        filter_complexityItem _ hlines, hfold]
    refine ⟨hmain, ?_⟩
    intro hnone
    have h1 : (split (trim output) '\n').filterMap lineComplexity = [] :=
      List.filterMap_eq_nil_iff.mpr hnone
    have h2 : (split (trim output) '\n').filterMap lineDetail = [] := by
      apply List.filterMap_eq_nil_iff.mpr
      intro line hline
      have := hnone line hline
      simp only [lineComplexity, Option.map_eq_none'] at this
      simp [lineDetail, this]
    rw [hmain (by rw [h1]; simp), h1, h2]
    rfl
  · intro hfirst
    simp only [parseComplexityOutput, hfirst, or_true, ↓reduceIte]

/-- An output of three lines, two of which match. -/
theorem parseComplexityOutput_spec_witness :
    parseComplexityOutput "src/a.js: 12\nnothing here\nb.js:3\n"
      = [("complexity", .num 15),
        ("details", .arr [.obj [("file", .str "src/a.js"), ("complexity", .num 12)],
          .obj [("file", .str "b.js"), ("complexity", .num 3)]])] ∧
    parseComplexityOutput "" = [("complexity", .num 0), ("details", .arr [])] :=
  ⟨(((parseComplexityOutput_spec "src/a.js: 12\nnothing here\nb.js:3\n").1 (by decide)).1
      (by decide)).trans (by rfl),
    ((parseComplexityOutput_spec "").1 (by decide)).2 (by decide)⟩

/-- C27: whatever the duplicate-detection tool prints, the successful result of
`findDuplicateCode` has no `duplicatesFound`: the property is read as the
`length` of the number `parseDuplicatesOutput` returns, which is `undefined`. The
number itself is under `details`; for the output `3 duplicates found` it is 3. -/
theorem findDuplicateCode_duplicatesFound_undefined
    (access : Option String → Except String Unit)
    (lintSummary : String → Except String (JSValue × JSValue × JSValue))
    (dirPath : Option String) (output : String) :
    (findDuplicateCode (withParsers access (fun _ => .ok output) lintSummary) dirPath).ownProp
        "status" = .str "success" ∧
    (findDuplicateCode (withParsers access (fun _ => .ok output) lintSummary) dirPath).ownProp
        "duplicatesFound" = .undefined ∧
    (findDuplicateCode (withParsers access (fun _ => .ok output) lintSummary) dirPath).ownProp
        "details" = parseDuplicatesOutput output ∧
    parseDuplicatesOutput "3 duplicates found" = .num 3 := by
  refine ⟨rfl, ?_, rfl, by rfl⟩
  simp only [findDuplicateCode, withParsers, parseDuplicatesOutput]
  cases matchDuplicates output.data <;> rfl

end CodeAnalysisAgent

/-! ## Listing a directory -/

theorem not_mem_of_mem_splitOn (sep : Char) (l : List Char) :
    ∀ seg ∈ l.splitOn sep, sep ∉ seg := by
  induction l with
  | nil => simp [List.splitOn_nil]
  | cons c rest ih =>
      intro seg hseg
      simp only [List.splitOn, List.splitOnP_cons] at hseg ih
      by_cases hc : (c == sep) = true
      · simp only [hc, ↓reduceIte, List.mem_cons] at hseg
        rcases hseg with rfl | hseg
        · simp
        · exact ih seg hseg
      · simp only [hc, Bool.false_eq_true, ↓reduceIte] at hseg
        cases hsplit : List.splitOnP (fun x => x == sep) rest with
        | nil => simp [hsplit, List.modifyHead] at hseg
        | cons first others =>
            simp only [hsplit, List.modifyHead, List.mem_cons] at hseg ih
            rcases hseg with rfl | hseg
            · intro hmem
              rcases List.mem_cons.mp hmem with rfl | hmem
              · simp at hc
              · exact ih first (Or.inl rfl) hmem
            · exact ih seg (Or.inr hseg)

/-- The segments `path.resolve` keeps are kept again, as they are, when the path
is normalised once more. -/
theorem foldl_normalize_of_plain (stack segs : List (List Char))
    (h : ∀ seg ∈ segs, seg ≠ [] ∧ seg ≠ ['.'] ∧ seg ≠ ['.', '.']) :
    segs.foldl
        (fun stack seg =>
          if seg = [] ∨ seg = ['.'] then stack
          else if seg = ['.', '.'] then stack.dropLast
          else stack ++ [seg])
        stack
      = stack ++ segs := by
  induction segs generalizing stack with
  | nil => simp
  | cons seg rest ih =>
      obtain ⟨h1, h2, h3⟩ := h seg (List.mem_cons_self _ _)
      rw [List.foldl_cons]
      simp only [h1, h2, h3, or_self, ↓reduceIte]
      rw [ih _ (fun s hs => h s (List.mem_cons_of_mem _ hs))]
      simp

/-- Each segment `path.resolve` keeps is not empty, is not `.` or `..`, and has
no separator in it. -/
theorem foldl_normalize_plain (stack segs : List (List Char))
    (hstack : ∀ seg ∈ stack, (seg ≠ [] ∧ seg ≠ ['.'] ∧ seg ≠ ['.', '.']) ∧ '/' ∉ seg)
    (hsegs : ∀ seg ∈ segs, '/' ∉ seg) :
    ∀ seg ∈ segs.foldl
        (fun stack seg =>
          if seg = [] ∨ seg = ['.'] then stack
          else if seg = ['.', '.'] then stack.dropLast
          else stack ++ [seg])
        stack,
      (seg ≠ [] ∧ seg ≠ ['.'] ∧ seg ≠ ['.', '.']) ∧ '/' ∉ seg := by
  induction segs generalizing stack with
  | nil => simpa using hstack
  | cons seg rest ih =>
      rw [List.foldl_cons]
      apply ih
      · intro s hs
        by_cases h1 : seg = [] ∨ seg = ['.']
        · simp only [h1, ↓reduceIte] at hs
          exact hstack s hs
        · by_cases h2 : seg = ['.', '.']
          · simp only [h1, h2, ↓reduceIte] at hs
            exact hstack s (List.mem_of_mem_dropLast hs)
          · simp only [h1, h2, ↓reduceIte, List.mem_append, List.mem_singleton] at hs
            rcases hs with hs | rfl
            · exact hstack s hs
            · exact ⟨⟨fun h => h1 (Or.inl h), fun h => h1 (Or.inr h), h2⟩,
                hsegs s (List.mem_cons_self _ _)⟩
      · exact fun s hs => hsegs s (List.mem_cons_of_mem _ hs)

theorem intercalate_append_singleton (sep : List Char) (segs : List (List Char))
    (name : List Char) (h : segs ≠ []) :
    sep.intercalate (segs ++ [name]) = sep.intercalate segs ++ sep ++ name := by
  induction segs with
  | nil => exact absurd rfl h
  | cons seg rest ih =>
      cases rest with
      | nil => simp [List.intercalate, List.intersperse]
      | cons next others =>
          have := ih (by simp)
          simp only [List.intercalate, List.cons_append, List.intersperse, List.flatten_cons,
            List.append_assoc, List.append_eq] at this ⊢
          rw [this]

/-- A resolved path is a separator followed by its segments, with a separator
between them; each segment is a plain name. -/
theorem resolve_data (cwd p : String) :
    ∃ segs : List (List Char), (resolve cwd p).data = '/' :: ['/'].intercalate segs ∧
      ∀ seg ∈ segs, (seg ≠ [] ∧ seg ≠ ['.'] ∧ seg ≠ ['.', '.']) ∧ '/' ∉ seg := by
  refine ⟨_, rfl, ?_⟩
  unfold normalizeSegments
  apply foldl_normalize_plain
  · simp
  · exact not_mem_of_mem_splitOn _ _

/-- `path.join` of a resolved path other than the root and the name of an entry
is the path, a separator and the name. -/
theorem pathJoin_resolve (cwd d name : String) (hroot : resolve cwd d ≠ "/")
    (hname : FilesystemAgent.isEntryName name = true) :
    pathJoin (resolve cwd d) name = resolve cwd d ++ "/" ++ name := by
  obtain ⟨segs, hdata, hsegs⟩ := resolve_data cwd d
  have hne : segs ≠ [] := by
    rintro rfl
    exact hroot (String.ext (by simpa using hdata))
  simp only [FilesystemAgent.isEntryName, Bool.and_eq_true, decide_eq_true_eq,
    Bool.not_eq_true', List.contains_eq_any_beq, List.any_eq_false, beq_iff_eq] at hname
  obtain ⟨⟨⟨hn1, hn2⟩, hn3⟩, hn4⟩ := hname
  have hslash : '/' ∉ name.data := fun h => hn4 _ h rfl
  have hfull : (resolve cwd d ++ "/" ++ name).data
      = ['/'].intercalate ([] :: (segs ++ [name.data])) := by
    have : ['/'].intercalate ([] :: (segs ++ [name.data]))
        = '/' :: ['/'].intercalate (segs ++ [name.data]) := by
      cases hs : segs ++ [name.data] with
      | nil => simp at hs
      | cons a b => simp [List.intercalate, List.intersperse]
    rw [this, intercalate_append_singleton _ _ _ hne]
    simp [String.data_append, hdata]
  have hsplit : (resolve cwd d ++ "/" ++ name).data.splitOn '/' = [] :: (segs ++ [name.data]) := by
    rw [hfull]
    apply List.splitOn_intercalate
    · intro l hl
      rcases List.mem_cons.mp hl with rfl | hl
      · simp
      · rcases List.mem_append.mp hl with hl | hl
        · exact (hsegs l hl).2
        · simpa [List.mem_singleton.mp hl] using hslash
    · simp
  have hhead : (resolve cwd d ++ "/" ++ name).data.head? = some '/' := by
    simp [String.data_append, hdata]
  have hnorm : normalizeSegments ([] :: (segs ++ [name.data])) = segs ++ [name.data] := by
    unfold normalizeSegments
    rw [List.foldl_cons]
    simp only [true_or, ↓reduceIte]
    rw [foldl_normalize_of_plain]
    · simp
    · intro seg hseg
      rcases List.mem_append.mp hseg with hseg | hseg
      · exact (hsegs seg hseg).1
      · rw [List.mem_singleton.mp hseg]
        exact ⟨hn1, hn2, hn3⟩
  generalize resolve cwd d = resolved at hdata hsplit hhead
  apply String.ext
  simp only [pathJoin, resolve, hhead, ↓reduceIte, hsplit, hnorm,
    intercalate_append_singleton _ _ _ hne]
  simp [String.data_append, hdata]

namespace FilesystemAgent

variable {σ : Type}

/-- A path that is an allowed root or lies below one passes `isPathAllowed`. -/
theorem isPathAllowed_of_nested (p : String) (h : nestedUnderAllowedRoot p = true) :
    isPathAllowed p = true := by
  simp only [nestedUnderAllowedRoot, allowedRoots, List.any_cons, List.any_nil, Bool.or_false,
    Bool.or_eq_true, decide_eq_true_eq, startsWith, String.data_append,
    List.isPrefixOf_iff_prefix] at h
  simp only [isPathAllowed, allowedRoots, List.any_cons, List.any_nil, Bool.or_false,
    Bool.or_eq_true, startsWith, List.isPrefixOf_iff_prefix]
  rcases h with (rfl | h) | (rfl | h) | (rfl | h)
  · exact Or.inl (List.prefix_refl _)
  · exact Or.inl ((List.prefix_append _ _).trans h)
  · exact Or.inr (Or.inl (List.prefix_refl _))
  · exact Or.inr (Or.inl ((List.prefix_append _ _).trans h))
  · exact Or.inr (Or.inr (List.prefix_refl _))
  · exact Or.inr (Or.inr ((List.prefix_append _ _).trans h))

/-- C25: for a directory `d` whose resolved path is an allowed root or lies
below one, and whatever `fs.readdir` gives for it, `list(d)` returns the resolved
path of `d` and one item for each entry, in the order of the listing: the name
of the entry, the type `directory` if the entry is a directory and `file`
otherwise, and `path.join` of the resolved path and the name, which for a name
`readdir` can give is the resolved path, a separator and the name. The call
reads the directory once and changes nothing. -/
theorem list_returns_items_of_listing (nfs : NodeFs σ) (cwd : String) (fs : σ) (d : String)
    (entries : List Dirent)
    (hunder : nestedUnderAllowedRoot (resolve cwd d) = true)
    (hreaddir : nfs.readdir fs (resolve cwd d) = .ok entries) :
    (list nfs cwd fs d).result
      = .ok (.listing (resolve cwd d)
          (entries.map fun entry =>
            ⟨entry.name, if entry.isDirectory then "directory" else "file",
              pathJoin (resolve cwd d) entry.name⟩)) ∧
    (∀ entry ∈ entries, isEntryName entry.name = true →
      pathJoin (resolve cwd d) entry.name = resolve cwd d ++ "/" ++ entry.name) ∧
    (list nfs cwd fs d).fs = fs ∧
    (list nfs cwd fs d).calls = [.readdir (resolve cwd d)] := by
  have hallowed := isPathAllowed_of_nested _ hunder
  have hroot : resolve cwd d ≠ "/" := by
    intro h
    rw [h] at hunder
    exact absurd hunder (by decide)
  have hpath : normalizeAndValidatePath cwd d = .ok (resolve cwd d) := by
    simp [normalizeAndValidatePath, hallowed]
  refine ⟨?_, fun entry _ hname => pathJoin_resolve cwd d entry.name hroot hname, ?_, ?_⟩ <;>
    simp only [list, hpath, hreaddir]

/-- The directory `sub` under the allowed root `Documents`, with the file
`a.txt` and the directory `b` in it. -/
theorem list_returns_items_of_listing_witness :
    (list mapFs "/"
        [("/Users/garyoleary/Documents/sub", .dir),
          ("/Users/garyoleary/Documents/sub/a.txt", .file "hello"),
          ("/Users/garyoleary/Documents/sub/b", .dir)]
        "/Users/garyoleary/Documents/sub").result
      = .ok (.listing "/Users/garyoleary/Documents/sub"
          [⟨"a.txt", "file", "/Users/garyoleary/Documents/sub/a.txt"⟩,
            ⟨"b", "directory", "/Users/garyoleary/Documents/sub/b"⟩]) :=
  (list_returns_items_of_listing mapFs "/"
    [("/Users/garyoleary/Documents/sub", .dir),
      ("/Users/garyoleary/Documents/sub/a.txt", .file "hello"),
      ("/Users/garyoleary/Documents/sub/b", .dir)]
    "/Users/garyoleary/Documents/sub" [⟨"a.txt", false⟩, ⟨"b", true⟩]
    (by decide) (by rfl)).1.trans (by rfl)

end FilesystemAgent

/-! ## The counts of the rate limiter -/

namespace RateLimiter

/-- What `checkRateLimit` leaves of the limiter, when no count is above its
limit: the configuration is kept, no count is above its limit, and a call that
throws leaves every count as it was. -/
theorem checkRateLimit_counts (rl : RateLimiter) (now : Nat) (modelId : String)
    (hinv : ∀ m, currentCount rl m ≤ (limitsOf rl m).requestsPerHour) :
    (checkRateLimit rl now modelId).1.modelLimits = rl.modelLimits ∧
    (checkRateLimit rl now modelId).1.globalConfig = rl.globalConfig ∧
    (∀ m, currentCount (checkRateLimit rl now modelId).1 m ≤ (limitsOf rl m).requestsPerHour) ∧
    (throws (checkRateLimit rl now modelId).2 = true →
      ∀ m, currentCount (checkRateLimit rl now modelId).1 m = currentCount rl m) := by
  have hmodel := hinv modelId
  simp only [checkRateLimit]
  split_ifs
  all_goals refine ⟨rfl, rfl, fun m => ?_, fun hthrow m => ?_⟩
  all_goals by_cases hm : m = modelId
  all_goals simp only [currentCount, mapSet, hm, ↓reduceIte, throws, orElse_some_zero] at *
  all_goals first
    | exact hinv m
    | omega
    | exact absurd hthrow Bool.false_ne_true

/-- The two resets keep the configuration and leave no count above its limit. -/
theorem afterCall_counts (rl : RateLimiter) (call : Call)
    (hinv : ∀ m, currentCount rl m ≤ (limitsOf rl m).requestsPerHour) :
    (afterCall rl call).modelLimits = rl.modelLimits ∧
    (afterCall rl call).globalConfig = rl.globalConfig ∧
    ∀ m, currentCount (afterCall rl call) m ≤ (limitsOf rl m).requestsPerHour := by
  cases call with
  | checkRateLimit now modelId =>
      obtain ⟨h1, h2, h3, _⟩ := checkRateLimit_counts rl now modelId hinv
      exact ⟨h1, h2, h3⟩
  | resetLimits modelId =>
      refine ⟨rfl, rfl, fun m => ?_⟩
      by_cases hm : m = modelId
      · simp [afterCall, resetLimits, currentCount, mapDelete, hm, orElse]
      · simpa [afterCall, resetLimits, currentCount, mapDelete, hm] using hinv m
  | forceReset =>
      exact ⟨rfl, rfl, fun m => by simp [afterCall, forceReset, currentCount, orElse]⟩

/-- No sequence of calls takes a count above its limit. -/
theorem afterCalls_counts (calls : List Call) (rl : RateLimiter)
    (hinv : ∀ m, currentCount rl m ≤ (limitsOf rl m).requestsPerHour) :
    (afterCalls rl calls).modelLimits = rl.modelLimits ∧
    (afterCalls rl calls).globalConfig = rl.globalConfig ∧
    ∀ m, currentCount (afterCalls rl calls) m ≤ (limitsOf rl m).requestsPerHour := by
  induction calls generalizing rl with
  | nil => exact ⟨rfl, rfl, hinv⟩
  | cons call rest ih =>
      obtain ⟨h1, h2, h3⟩ := afterCall_counts rl call hinv
      have hlimits := fun m => limitsOf_congr h1 h2 m
      obtain ⟨g1, g2, g3⟩ := ih (afterCall rl call) (fun m => by rw [hlimits]; exact h3 m)
      refine ⟨g1.trans h1, g2.trans h2, fun m => ?_⟩
      have := g3 m
      rw [hlimits] at this
      exact this

/-- C26: on a fresh limiter, after any sequence of `checkRateLimit`,
`resetLimits` and `forceReset` calls (at any times), for a model id that does
not name a member of `Object.prototype`: the request count of the model is at
most its `requestsPerHour`, `getRemainingRequests` is `requestsPerHour` minus the
count, and a `checkRateLimit` call for the model that throws (cooldown, or limit
exceeded) leaves the count of every model as it was. -/
theorem counts_within_limits (modelLimits : List (String × Limits))
    (globalConfig : Option GlobalConfig) (calls : List Call) (modelId : String)
    (_hown : modelId ∉ objectPrototypeMembers) :
    currentCount (afterCalls (fresh modelLimits globalConfig) calls) modelId
      ≤ (limitsOf (fresh modelLimits globalConfig) modelId).requestsPerHour ∧
    getRemainingRequests (afterCalls (fresh modelLimits globalConfig) calls) modelId
      = ((limitsOf (fresh modelLimits globalConfig) modelId).requestsPerHour : Int)
        - (currentCount (afterCalls (fresh modelLimits globalConfig) calls) modelId : Int) ∧
    ∀ now,
      throws (checkRateLimit (afterCalls (fresh modelLimits globalConfig) calls)
        now modelId).2 = true →
      ∀ m,
        currentCount (checkRateLimit (afterCalls (fresh modelLimits globalConfig) calls)
          now modelId).1 m
          = currentCount (afterCalls (fresh modelLimits globalConfig) calls) m := by
  have hfresh : ∀ m, currentCount (fresh modelLimits globalConfig) m
      ≤ (limitsOf (fresh modelLimits globalConfig) m).requestsPerHour := by
    intro m
    simp [currentCount, fresh, orElse]
  obtain ⟨h1, h2, h3⟩ := afterCalls_counts calls _ hfresh
  have hlimits := fun m => limitsOf_congr h1 h2 m
  refine ⟨h3 modelId, ?_, ?_⟩
  · have := h3 modelId
    simp only [getRemainingRequests, hlimits]
    omega
  · intro now hthrow
    exact (checkRateLimit_counts _ now modelId
      (fun m => by rw [hlimits]; exact h3 m)).2.2.2 hthrow

/-- A model with a limit of two requests: two calls pass, the third throws, the
limits are reset and a fourth call passes. -/
theorem counts_within_limits_witness :
    "llama3:70b" ∉ objectPrototypeMembers ∧
    currentCount
        (afterCalls (fresh [("llama3:70b", ⟨2, 30000, 5000⟩)] none)
          [.checkRateLimit 0 "llama3:70b", .checkRateLimit 1 "llama3:70b",
            .checkRateLimit 2 "llama3:70b", .resetLimits "llama3:70b",
            .checkRateLimit 3 "llama3:70b"]) "llama3:70b"
      ≤ (limitsOf (fresh [("llama3:70b", ⟨2, 30000, 5000⟩)] none) "llama3:70b").requestsPerHour :=
  ⟨by decide,
    (counts_within_limits [("llama3:70b", ⟨2, 30000, 5000⟩)] none
      [.checkRateLimit 0 "llama3:70b", .checkRateLimit 1 "llama3:70b",
        .checkRateLimit 2 "llama3:70b", .resetLimits "llama3:70b",
        .checkRateLimit 3 "llama3:70b"] "llama3:70b" (by decide)).1⟩

end RateLimiter

/-! ## The waits of `executeWithRetry` -/

namespace MCPClient

/-- Doubling a delay capped at `m` and capping it again is doubling it and
capping once. -/
theorem min_double_min (d m k : Nat) :
    min (min (d * 2) m * 2 ^ k) m = min (d * 2 ^ (k + 1)) m := by
  have hpow : 0 < 2 ^ k := Nat.two_pow_pos k
  have hsucc : d * 2 ^ (k + 1) = d * 2 * 2 ^ k := by ring
  rw [hsucc]
  by_cases h : d * 2 ≤ m
  · rw [Nat.min_eq_left h]
  · have hm : min (d * 2) m = m := Nat.min_eq_right (by omega)
    rw [hm]
    have h1 : m ≤ m * 2 ^ k := Nat.le_mul_of_pos_right m hpow
    have h2 : m ≤ d * 2 * 2 ^ k :=
      le_trans h1 (Nat.mul_le_mul_right _ (by omega))
    rw [Nat.min_eq_right h1, Nat.min_eq_right h2]

theorem invocations_cons_cons (ms : Nat) (events : List RetryEvent) :
    invocations (.invoke :: .sleep ms :: events) = invocations events + 1 := by
  simp [invocations, List.filter_cons]

theorem waits_cons_cons (ms : Nat) (events : List RetryEvent) :
    waits (.invoke :: .sleep ms :: events) = ms :: waits events := by
  simp [waits, List.filterMap_cons]

/-- The waits that start at `delay` and double up to the cap. -/
theorem map_range_succ_delay (delay cap remaining : Nat) (hdelay : delay ≤ cap) :
    (List.range (remaining + 1)).map (fun k => min (delay * 2 ^ k) cap)
      = delay :: (List.range remaining).map (fun k => min (min (delay * 2) cap * 2 ^ k) cap) := by
  rw [List.range_succ_eq_map, List.map_cons, List.map_map]
  congr 1
  · simpa using hdelay
  · apply List.map_congr_left
    intro k _
    simp only [Function.comp, min_double_min]

/-- The loop of `executeWithRetry` from attempt `attempt` on, when every
invocation that remains fails with an error that is not a rate limit. -/
theorem retryLoop_of_failures {α : Type} (config : RetryConfig) (operation : Operation α) :
    ∀ (remaining attempt delay : Nat) (lastError : Option JSError),
      1 ≤ attempt → attempt + remaining = config.maxRetries →
      delay ≤ config.maxDelayMs →
      (∀ n, attempt ≤ n + 1 → n < config.maxRetries →
        ∃ error, operation n = .error error ∧
          ¬ includes error.message "rate limit exceeded") →
      invocations (retryLoop config operation (remaining + 1) attempt delay lastError).events
        = remaining + 1 ∧
      waits (retryLoop config operation (remaining + 1) attempt delay lastError).events
        = (List.range remaining).map (fun k => min (delay * 2 ^ k) config.maxDelayMs) ∧
      ∃ error, operation (config.maxRetries - 1) = .error error ∧
        (retryLoop config operation (remaining + 1) attempt delay lastError).result
          = .error (some error) := by
  intro remaining
  induction remaining with
  | zero =>
      intro attempt delay lastError hpos hsum _ hfail
      have hattempt : attempt = config.maxRetries := by omega
      obtain ⟨error, herror, hrate⟩ := hfail (attempt - 1) (by omega) (by omega)
      rw [hattempt] at herror
      refine ⟨?_, ?_, error, herror, ?_⟩ <;>
        simp [retryLoop, herror, hrate, hattempt, invocations, waits]
  | succ remaining ih =>
      intro attempt delay lastError hpos hsum hdelay hfail
      have hattempt : ¬ attempt = config.maxRetries := by omega
      obtain ⟨error, herror, hrate⟩ := hfail (attempt - 1) (by omega) (by omega)
      obtain ⟨h1, h2, later, hlater, h3⟩ :=
        ih (attempt + 1) (min (delay * 2) config.maxDelayMs) (some error) (by omega) (by omega)
          (Nat.min_le_right _ _) (fun n hn hlt => hfail n (by omega) hlt)
      have hunfold : retryLoop config operation (remaining + 1 + 1) attempt delay lastError
          = ⟨(retryLoop config operation (remaining + 1) (attempt + 1)
                (min (delay * 2) config.maxDelayMs) (some error)).result,
              .invoke :: .sleep delay ::
                (retryLoop config operation (remaining + 1) (attempt + 1)
                  (min (delay * 2) config.maxDelayMs) (some error)).events⟩ := by
        rw [retryLoop]
        simp only [herror, hrate, hattempt, ↓reduceIte]
      rw [hunfold]
      refine ⟨?_, ?_, later, hlater, h3⟩
      · rw [invocations_cons_cons, h1]
      · rw [waits_cons_cons, h2, map_range_succ_delay _ _ _ hdelay]

/-- The loop of `executeWithRetry` from attempt `attempt` on, when the operation
succeeds after `failures` more invocations that fail with an error that is not a
rate limit. -/
theorem retryLoop_of_success {α : Type} (config : RetryConfig) (operation : Operation α)
    (value : α) :
    ∀ (failures remaining attempt delay : Nat) (lastError : Option JSError),
      1 ≤ attempt → attempt + remaining = config.maxRetries →
      delay ≤ config.maxDelayMs →
      attempt - 1 + failures < config.maxRetries →
      operation (attempt - 1 + failures) = .ok value →
      (∀ n, attempt ≤ n + 1 → n < attempt - 1 + failures →
        ∃ error, operation n = .error error ∧
          ¬ includes error.message "rate limit exceeded") →
      invocations (retryLoop config operation (remaining + 1) attempt delay lastError).events
        = failures + 1 ∧
      waits (retryLoop config operation (remaining + 1) attempt delay lastError).events
        = (List.range failures).map (fun k => min (delay * 2 ^ k) config.maxDelayMs) ∧
      (retryLoop config operation (remaining + 1) attempt delay lastError).result
        = .ok value := by
  intro failures
  induction failures with
  | zero =>
      intro remaining attempt delay lastError _ _ _ _ hvalue _
      rw [Nat.add_zero] at hvalue
      refine ⟨?_, ?_, ?_⟩ <;> simp [retryLoop, hvalue, invocations, waits]
  | succ failures ih =>
      intro remaining attempt delay lastError hpos hsum hdelay hlt hvalue hfail
      obtain ⟨error, herror, hrate⟩ := hfail (attempt - 1) (by omega) (by omega)
      have hattempt : ¬ attempt = config.maxRetries := by omega
      obtain ⟨remaining, rfl⟩ : ∃ r, remaining = r + 1 := ⟨remaining - 1, by omega⟩
      have hindex : attempt + 1 - 1 + failures = attempt - 1 + (failures + 1) := by omega
      obtain ⟨h1, h2, h3⟩ :=
        ih remaining (attempt + 1) (min (delay * 2) config.maxDelayMs) (some error) (by omega)
          (by omega) (Nat.min_le_right _ _) (by omega) (by rw [hindex]; exact hvalue)
          (fun n hn hlt' => hfail n (by omega) (by omega))
      have hunfold : retryLoop config operation (remaining + 1 + 1) attempt delay lastError
          = ⟨(retryLoop config operation (remaining + 1) (attempt + 1)
                (min (delay * 2) config.maxDelayMs) (some error)).result,
              .invoke :: .sleep delay ::
                (retryLoop config operation (remaining + 1) (attempt + 1)
                  (min (delay * 2) config.maxDelayMs) (some error)).events⟩ := by
        rw [retryLoop]
        simp only [herror, hrate, hattempt, ↓reduceIte]
      rw [hunfold]
      refine ⟨?_, ?_, h3⟩
      · rw [invocations_cons_cons, h1]
      · rw [waits_cons_cons, h2, map_range_succ_delay _ _ _ hdelay]

/-- C28: for a retry configuration with `maxRetries` at least 1 and
`initialDelayMs` at most `maxDelayMs`: when every invocation fails with an error
that does not contain `rate limit exceeded`, `executeWithRetry` invokes the
operation exactly `maxRetries` times, waits `maxRetries - 1` times, the wait
number `k` (from 1) being `min(initialDelayMs * 2^(k-1), maxDelayMs)`, and fails
with the error of the last invocation; when an invocation succeeds after
`failures` such failures, it returns that result after `failures + 1`
invocations and `failures` waits, and invokes the operation no further. -/
theorem executeWithRetry_backoff {α : Type} (config : RetryConfig) (operation : Operation α)
    (hmax : 1 ≤ config.maxRetries) (hdelay : config.initialDelayMs ≤ config.maxDelayMs) :
    ((∀ n, n < config.maxRetries →
        ∃ error, operation n = .error error ∧
          ¬ includes error.message "rate limit exceeded") →
      invocations (executeWithRetry config operation).events = config.maxRetries ∧
      waits (executeWithRetry config operation).events
        = (List.range (config.maxRetries - 1)).map
            (fun k => min (config.initialDelayMs * 2 ^ k) config.maxDelayMs) ∧
      ∃ error, operation (config.maxRetries - 1) = .error error ∧
        (executeWithRetry config operation).result = .error (some error)) ∧
    (∀ (failures : Nat) (value : α), failures < config.maxRetries →
      operation failures = .ok value →
      (∀ n, n < failures →
        ∃ error, operation n = .error error ∧
          ¬ includes error.message "rate limit exceeded") →
      invocations (executeWithRetry config operation).events = failures + 1 ∧
      waits (executeWithRetry config operation).events
        = (List.range failures).map
            (fun k => min (config.initialDelayMs * 2 ^ k) config.maxDelayMs) ∧
      (executeWithRetry config operation).result = .ok value) := by
  obtain ⟨remaining, hremaining⟩ : ∃ r, config.maxRetries = r + 1 :=
    ⟨config.maxRetries - 1, by omega⟩
  constructor
  · intro hfail
    have := retryLoop_of_failures config operation remaining 1 config.initialDelayMs none
      (le_refl 1) (by omega) hdelay (fun n _ hn => hfail n hn)
    simp only [executeWithRetry]
    rw [hremaining] at this ⊢
    simpa using this
  · intro failures value hlt hvalue hfail
    have := retryLoop_of_success config operation value failures remaining 1
      config.initialDelayMs none (le_refl 1) (by omega) hdelay (by omega)
      (by simpa using hvalue) (fun n _ hn => hfail n (by omega))
    simp only [executeWithRetry]
    rw [hremaining]
    exact this

/-- The default configuration (three attempts, waits from 1 s, capped at 10 s)
with an operation that fails each time, and one with a cap of 1.5 s and an
operation that succeeds at the third attempt. -/
theorem executeWithRetry_backoff_witness :
    (executeWithRetry defaultRetryConfig
        (fun _ => (.error ⟨"ECONNRESET", none⟩ : Except JSError Nat))).events
      = [.invoke, .sleep 1000, .invoke, .sleep 2000, .invoke] ∧
    waits (executeWithRetry ⟨5, 1000, 1500⟩
        (fun n => if n < 2 then .error ⟨"timeout", none⟩ else .ok n)).events
      = [1000, 1500] ∧
    (executeWithRetry ⟨5, 1000, 1500⟩
        (fun n => if n < 2 then .error ⟨"timeout", none⟩ else .ok n)).result = .ok 2 :=
  ⟨by decide,
    ((executeWithRetry_backoff ⟨5, 1000, 1500⟩
      (fun n => if n < 2 then .error ⟨"timeout", none⟩ else .ok n) (by decide) (by decide)).2
        2 2 (by decide) rfl
        (fun n hn => ⟨⟨"timeout", none⟩, by simp [hn], by decide⟩)).2.1.trans (by decide),
    ((executeWithRetry_backoff ⟨5, 1000, 1500⟩
      (fun n => if n < 2 then .error ⟨"timeout", none⟩ else .ok n) (by decide) (by decide)).2
        2 2 (by decide) rfl
        (fun n hn => ⟨⟨"timeout", none⟩, by simp [hn], by decide⟩)).2.2⟩

end MCPClient

/-! ## Masking of the log data -/

namespace Logger

/-- C29, at a string in which the word `password` occurs twice, and at an object
with such a string nested in it: each pattern replaces its first occurrence
only, so the second occurrence is still in the output. -/
theorem maskSensitiveData_leaves_second_occurrence :
    maskSensitiveData (.str "password=hunter2 password=hunter3")
      = .str "***REDACTED***=hunter2 password=hunter3" ∧
    hasSensitiveWord "***REDACTED***=hunter2 password=hunter3" = true ∧
    maskSensitiveData (.obj [("request", .obj [("headers", .arr [.str "token a, token b"])])])
      = .obj [("request", .obj [("headers", .obj [("0", .str "***REDACTED*** a, token b")])])] ∧
    hasSensitiveWord "***REDACTED*** a, token b" = true := by
  refine ⟨by rfl, by decide, by rfl, by decide⟩

end Logger

/-! ## Processes left running by the executor -/

theorem lookup_deleteProp_of_ne {β : Type} (table : List (String × β)) (key other : String)
    (hne : other ≠ key) : (deleteProp table key).lookup other = table.lookup other := by
  induction table with
  | nil => rfl
  | cons e rest ih =>
      obtain ⟨k, v⟩ := e
      by_cases hk : k = key
      · subst hk
        have hb : (other == k) = false := by simpa using hne
        simp only [deleteProp, List.filter_cons, ne_eq, not_true_eq_false, decide_False,
          Bool.false_eq_true, ↓reduceIte, List.lookup_cons, hb]
        exact ih
      · simp only [deleteProp, List.filter_cons, ne_eq, hk, not_false_eq_true, decide_True,
          ↓reduceIte, List.lookup_cons]
        cases other == k
        · exact ih
        · rfl

theorem lookup_isSome_of_mem_keys {β : Type} (table : List (String × β)) (key : String)
    (h : key ∈ table.map (·.1)) : (table.lookup key).isSome = true := by
  induction table with
  | nil => simp at h
  | cons e rest ih =>
      obtain ⟨k, v⟩ := e
      by_cases hk : key = k
      · subst hk; simp [List.lookup]
      · have hb : (key == k) = false := by simpa using hk
        simp only [List.map_cons, List.mem_cons, hk, false_or] at h
        simp only [List.lookup_cons, hb]
        exact ih h

theorem mem_keys_of_lookup_eq_some {β : Type} (table : List (String × β)) (key : String)
    (value : β) (h : table.lookup key = some value) : key ∈ table.map (·.1) := by
  induction table with
  | nil => simp at h
  | cons e rest ih =>
      obtain ⟨k, v⟩ := e
      by_cases hk : key = k
      · subst hk; simp
      · have hb : (key == k) = false := by simpa using hk
        simp only [List.lookup_cons, hb] at h
        simp only [List.map_cons, List.mem_cons]
        exact Or.inr (ih h)

namespace MCPAgentExecutor

/-- Every process whose input stream is open is the process of a running agent,
and no running agent's id names a member of `Object.prototype`. -/
theorem closeAgent_keeps_tracked (ex : Executor) (agentId : String)
    (htracked : ∀ handle agent, ex.processes[handle]? = some agent → agent.stdinEnded = false →
      ∃ id, ex.agents.lookup id = some handle)
    (hids : ∀ id ∈ ex.agents.map (·.1), id ∉ objectPrototypeMembers) :
    (∀ handle agent, (closeAgent ex agentId).2.processes[handle]? = some agent →
      agent.stdinEnded = false → ∃ id, (closeAgent ex agentId).2.agents.lookup id = some handle) ∧
    (∀ id ∈ (closeAgent ex agentId).2.agents.map (·.1), id ∉ objectPrototypeMembers) ∧
    (∀ id ∈ (closeAgent ex agentId).2.agents.map (·.1), id ∈ ex.agents.map (·.1)) ∧
    (closeAgent ex agentId).2.agents.lookup agentId = none ∧
    (agentId ∉ objectPrototypeMembers → (closeAgent ex agentId).1 = .ok ()) := by
  cases hlook : ex.agents.lookup agentId with
  | none =>
      obtain ⟨hstate, hok⟩ := closeAgent_of_not_running ex agentId hlook
      rw [hstate]
      exact ⟨htracked, hids, fun id h => h, hlook, hok⟩
  | some running =>
      have hstate : closeAgent ex agentId
          = (.ok (),
            { ex with
              processes := ex.processes.modify (fun agent => { agent with stdinEnded := true })
                running
              agents := deleteProp ex.agents agentId }) := by
        simp only [closeAgent, lookupProp, hlook]
      rw [hstate]
      refine ⟨?_, ?_, ?_, lookup_deleteProp_self _ _, fun _ => rfl⟩
      · intro handle agent hagent hopen
        simp only [List.getElem?_modify] at hagent
        cases hold : ex.processes[handle]? with
        | none => simp [hold] at hagent
        | some old =>
            simp only [hold, Option.map_eq_map, Option.map_some', Option.some.injEq] at hagent
            by_cases hsame : running = handle
            · simp only [hsame, ↓reduceIte] at hagent
              rw [← hagent] at hopen
              exact absurd hopen (by simp)
            · simp only [hsame, ↓reduceIte] at hagent
              subst hagent
              obtain ⟨id, hid⟩ := htracked handle old hold hopen
              have hne : id ≠ agentId := by
                rintro rfl
                rw [hlook] at hid
                exact hsame (Option.some.inj hid)
              exact ⟨id, by simp only [lookup_deleteProp_of_ne _ _ _ hne, hid]⟩
      · intro id hid
        exact hids id ((mem_keys_deleteProp _ _ _).mp hid).1
      · intro id hid
        exact ((mem_keys_deleteProp _ _ _).mp hid).1

/-- `initializeAgent` for an id that is not running and does not name a member
of `Object.prototype` keeps every open process tracked. -/
theorem initializeAgent_keeps_tracked (spawn : Spawn) (ex : Executor) (agentId : String)
    (hown : agentId ∉ objectPrototypeMembers) (hnew : ex.agents.lookup agentId = none)
    (htracked : ∀ handle agent, ex.processes[handle]? = some agent → agent.stdinEnded = false →
      ∃ id, ex.agents.lookup id = some handle)
    (hids : ∀ id ∈ ex.agents.map (·.1), id ∉ objectPrototypeMembers) :
    (∀ handle agent, (initializeAgent spawn ex agentId).2.processes[handle]? = some agent →
      agent.stdinEnded = false →
      ∃ id, (initializeAgent spawn ex agentId).2.agents.lookup id = some handle) ∧
    (∀ id ∈ (initializeAgent spawn ex agentId).2.agents.map (·.1),
      id ∉ objectPrototypeMembers) := by
  have hproto : agentId ≠ "__proto__" := by
    rintro rfl
    exact hown (by decide)
  unfold initializeAgent
  cases hcfg : lookupProp ex.agentConfigs agentId with
  | absent => exact ⟨htracked, hids⟩
  | inherited => exact ⟨htracked, hids⟩
  | own config =>
      dsimp only
      cases hspawn : spawn config.command config.args with
      | error e => exact ⟨htracked, hids⟩
      | ok u =>
          dsimp only
          simp only [assignProp, hproto, ↓reduceIte]
          constructor
          · intro handle agent hagent hopen
            by_cases hlt : handle < ex.processes.length
            · rw [List.getElem?_append_left hlt] at hagent
              obtain ⟨id, hid⟩ := htracked handle agent hagent hopen
              have hne : id ≠ agentId := by
                rintro rfl
                rw [hnew] at hid
                exact Option.noConfusion hid
              exact ⟨id, (JSMap.get_set_of_ne _ _ _ _ hne).trans hid⟩
            · have hlen : handle = ex.processes.length := by
                by_contra hne
                rw [List.getElem?_eq_none (by simp; omega)] at hagent
                exact Option.noConfusion hagent
              subst hlen
              exact ⟨agentId, JSMap.get_set_self _ _ _⟩
          · intro id hid
            rcases (mem_keys_set _ _ _ _).mp hid with hid | rfl
            · exact hids id hid
            · exact hown

/-- The loop of `closeAllAgents` over ids none of which names a member of
`Object.prototype`: it does not throw, it keeps every open process tracked, and
none of the ids is running afterwards. -/
theorem closeEach_keeps_tracked (keys : List String) :
    ∀ ex : Executor,
      (∀ key ∈ keys, key ∉ objectPrototypeMembers) →
      (∀ handle agent, ex.processes[handle]? = some agent → agent.stdinEnded = false →
        ∃ id, ex.agents.lookup id = some handle) →
      (∀ id ∈ ex.agents.map (·.1), id ∉ objectPrototypeMembers) →
      (∀ handle agent, (closeEach keys ex).2.processes[handle]? = some agent →
        agent.stdinEnded = false → ∃ id, (closeEach keys ex).2.agents.lookup id = some handle) ∧
      (∀ id ∈ (closeEach keys ex).2.agents.map (·.1), id ∉ objectPrototypeMembers) ∧
      (∀ id ∈ (closeEach keys ex).2.agents.map (·.1), id ∈ ex.agents.map (·.1)) ∧
      (∀ key ∈ keys, (closeEach keys ex).2.agents.lookup key = none) ∧
      (closeEach keys ex).1 = .ok () := by
  induction keys with
  | nil =>
      intro ex _ htracked hids
      exact ⟨htracked, hids, fun id h => h, fun key h => absurd h (List.not_mem_nil _), rfl⟩
  | cons key rest ih =>
      intro ex hkeys htracked hids
      obtain ⟨h1, h2, h3, h4, h5⟩ := closeAgent_keeps_tracked ex key htracked hids
      have hok := h5 (hkeys key (List.mem_cons_self _ _))
      obtain ⟨g1, g2, g3, g4, g5⟩ :=
        ih (closeAgent ex key).2 (fun k hk => hkeys k (List.mem_cons_of_mem _ hk)) h1 h2
      have hunfold : closeEach (key :: rest) ex = closeEach rest (closeAgent ex key).2 := by
        rw [closeEach]
        split
        · rename_i e ex' heq
          rw [heq] at hok
          exact Except.noConfusion hok
        · rename_i u ex' heq
          rw [heq]
      rw [hunfold]
      refine ⟨g1, g2, fun id hid => h3 id (g3 id hid), ?_, g5⟩
      intro k hk
      rcases List.mem_cons.mp hk with rfl | hk
      · by_contra hsome
        have hmem : k ∈ (closeEach rest (closeAgent ex k).2).2.agents.map (·.1) := by
          cases hl : (closeEach rest (closeAgent ex k).2).2.agents.lookup k with
          | none => exact absurd hl hsome
          | some v => exact mem_keys_of_lookup_eq_some _ _ _ hl
        have := lookup_isSome_of_mem_keys _ _ (g3 k hmem)
        rw [h4] at this
        exact Bool.noConfusion this
      · exact g4 k hk

/-- After `closeAllAgents()` no agent is running and, when every open process was
tracked, every process has had its input stream ended. -/
theorem closeAllAgents_keeps_tracked (ex : Executor)
    (htracked : ∀ handle agent, ex.processes[handle]? = some agent → agent.stdinEnded = false →
      ∃ id, ex.agents.lookup id = some handle)
    (hids : ∀ id ∈ ex.agents.map (·.1), id ∉ objectPrototypeMembers) :
    (closeAllAgents ex).2.agents = [] ∧
    (∀ agent ∈ (closeAllAgents ex).2.processes, agent.stdinEnded = true) ∧
    (closeAllAgents ex).1 = .ok () := by
  obtain ⟨g1, _, g3, g4, g5⟩ := closeEach_keeps_tracked (objectKeys ex.agents) ex
    (fun key hkey => hids key ((mem_objectKeys _ _).mp hkey)) htracked hids
  have hempty : (closeAllAgents ex).2.agents = [] := by
    unfold closeAllAgents
    cases hagents : (closeEach (objectKeys ex.agents) ex).2.agents with
    | nil => rfl
    | cons e others =>
        have hmem : e.1 ∈ (closeEach (objectKeys ex.agents) ex).2.agents.map (·.1) := by
          rw [hagents]; simp
        have hsome := lookup_isSome_of_mem_keys _ _ hmem
        rw [g4 e.1 ((mem_objectKeys _ _).mpr (g3 e.1 hmem))] at hsome
        exact Bool.noConfusion hsome
  refine ⟨hempty, ?_, g5⟩
  intro agent hagent
  obtain ⟨handle, hhandle⟩ := List.mem_iff_getElem?.mp hagent
  by_contra hopen
  obtain ⟨id, hid⟩ := g1 handle agent hhandle (by simpa using hopen)
  unfold closeAllAgents at hempty
  rw [hempty] at hid
  exact Option.noConfusion hid

/-- Along calls that initialize no agent twice, every open process stays
tracked. -/
theorem afterCalls_keeps_tracked (spawn : Spawn) (calls : List Call) :
    ∀ ex : Executor,
      initializesOnce spawn ex calls = true →
      (∀ handle agent, ex.processes[handle]? = some agent → agent.stdinEnded = false →
        ∃ id, ex.agents.lookup id = some handle) →
      (∀ id ∈ ex.agents.map (·.1), id ∉ objectPrototypeMembers) →
      (∀ handle agent, (afterCalls spawn ex calls).processes[handle]? = some agent →
        agent.stdinEnded = false →
        ∃ id, (afterCalls spawn ex calls).agents.lookup id = some handle) ∧
      (∀ id ∈ (afterCalls spawn ex calls).agents.map (·.1), id ∉ objectPrototypeMembers) := by
  induction calls with
  | nil =>
      intro ex _ htracked hids
      exact ⟨htracked, hids⟩
  | cons call rest ih =>
      intro ex honce htracked hids
      simp only [initializesOnce, Bool.and_eq_true] at honce
      obtain ⟨hcall, hrest⟩ := honce
      have hstep :
          (∀ handle agent, (afterCall spawn ex call).processes[handle]? = some agent →
            agent.stdinEnded = false →
            ∃ id, (afterCall spawn ex call).agents.lookup id = some handle) ∧
          (∀ id ∈ (afterCall spawn ex call).agents.map (·.1), id ∉ objectPrototypeMembers) := by
        cases call with
        | initializeAgent agentId =>
            simp only [Bool.and_eq_true, decide_eq_true_eq, Option.isNone_iff_eq_none] at hcall
            exact initializeAgent_keeps_tracked spawn ex agentId hcall.1 hcall.2 htracked hids
        | closeAgent agentId =>
            obtain ⟨h1, h2, _⟩ := closeAgent_keeps_tracked ex agentId htracked hids
            exact ⟨h1, h2⟩
        | closeAllAgents =>
            obtain ⟨h1, h2, _⟩ := closeAllAgents_keeps_tracked ex htracked hids
            refine ⟨?_, ?_⟩
            · intro handle agent hagent hopen
              have := h2 agent (List.mem_iff_getElem?.mpr ⟨handle, hagent⟩)
              rw [hopen] at this
              exact Bool.noConfusion this
            · intro id hid
              simp only [afterCall, h1, List.map_nil, List.not_mem_nil] at hid
      exact ih (afterCall spawn ex call) hrest hstep.1 hstep.2

/-- When no agent is initialized while it is running (and no id names a member of
`Object.prototype`), a sequence of `initializeAgent`, `closeAgent` and
`closeAllAgents` calls followed by `closeAllAgents()` leaves no agent active and
no process with an open input stream. -/
theorem closeAllAgents_ends_every_process (spawn : Spawn)
    (agentConfigs : List (String × AgentConfig)) (calls : List Call)
    (honce : initializesOnce spawn (init agentConfigs) calls = true) :
    listActiveAgents (closeAllAgents (afterCalls spawn (init agentConfigs) calls)).2 = [] ∧
    ∀ agent ∈ (closeAllAgents (afterCalls spawn (init agentConfigs) calls)).2.processes,
      agent.stdinEnded = true := by
  obtain ⟨h1, h2⟩ := afterCalls_keeps_tracked spawn calls (init agentConfigs) honce
    (by intro handle agent hagent; simp [init] at hagent) (by simp [init])
  obtain ⟨g1, g2, _⟩ := closeAllAgents_keeps_tracked _ h1 h2
  exact ⟨by simp [listActiveAgents, g1, objectKeys], g2⟩

/-- C30, at the sequence `initializeAgent('fs')`, `initializeAgent('fs')`,
`closeAllAgents()`: the second `initializeAgent` stores the new process over the
first one in `agents`, and `closeAllAgents` ends the input stream of the second
only. No agent is active afterwards, and the first process still has its input
stream open. -/
theorem closeAllAgents_leaves_replaced_process :
    listActiveAgents
      (afterCalls (fun _ _ => .ok ()) (init [("fs", ⟨"fs", "node", ["filesystem-agent.js"]⟩)])
        [.initializeAgent "fs", .initializeAgent "fs", .closeAllAgents]) = [] ∧
    (afterCalls (fun _ _ => .ok ()) (init [("fs", ⟨"fs", "node", ["filesystem-agent.js"]⟩)])
        [.initializeAgent "fs", .initializeAgent "fs", .closeAllAgents]).processes.map
      (·.stdinEnded) = [false, true] := by
  refine ⟨by decide, by decide⟩

end MCPAgentExecutor

end AgentSystem
